import Mathlib

/-! # Natron, `Engine/RotoShapeRenderCairo.cpp`: geometry of the roto shape renderer

A shallow embedding of the point-in-polygon test (`pointInPolygon`), of the bezulation loop
(`RotoShapeRenderCairo::bezulate`), of the dab parameters (`hardnessGaussLookup`,
`getRenderDotParams`), of the conversions between images and raster surfaces
(`convertCairoImageToNatronImage_noColor`, `convertNatronImageToCairoImage`), of the smear dab
(`renderSmearDot` and its callback), of the dab of a stroke (`renderDot_cairo`), of the feather
(`renderFeather_old_cairo` and the control points of a feather patch), of the motion-blur loop
of `renderBezier_cairo` and of the surface set-up of `renderMaskInternal_cairo`, all of
`RotoShapeRenderCairo.cpp`, followed by the properties proved about them.

Conventions of the embedding.
* A C++ `double` is an exact rational number (`ℚ`): no rounding, no NaN.  The only place
  where the source produces an infinite value on purpose is `RectD::setupInfinity`, so the
  four sides of a `RectD` are extended rationals (`EDouble`).
* A `std::list` is a `List`; an iterator is an index into it, the index `length` being `end()`.
  Control points are compared by value.
* Functions that the source calls but that live in other files of the repository or in
  libraries (`Bezier::point_line_intersection`, `QLineF::intersect`, `Bezier::bezierFullPoint`,
  `RectD::setupInfinity`, `std::pow`) are parameters of the embedded functions; the general
  theorems hold for every value of these parameters.  Where a concrete run is needed, they are
  instantiated by the definitions `specPointLineIntersection`, `specIntersect`,
  `specBezierFullPoint`, which follow the specification.
* An image is its rows of elements and a raster surface its bytes; a pointer into them is an
  index, and a counted `for` loop is `forLoop`.  The conversion of a floating-point value to
  an `unsigned char` and the conversion `PIX (...)` to the pixel type are parameters.
* The `while` loop of `bezulate` need not terminate: the embedding takes a bound on the number
  of its iterations and reports `outOfFuel` when the loop is still running after them.  The
  loop of `renderFeather_old_cairo` and the motion-blur loop are embedded in the same way.
* A division of `double` whose divisor may be zero is `checkedDiv`, which records it; the
  conversion of an image to a surface is also embedded with the list of the divisions that it
  performs (`convertNatronImageToCairoImageChecked`).  The undefined `erase` of a range whose
  end comes before its start is reported as `undefinedBehaviour`, and an assignment through a
  pointer that has left its row of an image makes the result of `renderSmearDot` `none`.
  Assertions are not executed (release build).
-/

namespace Natron

/-! ## Data model -/

/-- A 2D point with `double` coordinates (`Point` of the engine). -/
structure Point where
  x : ℚ
  y : ℚ
deriving DecidableEq

instance : Inhabited Point := ⟨⟨0, 0⟩⟩

/-- A `double` that may be infinite: a side of a `RectD`. -/
inductive EDouble where
  | negInf
  | fin (q : ℚ)
  | posInf
deriving DecidableEq

/-- The comparison `a < b` of two doubles, infinities included. -/
def EDouble.lt : EDouble → EDouble → Bool
  | .negInf, .negInf => false
  | .negInf, _ => true
  | .fin _, .negInf => false
  | .fin a, .fin b => decide (a < b)
  | .fin _, .posInf => true
  | .posInf, _ => false

/-- The comparison `a >= b` of two doubles, infinities included. -/
def EDouble.ge (a b : EDouble) : Bool := !(EDouble.lt a b)

/-- The rectangle `RectD`: left `x1`, right `x2`, bottom `y1`, top `y2`. -/
structure RectD where
  x1 : EDouble
  x2 : EDouble
  y1 : EDouble
  y2 : EDouble
deriving DecidableEq

/-- The fill rule `Bezier::FillRuleEnum`. -/
inductive FillRuleEnum where
  | eFillRuleOddEven
  | eFillRuleWinding
deriving DecidableEq

/-- A control point `BezierCP` evaluated at the render time: its position and its left and
right tangent handles (`getPositionAtTime`, `getLeftBezierPointAtTime`,
`getRightBezierPointAtTime`). -/
structure BezierCP where
  pos : Point
  left : Point
  right : Point
deriving DecidableEq

instance : Inhabited BezierCP := ⟨⟨default, default, default⟩⟩

/-- The list of control points `BezierCPs` (a `std::list` of shared pointers). -/
abbrev BezierCPs := List BezierCP

/-! ## `pointInPolygon` (lines 455-484) -/

/-- The type of `Bezier::point_line_intersection (p1, p2, pos, &winding)`: the new value of the
winding number after the edge `p1 → p2` has been tested against the point `pos`. -/
abbrev PointLineIntersection := Point → Point → Point → Int → Int

/-- The loop `for (; cur != polygon.end(); ++cur, ++last_pt)` of `pointInPolygon`.  The
arguments are the index and the value of `last_pt`, the points from `cur` to the end of the
list, and the winding number; the result is the final `last_pt` and winding number. -/
def windingLoop (pli : PointLineIntersection) (p : Point) :
    Nat → Point → List Point → Int → Nat × Point × Int
  | idx, last_pt, [], winding_number => (idx, last_pt, winding_number)
  | idx, last_pt, cur :: rest, winding_number =>
    windingLoop pli p (idx + 1) cur rest (pli last_pt cur p winding_number)

/-- The function `pointInPolygon (p, polygon, featherPolyBBox, rule)`.  The operator `%` of
C++ truncates towards zero (`Int.tmod`). -/
def pointInPolygon (pli : PointLineIntersection) (p : Point) (polygon : List Point)
    (featherPolyBBox : RectD) (rule : FillRuleEnum) : Bool :=
  if EDouble.lt (.fin p.x) featherPolyBBox.x1 || EDouble.ge (.fin p.x) featherPolyBBox.x2
      || EDouble.lt (.fin p.y) featherPolyBBox.y1 || EDouble.ge (.fin p.y) featherPolyBBox.y2
      || polygon.isEmpty then
    false
  else
    match polygon with
    | [] => false
    | last_start :: tail =>
      let (idx, last_pt, winding_number) := windingLoop pli p 0 last_start tail 0
      -- implicitly close last subpath: `last_pt != last_start` compares iterators
      let winding_number :=
        if idx ≠ 0 then pli last_pt last_start p winding_number else winding_number
      if rule = FillRuleEnum.eFillRuleWinding then
        decide (winding_number ≠ 0)
      else
        decide (Int.tmod winding_number 2 ≠ 0)

/-! ## `qpointf_compare_less` and the set of intersection points (lines 434-453, 542-559) -/

/-- The comparator `qpointf_compare_less` of the `std::set` of intersection points. -/
def qpointf_compare_less (lhs rhs : Point) : Bool :=
  if |lhs.x - rhs.x| < 1 / 1000000 then
    if |lhs.y - rhs.y| < 1 / 1000000 then
      false
    else if lhs.y < rhs.y then
      true
    else
      false
  else if lhs.x < rhs.x then
    true
  else
    false

/-- The call `intersections.insert (pt)` on the `std::set<QPointF, qpointf_compare_less>`: the
point is added unless the set holds an equivalent point (neither less than the other).  Only
the size of the set is read by the source, so the set is kept as a list in insertion order. -/
def setInsert (intersections : List Point) (pt : Point) : List Point :=
  if intersections.any (fun q => !qpointf_compare_less pt q && !qpointf_compare_less q pt) then
    intersections
  else
    intersections ++ [pt]

/-! ## The collaborators of `bezulate` -/

/-- The six points that `Bezier::bezierFullPoint` writes through its output pointers. -/
structure FullPoint where
  p0p1 : Point
  p1p2 : Point
  p2p3 : Point
  p0p1_p1p2 : Point
  p1p2_p2p3 : Point
  dest : Point

/-- The functions called by `bezulate` whose code is not in `RotoShapeRenderCairo.cpp`.
* `point_line_intersection` is `Bezier::point_line_intersection`;
* `intersect l1a l1b l2a l2b` is `QLineF (l1a, l1b).intersect (QLineF (l2a, l2b), &pt)`: it is
  `some pt` when the call returns `QLineF::BoundedIntersection` and `none` otherwise;
* `bezierFullPoint p0 p1 p2 p3 t` is `Bezier::bezierFullPoint`;
* `setupInfinity` is the rectangle left by `RectD::setupInfinity ()`. -/
structure Env where
  point_line_intersection : PointLineIntersection
  intersect : Point → Point → Point → Point → Option Point
  bezierFullPoint : Point → Point → Point → Point → ℚ → FullPoint
  setupInfinity : RectD

/-! ## `RotoShapeRenderCairo::bezulate` (lines 488-657) -/

/-- One round of the four `if (p.x < bbox.x1) ...` updates of the bounding box (lines 510-521). -/
def bboxUpdate (bbox : RectD) (p : Point) : RectD :=
  let bbox := if EDouble.lt (.fin p.x) bbox.x1 then { bbox with x1 := .fin p.x } else bbox
  let bbox := if EDouble.lt bbox.x2 (.fin p.x) then { bbox with x2 := .fin p.x } else bbox
  let bbox := if EDouble.lt (.fin p.y) bbox.y1 then { bbox with y1 := .fin p.y } else bbox
  let bbox := if EDouble.lt bbox.y2 (.fin p.y) then { bbox with y2 := .fin p.y } else bbox
  bbox

/-- The loop of lines 506-522: the polygon of the positions of the working curve and the
rectangle obtained from `setupInfinity` by the updates. -/
def polygonAndBBox (env : Env) (simpleClosedCurve : BezierCPs) : List Point × RectD :=
  simpleClosedCurve.foldl
    (fun (acc : List Point × RectD) it => (acc.1 ++ [it.pos], bboxUpdate acc.2 it.pos))
    ([], env.setupInfinity)

/-- The loop of lines 547-555 over the consecutive pairs `(last_pt, cur)` of the polygon, with
its `break` once the set holds more than two points.  `curPoint`, `nextPoint` are the ends of
the chord. -/
def intersectionsLoop (env : Env) (curPoint nextPoint : Point) :
    Point → List Point → List Point → List Point
  | _, [], intersections => intersections
  | last_pt, cur :: rest, intersections =>
    let intersections :=
      match env.intersect curPoint nextPoint last_pt cur with
      | some intersectionPoint => setInsert intersections intersectionPoint
      | none => intersections
    if intersections.length > 2 then
      intersections
    else
      intersectionsLoop env curPoint nextPoint cur rest intersections

/-- The set `intersections` after lines 541-555, for the chord from `curPoint` to
`nextPoint`. -/
def chordIntersections (env : Env) (curPoint nextPoint : Point) (polygon : List Point) :
    List Point :=
  match polygon with
  | [] => []
  | first :: rest => intersectionsLoop env curPoint nextPoint first rest []

/-- The loop of lines 575-581 that walks `pointIt` forward, wrapping at the end of the list,
and pushes the points it meets.  Arguments: the number of steps left, the index of `pointIt`,
the sub-curve built so far. -/
def subCurveLoop (simpleClosedCurve : BezierCPs) : Nat → Nat → BezierCPs → BezierCPs
  | 0, _, subCurve => subCurve
  | steps + 1, pointIt, subCurve =>
    let pointIt := pointIt + 1
    let pointIt := if pointIt = simpleClosedCurve.length then 0 else pointIt
    subCurveLoop simpleClosedCurve steps pointIt
      (subCurve ++ [simpleClosedCurve.getD pointIt default])

/-- What one scan of the working curve does (lines 525-615). -/
inductive ScanOutcome where
  /-- A chord was accepted: the patch pushed and the working curve after the erasure. -/
  | found (patch : BezierCPs) (rest : BezierCPs)
  /-- A chord was accepted and `erase (first, last)` was called with `last` not reachable
  from `first` (undefined behaviour of `std::list`). -/
  | undefinedErase
  /-- No chord was accepted. -/
  | notFound
deriving DecidableEq

/-- The call `l.erase (first, last)` of `std::list`, the iterators given as indices: the
elements of `[first, last)` are removed; when `last` comes before `first` the behaviour is
undefined (`none`). -/
def eraseRange (l : BezierCPs) (first last : Nat) : Option BezierCPs :=
  if first ≤ last then some (l.take first ++ l.drop last) else none

/-- The body of `if (isInside)` (lines 570-609): the sub-curve is built and pushed as a patch,
then the points after `it` are erased.  `i` is the index of `it`, `next` the index of `next`
(already wrapped), `nextIsPassedEnd` the flag of this iteration. -/
def cutAt (simpleClosedCurve : BezierCPs) (n i next : Nat) (nextIsPassedEnd : Bool) :
    ScanOutcome :=
  -- Make the sub closed curve composed of the path from points i to i + n
  let subCurve := [simpleClosedCurve.getD i default]
  let subCurve := subCurveLoop simpleClosedCurve (n - 1) i subCurve
  let subCurve := subCurve ++ [simpleClosedCurve.getD next default]
  -- Remove i + 1 to i + n
  let eraseStart := i + 1
  let eraseStartIsPassedEnd := decide (eraseStart = simpleClosedCurve.length)
  let eraseStart := if eraseStart = simpleClosedCurve.length then 0 else eraseStart
  if (!nextIsPassedEnd && !eraseStartIsPassedEnd) || (nextIsPassedEnd && eraseStartIsPassedEnd) then
    match eraseRange simpleClosedCurve eraseStart next with
    | some rest => ScanOutcome.found subCurve rest
    | none => ScanOutcome.undefinedErase
  else
    -- erase (eraseStart, end ())
    let rest := simpleClosedCurve.take eraseStart
    if rest.isEmpty then
      ScanOutcome.found subCurve rest
    else if next < eraseStart then
      -- erase (begin (), next): `next` still points into the list
      ScanOutcome.found subCurve (rest.drop next)
    else
      -- `next` pointed to an erased element
      ScanOutcome.undefinedErase

/-- The loop `for (it = begin; it != end; ++it)` of lines 525-615, for a chord length `n`.
Arguments: the points from `it` to the end of the list, the index `i` of `it`, and the index
of `next` (`length` when `next == end ()`).  A `continue` (line 558) goes to `++it` without
the increment of `next` of lines 612-614. -/
def scanLoop (env : Env) (simpleClosedCurve : BezierCPs) (polygon : List Point) (bbox : RectD)
    (n : Nat) : BezierCPs → Nat → Nat → ScanOutcome
  | [], _, _ => ScanOutcome.notFound
  | it :: more, i, next =>
    let nextIsPassedEnd := decide (next = simpleClosedCurve.length)
    let next := if next = simpleClosedCurve.length then 0 else next
    -- mid-point of the line segment between points i and i + n
    let curPoint := it.pos
    let nextPoint := (simpleClosedCurve.getD next default).pos
    let intersections := chordIntersections env curPoint nextPoint polygon
    if intersections.length ≠ 2 then
      scanLoop env simpleClosedCurve polygon bbox n more (i + 1) next
    else
      let midPoint : Point := ⟨(nextPoint.x + curPoint.x) / 2, (nextPoint.y + curPoint.y) / 2⟩
      let isInside := pointInPolygon env.point_line_intersection midPoint polygon bbox
        FillRuleEnum.eFillRuleWinding
      if isInside then
        cutAt simpleClosedCurve n i next nextIsPassedEnd
      else
        -- increment for next iteration
        let next := if next ≠ simpleClosedCurve.length then next + 1 else next
        scanLoop env simpleClosedCurve polygon bbox n more (i + 1) next

/-- The body of `for (int n = 3; n >= 2; --n)` for one `n` (lines 498-615): `next` starts at
`begin + n`, the polygon and its box are built, the curve is scanned. -/
def scanFor (env : Env) (simpleClosedCurve : BezierCPs) (n : Nat) : ScanOutcome :=
  let pb := polygonAndBBox env simpleClosedCurve
  scanLoop env simpleClosedCurve pb.1 pb.2 n simpleClosedCurve 0 n

/-- The loop `for (int n = 3; n >= 2; --n)` with its `if (found) break;` (lines 497-619). -/
def scanAll (env : Env) (simpleClosedCurve : BezierCPs) : ScanOutcome :=
  match scanFor env simpleClosedCurve 3 with
  | ScanOutcome.notFound => scanFor env simpleClosedCurve 2
  | outcome => outcome

/-- The loop of lines 628-649: every point is followed by a new control point at the
parametric midpoint of the segment to the next point.  Arguments as for `scanLoop`, and the
curve `subdivisedCurve` built so far. -/
def subdivideLoop (env : Env) (simpleClosedCurve : BezierCPs) :
    BezierCPs → Nat → BezierCPs → BezierCPs
  | [], _, subdivisedCurve => subdivisedCurve
  | it :: more, next, subdivisedCurve =>
    let next := if next = simpleClosedCurve.length then 0 else next
    let nextCp := simpleClosedCurve.getD next default
    let fp := env.bezierFullPoint it.pos it.right nextCp.left nextCp.pos (1 / 2)
    let controlPoint : BezierCP := ⟨fp.dest, fp.p0p1_p1p2, fp.p1p2_p2p3⟩
    let subdivisedCurve := subdivisedCurve ++ [it, controlPoint]
    -- increment for next iteration
    let next := if next ≠ simpleClosedCurve.length then next + 1 else next
    subdivideLoop env simpleClosedCurve more next subdivisedCurve

/-- The body of `if (!found)` (lines 621-651): the subdivided curve. -/
def subdivide (env : Env) (simpleClosedCurve : BezierCPs) : BezierCPs :=
  let next := if 0 ≠ simpleClosedCurve.length then 1 else 0
  subdivideLoop env simpleClosedCurve simpleClosedCurve next []

/-- The result of running `bezulate` with a bound on the number of iterations of its
`while` loop. -/
inductive BezulateResult where
  /-- The function returned; the patches pushed on `patches`, in order. -/
  | returned (patches : List BezierCPs)
  /-- The function ran into the undefined `erase` of `ScanOutcome.undefinedErase`. -/
  | undefinedBehaviour
  /-- The `while` loop was still running after the allowed number of iterations. -/
  | outOfFuel
deriving DecidableEq

/-- The `while (simpleClosedCurve.size () > 4)` loop of `bezulate` and the final push of the
remainder (lines 495-656).  The first argument bounds the number of iterations of the loop. -/
def bezulateLoop (env : Env) : Nat → BezierCPs → List BezierCPs → BezulateResult
  | fuel, simpleClosedCurve, patches =>
    if simpleClosedCurve.length > 4 then
      match fuel with
      | 0 => BezulateResult.outOfFuel
      | fuel + 1 =>
        match scanAll env simpleClosedCurve with
        | ScanOutcome.found patch rest => bezulateLoop env fuel rest (patches ++ [patch])
        | ScanOutcome.undefinedErase => BezulateResult.undefinedBehaviour
        | ScanOutcome.notFound => bezulateLoop env fuel (subdivide env simpleClosedCurve) patches
    else if !simpleClosedCurve.isEmpty then
      BezulateResult.returned (patches ++ [simpleClosedCurve])
    else
      BezulateResult.returned patches

/-- The function `RotoShapeRenderCairo::bezulate (time, cps, patches)`, the time being fixed
in the control points; the result lists the patches pushed on `patches`. -/
def bezulate (env : Env) (fuel : Nat) (cps : BezierCPs) : BezulateResult :=
  bezulateLoop env fuel cps []

/-- The successive values of `simpleClosedCurve` at the head of the `while` loop in a run of
`bezulate` (the input curve first), for the same bound on the number of iterations.  This is
a trace of `bezulateLoop`, used to state properties of a run. -/
def workingCurves (env : Env) : Nat → BezierCPs → List BezierCPs
  | fuel, simpleClosedCurve =>
    if simpleClosedCurve.length > 4 then
      match fuel with
      | 0 => [simpleClosedCurve]
      | fuel + 1 =>
        match scanAll env simpleClosedCurve with
        | ScanOutcome.found _ rest => simpleClosedCurve :: workingCurves env fuel rest
        | ScanOutcome.undefinedErase => [simpleClosedCurve]
        | ScanOutcome.notFound =>
          simpleClosedCurve :: workingCurves env fuel (subdivide env simpleClosedCurve)
    else
      [simpleClosedCurve]

/-! ## `hardnessGaussLookup` and `getRenderDotParams` (lines 661-723) -/

/-- The function `hardnessGaussLookup (f)`: 2 hyperbolas + 1 parabola to approximate a gauss
function. -/
def hardnessGaussLookup (f : ℚ) : ℚ :=
  if f < -(1 / 2) then
    let f := -1 - f
    2 * f * f
  else if f < 1 / 2 then
    1 - 2 * f * f
  else
    let f := 1 - f
    2 * f * f

/-- The constant `maxStops` of `getRenderDotParams`. -/
def maxStops : ℚ := 8

/-- The constant `incr = 1. / maxStops` of `getRenderDotParams`. -/
def incr : ℚ := 1 / maxStops

/-- The loop `for (double d = 0; d <= 1.; d += incr)` of lines 717-720, from the current value
of `d` and the stops pushed so far.  `pow` is `std::pow`. -/
def opacityStopsLoop (pow : ℚ → ℚ → ℚ) (exp alpha : ℚ) (d : ℚ) (opacityStops : List (ℚ × ℚ)) :
    List (ℚ × ℚ) :=
  if d ≤ 1 then
    let o := hardnessGaussLookup (pow d exp)
    opacityStopsLoop pow exp alpha (d + incr) (opacityStops ++ [(d, o * alpha)])
  else
    opacityStops
termination_by (⌊(1 - d) * 8⌋ + 1).toNat
decreasing_by
  have h1 : (1 - (d + incr)) * 8 = (1 - d) * 8 - 1 := by
    simp only [incr, maxStops]; ring
  have h2 : (0 : ℤ) ≤ ⌊(1 - d) * 8⌋ := Int.floor_nonneg.mpr (by linarith)
  rw [h1, Int.floor_sub_one]
  omega

/-- The values that `getRenderDotParams` writes through its four output pointers;
`opacityStops` is `none` when the pointer passed is null. -/
structure RenderDotParams where
  internalDotRadius : ℚ
  externalDotRadius : ℚ
  spacing : ℚ
  opacityStops : Option (List (ℚ × ℚ))

/-- The function `getRenderDotParams`.  `pow` is `std::pow`; the argument `opacityStops` is
the vector behind the pointer before the call (`none` for a null pointer). -/
def getRenderDotParams (pow : ℚ → ℚ → ℚ) (alpha brushSizePixel brushHardness brushSpacing
    pressure : ℚ) (pressureAffectsOpacity pressureAffectsSize pressureAffectsHardness : Bool)
    (opacityStops : Option (List (ℚ × ℚ))) : RenderDotParams :=
  let brushSizePixel := if pressureAffectsSize then brushSizePixel * pressure else brushSizePixel
  let brushHardness :=
    if pressureAffectsHardness then brushHardness * pressure else brushHardness
  let alpha := if pressureAffectsOpacity then alpha * pressure else alpha
  let internalDotRadius := max (brushSizePixel * brushHardness) 1 / 2
  let externalDotRadius := max brushSizePixel 1 / 2
  let spacing := externalDotRadius * 2 * brushSpacing
  let opacityStops :=
    match opacityStops with
    | none => none
    | some _ =>
      -- opacityStops->clear ()
      let stops : List (ℚ × ℚ) := []
      let exp := if brushHardness ≠ 1 then (2 / 5) / (1 - brushHardness) else 0
      if brushHardness ≠ 1 then
        some (opacityStopsLoop pow exp alpha 0 stops)
      else
        some stops
  ⟨internalDotRadius, externalDotRadius, spacing, opacityStops⟩

/-! ## Images, raster surfaces and counted loops -/

/-- Modelled from the spec: the class `RectI` is not in the source files at hand; it is the
rectangle of integer pixel coordinates `[x1, x2) x [y1, y2)` ("region of interest"). -/
structure RectI where
  x1 : Int
  y1 : Int
  x2 : Int
  y2 : Int
deriving DecidableEq

/-- The method `RectI::width ()`. -/
def RectI.width (r : RectI) : Int := r.x2 - r.x1

/-- The method `RectI::height ()`. -/
def RectI.height (r : RectI) : Int := r.y2 - r.y1

/-- Modelled from the spec: the class `Image` is not in the source files at hand.  The
specification asks for "an image abstraction offering scoped read/write pixel access by
coordinate and channel-count/bit-depth introspection".  An image is its bounds, its number of
components and its rows: `data y e` is the element `e` of the row `y`, the component `c` of
the pixel `x` being the element `x * nComps + c`.  A pointer into a row is an element index,
so that `ptr[k]` and `ptr += k` are additions. -/
structure Image where
  bounds : RectI
  nComps : Nat
  data : Int → Int → ℚ

/-- The pointer returned by `pixelAt (x, y)`: the element index of the pixel in the row `y`, or
`none` (null pointer) when the pixel is outside of the bounds. -/
def Image.pixelAt (image : Image) (x y : Int) : Option Int :=
  if image.bounds.x1 ≤ x ∧ x < image.bounds.x2 ∧ image.bounds.y1 ≤ y ∧ y < image.bounds.y2 then
    some (x * image.nComps)
  else
    none

/-- The value of the component `c` of the pixel `(x, y)`. -/
def Image.get (image : Image) (x y : Int) (c : Nat) : ℚ := image.data y (x * image.nComps + c)

/-- The assignment `ptr[0] = v` for a pointer `ptr` into the row `y`. -/
def Image.set (image : Image) (y ptr : Int) (v : ℚ) : Image :=
  { image with data := fun y0 e0 => if y0 = y ∧ e0 = ptr then v else image.data y0 e0 }

/-- The bytes of a raster surface, by offset from `cairo_image_surface_get_data`. -/
abbrev SurfaceData := Int → Nat

/-- The assignment `ptr[0] = v` on the bytes of a surface. -/
def SurfaceData.set (data : SurfaceData) (ptr : Int) (v : Nat) : SurfaceData :=
  fun p => if p = ptr then v else data p

/-- The loop `for (int i = start; i < start + count; ++i) state = body (i, state)`. -/
def forLoop {σ : Type} (body : Int → σ → σ) : Nat → Int → σ → σ
  | 0, _, state => state
  | count + 1, i, state => forLoop body count (i + 1) (body i state)

/-- The conversion of a `double` to an `int`: the value is truncated towards zero (values
that an `int` cannot hold are not considered). -/
def truncToInt (q : ℚ) : Int := if 0 ≤ q then ⌊q⌋ else ⌈q⌉

/-- A division of two `double`, with the information whether the divisor was zero (the
quotient is then an infinity or a NaN in the source, and of no meaning here). -/
def checkedDiv (a b : ℚ) : ℚ × Bool := (a / b, decide (b = 0))

/-! ## Surface to image: `convertCairoImageToNatronImage_noColor` (lines 84-225) -/

/-- The value `cairoPixel` of line 110, from the byte `*srcPix`. -/
def cairoPixelOf (maxValue : ℚ) (inverted : Bool) (byte : Nat) : ℚ :=
  if !inverted then (byte : ℚ) / 255 * maxValue else 1 - (byte : ℚ) / 255 * maxValue

/-- The `switch (dstNComps)` of lines 111-133: the components written through `dstPix`, a
pointer into the row `y` of the image.  `PIX` is the conversion `PIX (...)` of a `double` to
the pixel type. -/
def writeNatronPixel (PIX : ℚ → ℚ) (dstNComps : Nat) (useOpacity : Bool) (image : Image)
    (y dstPix : Int) (cairoPixel r g b opacity : ℚ) : Image :=
  match dstNComps with
  | 4 =>
    let image := image.set y (dstPix + 0) (PIX (cairoPixel * r))
    let image := image.set y (dstPix + 1) (PIX (cairoPixel * g))
    let image := image.set y (dstPix + 2) (PIX (cairoPixel * b))
    image.set y (dstPix + 3) (if useOpacity then PIX (cairoPixel * opacity) else PIX cairoPixel)
  | 1 =>
    image.set y (dstPix + 0) (if useOpacity then PIX (cairoPixel * opacity) else PIX cairoPixel)
  | 3 =>
    let image := image.set y (dstPix + 0) (PIX (cairoPixel * r))
    let image := image.set y (dstPix + 1) (PIX (cairoPixel * g))
    image.set y (dstPix + 2) (PIX (cairoPixel * b))
  | 2 =>
    let image := image.set y (dstPix + 0) (PIX (cairoPixel * r))
    image.set y (dstPix + 1) (PIX (cairoPixel * g))
  | _ => image

/-- The value that `writeNatronPixel` gives to the component `c` of a pixel: the opacity
component for a single component and for the fourth of four, else the red, green and blue
components in this order. -/
def natronPixelValue (PIX : ℚ → ℚ) (dstNComps : Nat) (useOpacity : Bool)
    (cairoPixel r g b opacity : ℚ) (c : Nat) : ℚ :=
  if dstNComps = 1 ∨ c = 3 then
    (if useOpacity then PIX (cairoPixel * opacity) else PIX cairoPixel)
  else if c = 0 then PIX (cairoPixel * r)
  else if c = 1 then PIX (cairoPixel * g)
  else PIX (cairoPixel * b)

/-- The inner loop `for (int x = 0; x < width; ++x, dstPix += dstNComps, srcPix += srcNComps)`
of lines 107-139, on the row `y` of the image.  The state is `dstPix`, `srcPix` and the
image. -/
def cairoToNatronRow (PIX : ℚ → ℚ) (maxValue : ℚ) (dstNComps srcNComps : Nat)
    (useOpacity inverted : Bool) (cdata : SurfaceData) (y : Int) (r g b opacity : ℚ)
    (width : Nat) (state : Int × Int × Image) : Int × Int × Image :=
  forLoop
    (fun _ (s : Int × Int × Image) =>
      let cairoPixel := cairoPixelOf maxValue inverted (cdata s.2.1)
      (s.1 + dstNComps, s.2.1 + srcNComps,
        writeNatronPixel PIX dstNComps useOpacity s.2.2 y s.1 cairoPixel r g b opacity))
    width 0 state

/-- The function template `convertCairoImageToNatronImageForInverted_noColor <PIX, maxValue,
dstNComps, srcNComps, useOpacity, inverted>` (lines 84-141).  `cdata` and `stride` are the
bytes and the stride of the surface.  The row pointer `acc.pixelAt (pixelRod.x1, pixelRod.y1 +
y)` is asserted to be non-null: the rows of `pixelRod` are taken to be rows of the image.  The
state of the outer loop is `srcPix` and the image. -/
def convertCairoImageToNatronImageForInverted_noColor (PIX : ℚ → ℚ) (maxValue : ℚ)
    (dstNComps srcNComps : Nat) (useOpacity inverted : Bool) (cdata : SurfaceData)
    (stride : Int) (image : Image) (pixelRod : RectI) (shapeColor : ℚ × ℚ × ℚ)
    (opacity : ℚ) : Image :=
  let r := if useOpacity then shapeColor.1 * opacity else shapeColor.1
  let g := if useOpacity then shapeColor.2.1 * opacity else shapeColor.2.1
  let b := if useOpacity then shapeColor.2.2 * opacity else shapeColor.2.2
  let width := pixelRod.width
  let srcNElements := width * srcNComps
  (forLoop
    (fun y (rows : Int × Image) =>
      let dstPix := pixelRod.x1 * image.nComps
      let row := cairoToNatronRow PIX maxValue dstNComps srcNComps useOpacity inverted cdata
        (pixelRod.y1 + y) r g b opacity width.toNat (dstPix, rows.1, rows.2)
      (row.2.1 + (stride - srcNElements), row.2.2))
    pixelRod.height.toNat 0 (0, image)).2

/-- The function template `convertCairoImageToNatronImage_noColor <PIX, maxValue>` with the
three dispatch functions it goes through (lines 143-225): `dstNComps` is the number of
components of the image, from 1 to 4, and `srcNComps` is 1 or 4; nothing is done otherwise. -/
def convertCairoImageToNatronImage_noColor (PIX : ℚ → ℚ) (maxValue : ℚ) (cdata : SurfaceData)
    (stride : Int) (srcNComps : Nat) (image : Image) (pixelRod : RectI)
    (shapeColor : ℚ × ℚ × ℚ) (opacity : ℚ) (inverted useOpacity : Bool) : Image :=
  let comps := image.nComps
  if comps = 1 ∨ comps = 2 ∨ comps = 3 ∨ comps = 4 then
    if srcNComps = 1 ∨ srcNComps = 4 then
      convertCairoImageToNatronImageForInverted_noColor PIX maxValue comps srcNComps useOpacity
        inverted cdata stride image pixelRod shapeColor opacity
    else
      image
  else
    image

/-! ## Image to surface: `convertNatronImageToCairoImage` (lines 335-430) -/

/-- The body of the inner loop of `convertNatronImageToCairoImageForComponents` (lines
360-377), for `PIX = float`: the bytes written for the pixel `x` of a row.  `srcPix` reads the
row of the image, `dstPix` is the pointer to the row of the surface, `toUChar` is the
conversion of a floating-point value to an `unsigned char`.  In
`shapeColor[c] == 0 ? 0 : ...` the two branches are brought to one floating-point type, and
the value selected is then converted to a byte. -/
def natronToCairoPixel (toUChar : ℚ → Nat) (maxValue : ℚ) (srcNComps dstNComps : Nat)
    (shapeColor : ℚ × ℚ × ℚ) (srcPix : Int → ℚ) (dstPix : Int) (x : Int)
    (buf : SurfaceData) : SurfaceData :=
  if dstNComps = 1 then
    buf.set (dstPix + x) (toUChar (srcPix (x * srcNComps) / maxValue * 255))
  else if dstNComps = 4 then
    if srcNComps = 4 then
      let buf := buf.set (dstPix + (x * dstNComps + 0))
        (toUChar (if shapeColor.2.2 = 0 then 0
          else srcPix (x * srcNComps + 2) / maxValue / shapeColor.2.2 * 255))
      let buf := buf.set (dstPix + (x * dstNComps + 1))
        (toUChar (if shapeColor.2.1 = 0 then 0
          else srcPix (x * srcNComps + 1) / maxValue / shapeColor.2.1 * 255))
      let buf := buf.set (dstPix + (x * dstNComps + 2))
        (toUChar (if shapeColor.1 = 0 then 0
          else srcPix (x * srcNComps + 0) / maxValue / shapeColor.1 * 255))
      buf.set (dstPix + (x * dstNComps + 3)) 255
    else
      let pix := srcPix x
      let buf := buf.set (dstPix + (x * dstNComps + 0)) (toUChar (pix / maxValue * 255))
      let buf := buf.set (dstPix + (x * dstNComps + 1)) (toUChar (pix / maxValue * 255))
      let buf := buf.set (dstPix + (x * dstNComps + 2)) (toUChar (pix / maxValue * 255))
      buf.set (dstPix + (x * dstNComps + 3)) (toUChar (pix / maxValue * 255))
  else
    buf

/-- The byte that `natronToCairoPixel` writes at the place `c` of the pixel `x` of a row, for
`dstNComps` equal to 1 or 4. -/
def natronToCairoByte (toUChar : ℚ → Nat) (maxValue : ℚ) (srcNComps dstNComps : Nat)
    (shapeColor : ℚ × ℚ × ℚ) (srcPix : Int → ℚ) (x : Int) (c : Nat) : Nat :=
  if dstNComps = 1 then
    toUChar (srcPix (x * srcNComps) / maxValue * 255)
  else if srcNComps = 4 then
    if c = 0 then
      toUChar (if shapeColor.2.2 = 0 then 0
        else srcPix (x * srcNComps + 2) / maxValue / shapeColor.2.2 * 255)
    else if c = 1 then
      toUChar (if shapeColor.2.1 = 0 then 0
        else srcPix (x * srcNComps + 1) / maxValue / shapeColor.2.1 * 255)
    else if c = 2 then
      toUChar (if shapeColor.1 = 0 then 0
        else srcPix (x * srcNComps + 0) / maxValue / shapeColor.1 * 255)
    else
      255
  else
    toUChar (srcPix x / maxValue * 255)

/-- The function template `convertNatronImageToCairoImageForComponents <PIX, maxValue,
srcNComps, dstNComps>` (lines 335-381), for `PIX = float`.  The row pointer `acc.pixelAt
(roi.x1, roi.y1 + y)` is asserted to be non-null.  The state of the outer loop is `dstPix` and
the bytes of the surface. -/
def convertNatronImageToCairoImageForComponents (toUChar : ℚ → Nat) (maxValue : ℚ)
    (srcNComps dstNComps : Nat) (cairoImg : SurfaceData) (stride : Int) (image : Image)
    (roi dstBounds : RectI) (shapeColor : ℚ × ℚ × ℚ) : SurfaceData :=
  let dstPix := (roi.y1 - dstBounds.y1) * stride + (roi.x1 - dstBounds.x1)
  (forLoop
    (fun y (rows : Int × SurfaceData) =>
      let srcPix : Int → ℚ := fun k => image.data (roi.y1 + y) (roi.x1 * image.nComps + k)
      let row := forLoop
        (natronToCairoPixel toUChar maxValue srcNComps dstNComps shapeColor srcPix rows.1)
        roi.width.toNat 0 rows.2
      (rows.1 + stride, row))
    roi.height.toNat 0 (dstPix, cairoImg)).2

/-- The function template `convertNatronImageToCairoImage <PIX, maxValue>` with the dispatch
function it goes through (lines 383-430): `srcNComps` is the number of components of the
image, from 1 to 4, and `dstNComps` is 1 or 4; nothing is done otherwise. -/
def convertNatronImageToCairoImage (toUChar : ℚ → Nat) (maxValue : ℚ) (cairoImg : SurfaceData)
    (dstNComps : Nat) (stride : Int) (image : Image) (roi dstBounds : RectI)
    (shapeColor : ℚ × ℚ × ℚ) : SurfaceData :=
  let numComps := image.nComps
  if numComps = 1 ∨ numComps = 2 ∨ numComps = 3 ∨ numComps = 4 then
    if dstNComps = 1 ∨ dstNComps = 4 then
      convertNatronImageToCairoImageForComponents toUChar maxValue numComps dstNComps cairoImg
        stride image roi dstBounds shapeColor
    else
      cairoImg
  else
    cairoImg

/-- One division `a / b` performed while the byte at the place `c` of a pixel of the surface
is computed: the quotient, and the divisions performed so far followed by this one, noted as
the place `c` and whether the divisor was zero. -/
def recordedDiv (c : Nat) (a b : ℚ) (divisions : List (Nat × Bool)) : ℚ × List (Nat × Bool) :=
  ((checkedDiv a b).1, divisions ++ [(c, (checkedDiv a b).2)])

/-- The expression `shapeColor[k] == 0 ? 0 : (float)(src / maxValue) / shapeColor[k] * 255.f`
of lines 365-367, evaluated for the byte at the place `c` of a pixel: the conditional operator
evaluates only the operand that it selects, so that the two divisions are performed, and
noted, only when `shapeColor[k]` is not 0. -/
def natronToCairoColor (maxValue : ℚ) (c : Nat) (shapeColorK src : ℚ)
    (divisions : List (Nat × Bool)) : ℚ × List (Nat × Bool) :=
  if shapeColorK = 0 then
    (0, divisions)
  else
    let q := recordedDiv c src maxValue divisions
    let r := recordedDiv c q.1 shapeColorK q.2
    (r.1 * 255, r.2)

/-- The body of the inner loop of `convertNatronImageToCairoImageForComponents` (lines
360-377) once more, with the divisions that it performs: the state is the bytes of the surface
and the divisions performed so far.  The bytes are those of `natronToCairoPixel`. -/
def natronToCairoPixelChecked (toUChar : ℚ → Nat) (maxValue : ℚ) (srcNComps dstNComps : Nat)
    (shapeColor : ℚ × ℚ × ℚ) (srcPix : Int → ℚ) (dstPix : Int) (x : Int)
    (state : SurfaceData × List (Nat × Bool)) : SurfaceData × List (Nat × Bool) :=
  if dstNComps = 1 then
    let q := recordedDiv 0 (srcPix (x * srcNComps)) maxValue state.2
    (state.1.set (dstPix + x) (toUChar (q.1 * 255)), q.2)
  else if dstNComps = 4 then
    if srcNComps = 4 then
      let blue := natronToCairoColor maxValue 0 shapeColor.2.2 (srcPix (x * srcNComps + 2)) state.2
      let buf := state.1.set (dstPix + (x * dstNComps + 0)) (toUChar blue.1)
      let green := natronToCairoColor maxValue 1 shapeColor.2.1 (srcPix (x * srcNComps + 1)) blue.2
      let buf := buf.set (dstPix + (x * dstNComps + 1)) (toUChar green.1)
      let red := natronToCairoColor maxValue 2 shapeColor.1 (srcPix (x * srcNComps + 0)) green.2
      let buf := buf.set (dstPix + (x * dstNComps + 2)) (toUChar red.1)
      (buf.set (dstPix + (x * dstNComps + 3)) 255, red.2)
    else
      let pix := srcPix x
      let q0 := recordedDiv 0 pix maxValue state.2
      let buf := state.1.set (dstPix + (x * dstNComps + 0)) (toUChar (q0.1 * 255))
      let q1 := recordedDiv 1 pix maxValue q0.2
      let buf := buf.set (dstPix + (x * dstNComps + 1)) (toUChar (q1.1 * 255))
      let q2 := recordedDiv 2 pix maxValue q1.2
      let buf := buf.set (dstPix + (x * dstNComps + 2)) (toUChar (q2.1 * 255))
      let q3 := recordedDiv 3 pix maxValue q2.2
      (buf.set (dstPix + (x * dstNComps + 3)) (toUChar (q3.1 * 255)), q3.2)
  else
    state

/-- The function template `convertNatronImageToCairoImageForComponents` (lines 335-381) once
more, with the divisions that it performs: the bytes of the surface, and the divisions in the
order in which the loops perform them. -/
def convertNatronImageToCairoImageForComponentsChecked (toUChar : ℚ → Nat) (maxValue : ℚ)
    (srcNComps dstNComps : Nat) (cairoImg : SurfaceData) (stride : Int) (image : Image)
    (roi dstBounds : RectI) (shapeColor : ℚ × ℚ × ℚ) : SurfaceData × List (Nat × Bool) :=
  let dstPix := (roi.y1 - dstBounds.y1) * stride + (roi.x1 - dstBounds.x1)
  (forLoop
    (fun y (rows : Int × SurfaceData × List (Nat × Bool)) =>
      let srcPix : Int → ℚ := fun k => image.data (roi.y1 + y) (roi.x1 * image.nComps + k)
      let row := forLoop
        (natronToCairoPixelChecked toUChar maxValue srcNComps dstNComps shapeColor srcPix rows.1)
        roi.width.toNat 0 rows.2
      (rows.1 + stride, row))
    roi.height.toNat 0 (dstPix, cairoImg, [])).2

/-- The function template `convertNatronImageToCairoImage <PIX, maxValue>` with the dispatch
function it goes through (lines 383-430) once more, with the divisions that it performs. -/
def convertNatronImageToCairoImageChecked (toUChar : ℚ → Nat) (maxValue : ℚ)
    (cairoImg : SurfaceData) (dstNComps : Nat) (stride : Int) (image : Image)
    (roi dstBounds : RectI) (shapeColor : ℚ × ℚ × ℚ) : SurfaceData × List (Nat × Bool) :=
  let numComps := image.nComps
  if numComps = 1 ∨ numComps = 2 ∨ numComps = 3 ∨ numComps = 4 then
    if dstNComps = 1 ∨ dstNComps = 4 then
      convertNatronImageToCairoImageForComponentsChecked toUChar maxValue numComps dstNComps
        cairoImg stride image roi dstBounds shapeColor
    else
      (cairoImg, [])
  else
    (cairoImg, [])

/-! ## The smear dab: `renderSmearDot` and `renderSmearRenderDot_cairo` (lines 984-1074) -/

/-- The constant `INT_MIN`, as compared with a `double`. -/
def INT_MIN : ℚ := -2147483648

/-- The functions called by the smear code whose code is not in `RotoShapeRenderCairo.cpp`.
* `pow` is `std::pow`;
* `dampenSmearEffect` is `RotoShapeRenderNodePrivate::dampenSmearEffect`;
* `toPixelEnclosing x1 y1 x2 y2` is `RectD (x1, y1, x2, y2).toPixelEnclosing (0, par, &r)`. -/
structure SmearEnv where
  pow : ℚ → ℚ → ℚ
  dampenSmearEffect : Point → Point → ℚ → Point
  toPixelEnclosing : ℚ → ℚ → ℚ → ℚ → RectI

/-- Modelled from the spec: the constructor of `Image` and `Image::pasteFrom` are not in the
source files at hand.  The specification: "each new dab first snapshots a patch of the
destination image around the *previous* dab center into a temporary buffer".  The temporary
image has the given bounds and the components and the values of the destination image. -/
def snapshotImage (outputImage : Image) (bounds : RectI) : Image :=
  { outputImage with bounds := bounds }

/-- Whether a pointer into a row of the image points to an element of the row: a row holds
the elements of the pixels from `bounds.x1` to `bounds.x2`, and what lies past its end (the
next row, or memory outside of the buffer) is not an element of it. -/
def Image.inRow (image : Image) (ptr : Int) : Bool :=
  decide (image.bounds.x1 * image.nComps ≤ ptr ∧ ptr < image.bounds.x2 * image.nComps)

/-- The function `renderSmearDot` (lines 984-1047).  The state of the outer loop is `yPrev`,
`mask_pixels`, the output image and whether a write was made outside of a row; the state of
the inner loop is `xPrev`, `dstPixels`, the output image and the same information.
`Image::convertPixelDepth <unsigned char, float>` divides by 255.  The pointer `dstPixels` is
checked once per row (line 1027) and then advanced without any check: an assignment
`dstPixels[k] = ...` through a pointer that has left the row is not made on the image but
noted, and the result is then `none`: what the source does there (it writes into the next row,
or outside of the buffer) is not described by the embedding. -/
def renderSmearDot (env : SmearEnv) (maskData : SurfaceData)
    (maskStride maskWidth maskHeight : Int) (prev next : Point) (brushSizePixels : ℚ)
    (nComps : Nat) (outputImage : Image) : Option Image :=
  -- First copy the portion of the image around the previous dot into tmpBuf
  let prevDotBounds := env.toPixelEnclosing (prev.x - brushSizePixels / 2)
    (prev.y - brushSizePixels / 2) (prev.x + brushSizePixels / 2) (prev.y + brushSizePixels / 2)
  let tmpBuf := snapshotImage outputImage prevDotBounds
  let nextDotBounds : RectI :=
    ⟨truncToInt (next.x - (Int.tdiv maskWidth 2 : Int)),
      truncToInt (next.y - (Int.tdiv maskHeight 2 : Int)),
      truncToInt (next.x + (Int.tdiv maskWidth 2 : Int)),
      truncToInt (next.y + (Int.tdiv maskHeight 2 : Int))⟩
  let result := forLoop
    (fun y (rows : Int × Int × Image × Bool) =>
      match rows.2.2.1.pixelAt nextDotBounds.x1 y with
      | none => (rows.1 + 1, rows.2.1 + maskStride, rows.2.2)
      | some dstPixels =>
        let row := forLoop
          (fun x (s : Int × Int × Image × Bool) =>
            match tmpBuf.pixelAt s.1 rows.1 with
            | some srcPixels =>
              let mask_scale : ℚ := (maskData (rows.2.1 + (x - nextDotBounds.x1)) : ℚ) / 255
              let one_minus_mask_scale := 1 - mask_scale
              let pixel := forLoop
                (fun k (t : Image × Bool) =>
                  if t.1.inRow (s.2.1 + k) then
                    (t.1.set y (s.2.1 + k)
                      (tmpBuf.data rows.1 (srcPixels + k) * mask_scale +
                        t.1.data y (s.2.1 + k) * one_minus_mask_scale), t.2)
                  else
                    (t.1, true))
                nComps 0 s.2.2
              (s.1 + 1, s.2.1 + nComps, pixel)
            | none => (s.1 + 1, s.2.1 + nComps, s.2.2))
          (nextDotBounds.x2 - nextDotBounds.x1).toNat nextDotBounds.x1
          (prevDotBounds.x1, dstPixels, rows.2.2)
        (rows.1 + 1, rows.2.1 + maskStride, row.2.2))
    (nextDotBounds.y2 - nextDotBounds.y1).toNat nextDotBounds.y1
    (prevDotBounds.y1, 0, outputImage, false)
  if result.2.2.2 then none else some result.2.2.1

/-- The structure `RenderSmearCairoData`, the mask surface being its size, stride and bytes. -/
structure RenderSmearCairoData where
  dstImage : Image
  brushSizePixel : ℚ
  brushSpacing : ℚ
  brushHardness : ℚ
  pressureAffectsOpacity : Bool
  pressureAffectsHardness : Bool
  pressureAffectsSize : Bool
  opacity : ℚ
  maskWidth : Int
  maskHeight : Int
  maskStride : Int
  maskData : SurfaceData

/-- The callback `renderSmearRenderDot_cairo` (lines 1049-1074): the value returned, the value
left in `*spacing` and the user data, whose image is written in place; `none` when
`renderSmearDot` has written outside of a row of the image. -/
def renderSmearRenderDot_cairo (env : SmearEnv) (myData : RenderSmearCairoData)
    (prevCenter center : Point) (pressure : ℚ) : Option (Bool × ℚ × RenderSmearCairoData) :=
  let params := getRenderDotParams env.pow myData.opacity myData.brushSizePixel
    myData.brushHardness myData.brushSpacing pressure myData.pressureAffectsOpacity
    myData.pressureAffectsSize myData.pressureAffectsHardness none
  let spacing := params.spacing
  if prevCenter.x = INT_MIN ∨ prevCenter.y = INT_MIN then
    some (false, spacing, myData)
  else if prevCenter.x = center.x ∧ prevCenter.y = center.y then
    some (false, spacing, myData)
  else
    -- To dampen the effect of the smear, we clamp the spacing
    let prevPoint := env.dampenSmearEffect prevCenter center spacing
    match renderSmearDot env myData.maskData myData.maskStride myData.maskWidth
      myData.maskHeight prevPoint center myData.brushSizePixel myData.dstImage.nComps
      myData.dstImage with
    | some image => some (true, spacing, { myData with dstImage := image })
    | none => none

/-! ## The control points of a feather patch (lines 1332-1342 and 1471-1481) -/

/-- The four intermediate control points of a feather patch. -/
structure FeatherControlPoints where
  p0p1 : Point
  p1p0 : Point
  p2p3 : Point
  p3p2 : Point

/-- The "linear interpolation" of `renderFeather_old_cairo` (lines 1332-1342) and of
`renderFeather_cairo` (lines 1471-1481), which are the same text, with `fallOffInverse =
1. / fallOff` (lines 1185 and 1402). -/
def featherControlPoints (fallOff : ℚ) (p0 p1 p2 p3 : Point) : FeatherControlPoints :=
  let fallOffInverse := 1 / fallOff
  { p0p1 := ⟨(p0.x * fallOff * 2 + fallOffInverse * p1.x) / (fallOff * 2 + fallOffInverse),
      (p0.y * fallOff * 2 + fallOffInverse * p1.y) / (fallOff * 2 + fallOffInverse)⟩
    p1p0 := ⟨(p0.x * fallOff + 2 * fallOffInverse * p1.x) / (fallOff + 2 * fallOffInverse),
      (p0.y * fallOff + 2 * fallOffInverse * p1.y) / (fallOff + 2 * fallOffInverse)⟩
    p2p3 := ⟨(p3.x * fallOff + 2 * fallOffInverse * p2.x) / (fallOff + 2 * fallOffInverse),
      (p3.y * fallOff + 2 * fallOffInverse * p2.y) / (fallOff + 2 * fallOffInverse)⟩
    p3p2 := ⟨(p3.x * fallOff * 2 + fallOffInverse * p2.x) / (fallOff * 2 + fallOffInverse),
      (p3.y * fallOff * 2 + fallOffInverse * p2.y) / (fallOff * 2 + fallOffInverse)⟩ }

/-! ## `RotoShapeRenderCairo::renderMaskInternal_cairo` (lines 1888-2033) -/

/-- The pixel formats `cairo_format_t` used by the renderer. -/
inductive CairoFormat where
  | CAIRO_FORMAT_ARGB32
  | CAIRO_FORMAT_A8
deriving DecidableEq

/-- The bit depths `ImageBitDepthEnum`. -/
inductive ImageBitDepthEnum where
  | eImageBitDepthNone
  | eImageBitDepthByte
  | eImageBitDepthShort
  | eImageBitDepthHalf
  | eImageBitDepthFloat
deriving DecidableEq

/-- What `renderMaskInternal_cairo` reads from the item `rotoItem` at the render time: the
results of the two `dynamic_cast`, the value of the build-up knob, the colour and the
opacity. -/
structure RotoDrawableItem where
  isStroke : Bool
  isBezier : Bool
  buildUp : Bool
  color : ℚ × ℚ × ℚ
  opacity : ℚ

/-- The rasterization library and the conversions of the language, as seen by
`renderMaskInternal_cairo`.
* `formatStrideForWidth` is `cairo_format_stride_for_width`;
* `createdData format width height` is the content of a surface made by
  `cairo_image_surface_create`;
* `statusSuccess` tells whether `cairo_surface_status` is `CAIRO_STATUS_SUCCESS` for the
  surface just created (by either creation function);
* `draw` is all the drawing done on the surface between its creation and
  `cairo_surface_flush` (`renderStroke_cairo` or `renderBezier_cairo`);
* `toUChar` converts a `float` to an `unsigned char`, `pixByte` and `pixShort` are the
  conversions `PIX (...)` for `unsigned char` and `unsigned short` pixels. -/
structure CairoBackend where
  formatStrideForWidth : CairoFormat → Int → Int
  createdData : CairoFormat → Int → Int → SurfaceData
  statusSuccess : Bool
  draw : SurfaceData → SurfaceData
  toUChar : ℚ → Nat
  pixByte : ℚ → ℚ
  pixShort : ℚ → ℚ

/-- The choice of the surface format and of `srcNComps` (lines 1908-1930). -/
def surfaceFormat (rotoItem : RotoDrawableItem) (numComponents : Nat) : CairoFormat × Nat :=
  if rotoItem.isStroke then
    let doBuildUp := rotoItem.buildUp
    -- For the non build-up case, we use the LIGHTEN compositing operator
    if !doBuildUp || decide (numComponents > 1) then
      (CairoFormat.CAIRO_FORMAT_ARGB32, 4)
    else
      (CairoFormat.CAIRO_FORMAT_A8, 1)
  else
    (CairoFormat.CAIRO_FORMAT_A8, 1)

/-- The function `renderMaskInternal_cairo`, as far as the destination image goes: the image
`dstImage` after the call.  `numComponents` is `components.getNumComponents ()`. -/
def renderMaskInternal_cairo (cairo : CairoBackend) (rotoItem : RotoDrawableItem) (roi : RectI)
    (numComponents : Nat) (depth : ImageBitDepthEnum) (isDuringPainting : Bool)
    (dstImage : Image) : Image :=
  let cairoImgFormat := (surfaceFormat rotoItem numComponents).1
  let srcNComps := (surfaceFormat rotoItem numComponents).2
  let shapeColor := rotoItem.color
  let opacity := rotoItem.opacity
  -- Allocate the cairo temporary buffer
  let stride := cairo.formatStrideForWidth cairoImgFormat roi.width
  let cairoImg : SurfaceData :=
    if isDuringPainting then
      convertNatronImageToCairoImage cairo.toUChar 1 (fun _ => 0) srcNComps stride dstImage roi
        roi shapeColor
    else
      cairo.createdData cairoImgFormat roi.width roi.height
  if !cairo.statusSuccess then
    dstImage
  else
    let cairoImg := cairo.draw cairoImg
    let useOpacityToConvert := rotoItem.isBezier
    match depth with
    | ImageBitDepthEnum.eImageBitDepthFloat =>
      convertCairoImageToNatronImage_noColor id 1 cairoImg stride srcNComps dstImage roi
        shapeColor opacity false useOpacityToConvert
    | ImageBitDepthEnum.eImageBitDepthByte =>
      convertCairoImageToNatronImage_noColor cairo.pixByte 255 cairoImg stride srcNComps dstImage
        roi shapeColor opacity false useOpacityToConvert
    | ImageBitDepthEnum.eImageBitDepthShort =>
      convertCairoImageToNatronImage_noColor cairo.pixShort 65535 cairoImg stride srcNComps
        dstImage roi shapeColor opacity false useOpacityToConvert
    | ImageBitDepthEnum.eImageBitDepthHalf => dstImage
    | ImageBitDepthEnum.eImageBitDepthNone => dstImage

/-! ## `RotoShapeRenderCairo::renderDot_cairo` (lines 767-818) -/

/-- The value `pressureInt` of line 781, for `levels = ROTO_PRESSURE_LEVELS` (a macro that is
not defined in the source files at hand).  The conversion `int (...)` truncates. -/
def pressureInt (levels : Nat) (pressure : ℚ) : Int :=
  truncToInt (max 0 (min pressure 1) * ((levels : ℚ) - 1) + 1 / 2)

/-- A radial gradient pattern of the rasterization library: the two radii given to
`cairo_pattern_create_radial` (both circles are centred at the origin) and the colour stops
added by `cairo_pattern_add_color_stop_rgba`, each an offset and the four values red, green,
blue, alpha. -/
structure RadialPattern where
  internalDotRadius : ℚ
  externalDotRadius : ℚ
  stops : List (ℚ × ℚ × ℚ × ℚ × ℚ)
deriving DecidableEq

/-- The source set on the context by `renderDot_cairo`: a pattern (`cairo_set_source`) or a
colour (`cairo_set_source_rgba`). -/
inductive DotSource where
  | pattern (p : RadialPattern)
  | rgba (r g b a : ℚ)
deriving DecidableEq

/-- What a call of `renderDot_cairo` does: the source it sets, whether it has called
`cairo_pattern_create_radial`, the vector `*dotPatterns` after the call (a null pointer is
`none`), and the centre and the radius of the disc it fills. -/
structure DotRendering where
  source : DotSource
  created : Bool
  dotPatterns : Option (List (Option RadialPattern))
  center : Point
  radius : ℚ
deriving DecidableEq

/-- The loop of lines 787-793 that adds the colour stops to a new pattern. -/
def colorStops (doBuildUp : Bool) (opacityStops : List (ℚ × ℚ)) : List (ℚ × ℚ × ℚ × ℚ × ℚ) :=
  opacityStops.map (fun stop =>
    if doBuildUp then (stop.1, 1, 1, 1, stop.2) else (stop.1, stop.2, stop.2, stop.2, 1))

/-- The function `RotoShapeRenderCairo::renderDot_cairo` (lines 767-818).  `dotPatterns` is
`none` for a null pointer; the element `(*dotPatterns)[pressureInt]` is read with `getD`, the
vector having `levels` elements.  The assignment of the new pattern to the vector (line 794)
is commented out in the source. -/
def renderDot_cairo (levels : Nat) (dotPatterns : Option (List (Option RadialPattern)))
    (center : Point) (internalDotRadius externalDotRadius pressure : ℚ) (doBuildUp : Bool)
    (opacityStops : List (ℚ × ℚ)) (opacity : ℚ) : DotRendering :=
  if !opacityStops.isEmpty then
    -- sometimes, Qt gives a pressure level > 1... so we clamp it
    let pressureInt := pressureInt levels pressure
    match dotPatterns.bind (fun patterns => patterns.getD pressureInt.toNat none) with
    | some pattern => ⟨DotSource.pattern pattern, false, dotPatterns, center, externalDotRadius⟩
    | none =>
      let pattern : RadialPattern :=
        ⟨internalDotRadius, externalDotRadius, colorStops doBuildUp opacityStops⟩
      -- dotPatterns[pressureInt] = pattern;   (commented out)
      ⟨DotSource.pattern pattern, true, dotPatterns, center, externalDotRadius⟩
  else if doBuildUp then
    ⟨DotSource.rgba 1 1 1 opacity, false, dotPatterns, center, externalDotRadius⟩
  else
    ⟨DotSource.rgba opacity opacity opacity 1, false, dotPatterns, center, externalDotRadius⟩

/-- The user data `RenderStrokeCairoData` of a stroke (lines 837-850), the context `cr`
left out. -/
structure RenderStrokeCairoData where
  dotPatterns : Option (List (Option RadialPattern))
  brushSizePixel : ℚ
  brushSpacing : ℚ
  brushHardness : ℚ
  pressureAffectsOpacity : Bool
  pressureAffectsHardness : Bool
  pressureAffectsSize : Bool
  buildUp : Bool
  opacity : ℚ

/-- The callback `renderStrokeRenderDot_cairo` (lines 884-897): the dab rendered at `center`
with the given pressure. -/
def renderStrokeRenderDot_cairo (pow : ℚ → ℚ → ℚ) (levels : Nat)
    (myData : RenderStrokeCairoData) (center : Point) (pressure : ℚ) : DotRendering :=
  let params := getRenderDotParams pow myData.opacity myData.brushSizePixel
    myData.brushHardness myData.brushSpacing pressure myData.pressureAffectsOpacity
    myData.pressureAffectsSize myData.pressureAffectsHardness (some [])
  renderDot_cairo levels myData.dotPatterns center params.internalDotRadius
    params.externalDotRadius pressure myData.buildUp (params.opacityStops.getD [])
    myData.opacity

/-- The vector `dotPatterns` made by `renderMaskInternal_cairo` when the stroke has no pattern
cache yet (lines 1978-1983): `levels` null pointers. -/
def emptyDotPatterns (levels : Nat) : List (Option RadialPattern) :=
  List.replicate levels none

/-! ## The motion-blur loop of `RotoShapeRenderCairo::renderBezier_cairo` (lines 1113-1170) -/

/-- The result of running `renderBezier_cairo` with a bound on the number of iterations of
its loop: the times `t` of the sub-frames whose mask has been applied (line 1168), or
`outOfFuel` when the loop is still running after that many iterations. -/
inductive MotionBlurResult where
  | returned (frames : List ℚ)
  | outOfFuel
deriving DecidableEq

/-- The loop `for (double t = startTime; t <= endTime; t += mbFrameStep)` of line 1122.
`meshOk t` tells whether the status of the mesh pattern created in the iteration of time `t`
is `CAIRO_STATUS_SUCCESS`: the function returns at line 1139 when it is not.  Arguments: the
iterations left, `t`, the sub-frames rendered so far. -/
def renderBezierLoop (meshOk : ℚ → Bool) (endTime mbFrameStep : ℚ) :
    Nat → ℚ → List ℚ → MotionBlurResult
  | 0, t, frames => if t ≤ endTime then MotionBlurResult.outOfFuel
      else MotionBlurResult.returned frames
  | fuel + 1, t, frames =>
    if t ≤ endTime then
      if !meshOk t then
        MotionBlurResult.returned frames
      else
        renderBezierLoop meshOk endTime mbFrameStep fuel (t + mbFrameStep) (frames ++ [t])
    else
      MotionBlurResult.returned frames

/-- The function `RotoShapeRenderCairo::renderBezier_cairo`, as far as its loop goes. -/
def renderBezier_cairo (meshOk : ℚ → Bool) (startTime endTime mbFrameStep : ℚ) (fuel : Nat) :
    MotionBlurResult :=
  renderBezierLoop meshOk endTime mbFrameStep fuel startTime []

/-! ## `RotoShapeRenderCairo::renderFeather_old_cairo` (lines 1172-1394) -/

/-- The point `p` moved by `absFeatherDist` along `(dx, dy)`: backwards when the polygon is
not clockwise (lines 1244-1250 and 1319-1325). -/
def offsetPoint (clockWise : Bool) (p : Point) (dx dy absFeatherDist : ℚ) : Point :=
  if !clockWise then ⟨p.x - dx * absFeatherDist, p.y - dy * absFeatherDist⟩
  else ⟨p.x + dx * absFeatherDist, p.y + dy * absFeatherDist⟩

/-- The first point of the feather contour (lines 1235-1250), with the information whether a
division by zero has been performed.  `sqrt` is the function of the C library; `next` and
`prev` are the points that the iterators `next` and `prev` point to. -/
def firstFeatherPoint (sqrt : ℚ → ℚ) (clockWise : Bool) (first next prev : Point)
    (absFeatherDist : ℚ) : Point × Bool :=
  let norm := sqrt ((next.x - prev.x) * (next.x - prev.x) + (next.y - prev.y) * (next.y - prev.y))
  let dx := if norm ≠ 0 then
      ((-(checkedDiv (next.y - prev.y) norm).1), (checkedDiv (next.y - prev.y) norm).2)
    else (0, false)
  let dy := if norm ≠ 0 then checkedDiv (next.x - prev.x) norm else (1, false)
  (offsetPoint clockWise first dx.1 dy.1 absFeatherDist, dx.2 || dy.2)

/-- A patch added to the mesh pattern (lines 1345-1371): its four corners and its inner
control points. -/
structure FeatherPatch where
  p0 : Point
  p1 : Point
  p2 : Point
  p3 : Point
  inner : FeatherControlPoints

/-- The variables of the loop of lines 1281-1393: the five iterators, as indices (the index
`length` is `end ()`), the point `p1`, the contour and the patches made so far, and whether
a division by zero has been performed. -/
structure FeatherState where
  cur : Nat
  prev : Nat
  next : Nat
  bezIT : Nat
  prevBez : Nat
  p1 : Point
  featherContour : List Point
  patches : List FeatherPatch
  dividedByZero : Bool

/-- The result of `renderFeather_old_cairo` run with a bound on the number of iterations of
its loop. -/
inductive FeatherResult where
  | returned (final : FeatherState)
  | outOfFuel

/-- The increment `if (it != v.end ()) ++it` of an iterator of a vector of `size` elements. -/
def incrIt (size it : Nat) : Nat := if it ≠ size then it + 1 else it

/-- The assignment `if (it == v.end ()) it = v.begin ()`. -/
def wrapIt (size it : Nat) : Nat := if it = size then 0 else it

/-- The loop `for (;; ++cur)` of lines 1281-1393.  The first argument bounds the number of
iterations.  A `continue` (line 1302) goes to `++cur` without any of the increments of lines
1381-1392, and without the test of `mustStop`. -/
def featherLoop (sqrt : ℚ → ℚ) (featherPolygon bezierPolygon : List Point) (clockWise : Bool)
    (absFeatherDist fallOff : ℚ) (origin : Point) : Nat → FeatherState → FeatherResult
  | 0, _ => FeatherResult.outOfFuel
  | fuel + 1, s =>
    let next := wrapIt featherPolygon.length s.next
    let prev := wrapIt featherPolygon.length s.prev
    let bezIT := wrapIt bezierPolygon.length s.bezIT
    let prevBez := wrapIt bezierPolygon.length s.prevBez
    let mustStop := decide (s.cur = featherPolygon.length)
    let cur := wrapIt featherPolygon.length s.cur
    let curPt := featherPolygon.getD cur default
    let prevPt := featherPolygon.getD prev default
    let nextPt := featherPolygon.getD next default
    -- skip it
    if curPt.x = prevPt.x ∧ curPt.y = prevPt.y then
      featherLoop sqrt featherPolygon bezierPolygon clockWise absFeatherDist fallOff origin fuel
        { s with cur := cur + 1, prev := prev, next := next, bezIT := bezIT,
                 prevBez := prevBez }
    else
      let p0 := bezierPolygon.getD prevBez default
      let p3 := bezierPolygon.getD bezIT default
      let norm := sqrt ((nextPt.x - prevPt.x) * (nextPt.x - prevPt.x) +
        (nextPt.y - prevPt.y) * (nextPt.y - prevPt.y))
      let dx := checkedDiv (nextPt.y - prevPt.y) norm
      let dy := checkedDiv (nextPt.x - prevPt.x) norm
      let p2 := if !mustStop then offsetPoint clockWise curPt (-dx.1) dy.1 absFeatherDist
        else origin
      let dividedByZero := if !mustStop then s.dividedByZero || dx.2 || dy.2
        else s.dividedByZero
      let featherContour := s.featherContour ++ [p2]
      let patches := s.patches ++ [⟨p0, s.p1, p2, p3, featherControlPoints fallOff p0 s.p1 p2 p3⟩]
      if mustStop then
        FeatherResult.returned
          { s with cur := cur, prev := prev, next := next, bezIT := bezIT, prevBez := prevBez,
                   featherContour := featherContour, patches := patches,
                   dividedByZero := dividedByZero }
      else
        featherLoop sqrt featherPolygon bezierPolygon clockWise absFeatherDist fallOff origin
          fuel
          { cur := cur + 1, prev := incrIt featherPolygon.length prev,
            next := incrIt featherPolygon.length next,
            bezIT := incrIt bezierPolygon.length bezIT,
            prevBez := incrIt bezierPolygon.length prevBez,
            p1 := p2, featherContour := featherContour, patches := patches,
            dividedByZero := dividedByZero }

/-- The function `renderFeather_old_cairo` from its line 1217 on, for the two polygons
`featherPolygon` and `bezierPolygon` (both asserted to be non-empty), the orientation
`clockWise`, the feather distance and the fall-off; `fuel` bounds the number of iterations of
the loop. -/
def renderFeather_old_cairo (sqrt : ℚ → ℚ) (featherPolygon bezierPolygon : List Point)
    (clockWise : Bool) (featherDist fallOff : ℚ) (fuel : Nat) : FeatherResult :=
  -- prepare iterators
  let next := wrapIt featherPolygon.length 1
  let prev := featherPolygon.length - 1
  let bezIT := 0
  let prevBez := bezierPolygon.length - 1
  -- prepare p1
  let absFeatherDist := |featherDist|
  let first := firstFeatherPoint sqrt clockWise (featherPolygon.getD 0 default)
    (featherPolygon.getD next default) (featherPolygon.getD prev default) absFeatherDist
  let origin := first.1
  -- increment for first iteration
  featherLoop sqrt featherPolygon bezierPolygon clockWise absFeatherDist fallOff origin fuel
    { cur := incrIt featherPolygon.length 0, prev := incrIt featherPolygon.length prev,
      next := incrIt featherPolygon.length next, bezIT := incrIt bezierPolygon.length bezIT,
      prevBez := incrIt bezierPolygon.length prevBez, p1 := first.1,
      featherContour := [first.1], patches := [], dividedByZero := first.2 }

/-- The variables at the end of a run that has returned. -/
def FeatherResult.final (r : FeatherResult) : Option FeatherState :=
  match r with
  | FeatherResult.returned s => some s
  | FeatherResult.outOfFuel => none

/-- The value that `renderSmearDot` leaves in the component `k` of a pixel whose value was
`dst` (lines 1035-1044): the blend `src * mask + dst * (1 - mask)` with the component of the
pixel `(xPrev, yPrev)` of the snapshot `tmpBuf` when this pixel exists, `mask` being the mask
byte divided by 255, and `dst` when it does not exist. -/
def smearValue (tmpBuf : Image) (maskByte : Nat) (xPrev yPrev : Int) (k : Int) (dst : ℚ) : ℚ :=
  match tmpBuf.pixelAt xPrev yPrev with
  | some srcPixels =>
    tmpBuf.data yPrev (srcPixels + k) * ((maskByte : ℚ) / 255) +
      dst * (1 - (maskByte : ℚ) / 255)
  | none => dst

/-! ## The collaborators, as the specification describes them -/

/-- Modelled from the spec: `Bezier::point_line_intersection` is not in the source files at
hand.  The specification describes the test of a point against a polygon edge as "a line–ray
crossing accumulation" and the winding number as the "net count of polygon-boundary crossings
signed by direction": the edge `p1 → p2` is counted `+1` when it goes upwards and `-1` when it
goes downwards, if it crosses the horizontal ray that ends at `pos`; horizontal edges are
not counted, and an edge holds its lower end but not its upper end. -/
def specPointLineIntersection : PointLineIntersection := fun p1 p2 pos winding =>
  if p1.y = p2.y then
    winding
  else
    let lo := if p2.y < p1.y then p2 else p1
    let hi := if p2.y < p1.y then p1 else p2
    let dir : Int := if p2.y < p1.y then -1 else 1
    if lo.y ≤ pos.y ∧ pos.y < hi.y then
      let x := lo.x + (hi.x - lo.x) / (hi.y - lo.y) * (pos.y - lo.y)
      if x ≤ pos.x then winding + dir else winding
    else
      winding

/-- Modelled from the spec: the segment intersection of the Qt library (`QLineF::intersect`)
is not in the source files at hand.  The specification: "given two segments, returns whether
they intersect within both segments' bounds (a "bounded" intersection), and the intersection
point".  Parallel segments have no intersection point. -/
def specIntersect (l1a l1b l2a l2b : Point) : Option Point :=
  let ax := l1b.x - l1a.x
  let ay := l1b.y - l1a.y
  let bx := l2a.x - l2b.x
  let by_ := l2a.y - l2b.y
  let cx := l1a.x - l2a.x
  let cy := l1a.y - l2a.y
  let denominator := ay * bx - ax * by_
  if denominator = 0 then
    none
  else
    let na := (by_ * cx - bx * cy) / denominator
    let nb := (ax * cy - ay * cx) / denominator
    if na < 0 ∨ 1 < na ∨ nb < 0 ∨ 1 < nb then
      none
    else
      some ⟨l1a.x + ax * na, l1a.y + ay * na⟩

/-- The point `(1 - t) a + t b`. -/
def lerpPoint (a b : Point) (t : ℚ) : Point :=
  ⟨(1 - t) * a.x + t * b.x, (1 - t) * a.y + t * b.y⟩

/-- Modelled from the spec: `Bezier::bezierFullPoint` is not in the source files at hand.  The
specification: "subdivide every Bezier segment at its parametric midpoint (de Casteljau
split)"; the six points are those of the de Casteljau construction at the parameter `t`. -/
def specBezierFullPoint (p0 p1 p2 p3 : Point) (t : ℚ) : FullPoint :=
  let p0p1 := lerpPoint p0 p1 t
  let p1p2 := lerpPoint p1 p2 t
  let p2p3 := lerpPoint p2 p3 t
  let p0p1_p1p2 := lerpPoint p0p1 p1p2 t
  let p1p2_p2p3 := lerpPoint p1p2 p2p3 t
  ⟨p0p1, p1p2, p2p3, p0p1_p1p2, p1p2_p2p3, lerpPoint p0p1_p1p2 p1p2_p2p3 t⟩

/-- The rectangle that covers the whole plane. -/
def infiniteRect : RectD := ⟨EDouble.negInf, EDouble.posInf, EDouble.negInf, EDouble.posInf⟩

/-- The rectangle with no point, every side at the opposite infinity. -/
def emptyRect : RectD := ⟨EDouble.posInf, EDouble.negInf, EDouble.posInf, EDouble.negInf⟩

/-- The collaborators of `bezulate` as the specification describes them, the rectangle of
`setupInfinity` being the argument. -/
def specEnv (setupInfinity : RectD) : Env :=
  ⟨specPointLineIntersection, specIntersect, specBezierFullPoint, setupInfinity⟩

/-! ## The ear cut, as the specification describes it -/

/-- The cut of the specification, and of the comments of `bezulate` ("next points at point
i + n", "the path from points i to i + n", "Remove i + 1 to i + n"), for the chord of length
`n` at the vertex `i`, the indices being cyclic: the patch is made of the `n + 1` consecutive
vertices `i, i + 1, ..., i + n`, and the `n - 1` interior vertices `i + 1, ..., i + n - 1` are
removed from the working curve. -/
def specCut (curve : BezierCPs) (n i : Nat) : BezierCPs × BezierCPs :=
  ((List.range (n + 1)).map (fun j => curve.getD ((i + j) % curve.length) default),
    (List.range curve.length).filterMap (fun j =>
      if (List.range (n - 1)).any (fun t => decide ((i + t + 1) % curve.length = j)) then none
      else some (curve.getD j default)))

/-- The intersection points of a chord with every edge of the closed polygon, the edge from
the last vertex to the first included, as the specification counts them; the points are kept
distinct up to the tolerance of `qpointf_compare_less`. -/
def specChordIntersections (env : Env) (curPoint nextPoint : Point) (polygon : List Point) :
    List Point :=
  (List.zip polygon (polygon.rotate 1)).foldl
    (fun intersections edge =>
      match env.intersect curPoint nextPoint edge.1 edge.2 with
      | some intersectionPoint => setInsert intersections intersectionPoint
      | none => intersections)
    []

/-- The point of parameter `t` of the cubic Bezier segment of control points `p0, p1, p2, p3`
(Bernstein form). -/
def bezierPoint (p0 p1 p2 p3 : Point) (t : ℚ) : Point :=
  ⟨(1 - t) ^ 3 * p0.x + 3 * (1 - t) ^ 2 * t * p1.x + 3 * (1 - t) * t ^ 2 * p2.x + t ^ 3 * p3.x,
    (1 - t) ^ 3 * p0.y + 3 * (1 - t) ^ 2 * t * p1.y + 3 * (1 - t) * t ^ 2 * p2.y + t ^ 3 * p3.y⟩

/-- The point of parameter `t` of the segment of a curve that goes from the control point `a`
to the control point `b`: its inner control points are the right handle of `a` and the left
handle of `b`. -/
def segmentPoint (a b : BezierCP) (t : ℚ) : Point :=
  bezierPoint a.pos a.right b.left b.pos t

/-! ## Convex curves -/

/-- Twice the signed area of the triangle `a, b, c`: positive when the three points make a
left turn (counter-clockwise), negative for a right turn, zero when they lie on a line. -/
def cross3 (a b c : Point) : ℚ := (b.x - a.x) * (c.y - a.y) - (b.y - a.y) * (c.x - a.x)

/-- Whether the points are the vertices of a strictly convex polygon, listed counter-clockwise
(`s = 1`) or clockwise (`s = -1`): every three of them, taken in the order of the list, make a
turn of that orientation. -/
def strictlyConvex (s : ℚ) : List Point → Bool
  | [] => true
  | a :: rest =>
    decide (rest.Pairwise (fun b c => 0 < s * cross3 a b c)) && strictlyConvex s rest

/-- Whether no two of the points are equivalent for `qpointf_compare_less`: any two of them
differ by at least `1e-6` in one coordinate. -/
def apart (polygon : List Point) : Bool :=
  decide (polygon.Pairwise
    (fun a b => 1 / 1000000 ≤ |a.x - b.x| ∨ 1 / 1000000 ≤ |a.y - b.y|))

/-- A closed curve whose control points are the vertices of a strictly convex polygon, listed
in either orientation, no two of them equivalent for `qpointf_compare_less`.  The tangent
handles are not constrained. -/
def ConvexCurve (curve : BezierCPs) : Prop :=
  (strictlyConvex 1 (curve.map (fun it => it.pos)) = true ∨
      strictlyConvex (-1) (curve.map (fun it => it.pos)) = true) ∧
    apart (curve.map (fun it => it.pos)) = true

/-- Whether the point lies in the closed rectangle: none of the four comparisons of
`bboxUpdate` holds for it. -/
def RectD.covers (bbox : RectD) (p : Point) : Prop :=
  EDouble.lt (.fin p.x) bbox.x1 = false ∧ EDouble.lt bbox.x2 (.fin p.x) = false ∧
    EDouble.lt (.fin p.y) bbox.y1 = false ∧ EDouble.lt bbox.y2 (.fin p.y) = false

instance (curve : BezierCPs) : Decidable (ConvexCurve curve) :=
  inferInstanceAs (Decidable
    ((strictlyConvex 1 (curve.map (fun it => it.pos)) = true ∨
        strictlyConvex (-1) (curve.map (fun it => it.pos)) = true) ∧
      apart (curve.map (fun it => it.pos)) = true))

/-! ## Concrete inputs used to run the embedding -/

/-- A control point of a polygonal curve: both tangent handles lie on the position. -/
def cornerCP (x y : ℚ) : BezierCP := ⟨⟨x, y⟩, ⟨x, y⟩, ⟨x, y⟩⟩

/-- The triangle `(0,0), (4,0), (0,4)`. -/
def triangle : List Point := [⟨0, 0⟩, ⟨4, 0⟩, ⟨0, 4⟩]

/-- The bounding box `[0,4] x [0,4]` of `triangle`. -/
def triangleBBox : RectD := ⟨.fin 0, .fin 4, .fin 0, .fin 4⟩

/-- The convex pentagon `(0,0), (4,0), (5,3), (2,5), (-1,3)`, as a polygonal closed curve. -/
def pentagon : BezierCPs :=
  [cornerCP 0 0, cornerCP 4 0, cornerCP 5 3, cornerCP 2 5, cornerCP (-1) 3]

/-- Five control points on the horizontal axis, tangent handles included. -/
def flatCurve : BezierCPs :=
  [cornerCP 0 0, cornerCP 1 0, cornerCP 2 0, cornerCP 3 0, cornerCP 4 0]

/-- The simple hexagon `(2,3), (5,3), (8,4), (8,6), (7,5), (2,4)`, as a polygonal closed
curve. -/
def hexagon : BezierCPs :=
  [cornerCP 2 3, cornerCP 5 3, cornerCP 8 4, cornerCP 8 6, cornerCP 7 5, cornerCP 2 4]

/-- A curve whose control points and tangent handles all lie on the horizontal axis. -/
def Flat (curve : BezierCPs) : Prop :=
  ∀ v ∈ curve, v.pos.y = 0 ∧ v.left.y = 0 ∧ v.right.y = 0

/-- A stand-in for the collaborators of the smear code: the identity for the power of
exponent 1, no dampening, and the enclosing pixel rectangle. -/
def exampleSmearEnv : SmearEnv :=
  ⟨fun d _ => d, fun prev _ _ => prev, fun x1 y1 x2 y2 => ⟨⌊x1⌋, ⌊y1⌋, ⌈x2⌉, ⌈y2⌉⟩⟩

/-- A float image of one component on `[0, 4) x [0, 4)`, the value of the pixel `(x, y)` being
`(x + y) / 8`. -/
def exampleImage : Image := ⟨⟨0, 0, 4, 4⟩, 1, fun y e => ((e : ℚ) + (y : ℚ)) / 8⟩

/-- The user data of a smear stroke on `exampleImage`, with a mask of `3 x 3` bytes. -/
def exampleSmearData : RenderSmearCairoData :=
  { dstImage := exampleImage, brushSizePixel := 2, brushSpacing := 1 / 10, brushHardness := 1 / 5,
    pressureAffectsOpacity := false, pressureAffectsHardness := false,
    pressureAffectsSize := false, opacity := 1, maskWidth := 3, maskHeight := 3, maskStride := 4,
    maskData := fun _ => 255 }

/-- A rasterization library whose surfaces cannot be created. -/
def failingCairo : CairoBackend :=
  { formatStrideForWidth := fun _ w => 4 * w, createdData := fun _ _ _ _ => 0,
    statusSuccess := false, draw := fun data => data,
    toUChar := fun q => (truncToInt q).toNat, pixByte := fun q => (truncToInt q : ℚ),
    pixShort := fun q => (truncToInt q : ℚ) }

/-- A paint stroke with build-up, white and opaque. -/
def exampleStroke : RotoDrawableItem := ⟨true, false, true, (1, 1, 1), 1⟩

/-- The bytes of a surface: the byte at the offset `p` is `51 p` modulo 256. -/
def exampleSurface : SurfaceData := fun p => (51 * p % 256).toNat

/-- A float image of four components on `[0, 2) x [0, 2)`, all of whose values are 0. -/
def exampleColorImage : Image := ⟨⟨0, 0, 2, 2⟩, 4, fun _ _ => 0⟩

/-- The region of `exampleColorImage`. -/
def exampleRoi : RectI := ⟨0, 0, 2, 2⟩

/-- A conversion of a `float` to an `unsigned char`: the value is truncated towards zero and
reduced modulo 256. -/
def exampleToUChar : ℚ → Nat := fun q => (truncToInt q).toNat % 256

/-- A float image of four components on `[0, 2) x [0, 2)`, every pixel of which is `1/2` times
`(1, 1/2, 1/4, 1)`. -/
def examplePaintedImage : Image :=
  ⟨⟨0, 0, 2, 2⟩, 4, fun _ e =>
    1 / 2 * (if e % 4 = 0 then 1 else if e % 4 = 1 then 1 / 2 else if e % 4 = 2 then 1 / 4 else 1)⟩

/-- A float image of four components on `[0, 2) x [0, 2)`, every pixel of which is the opaque
red `(1, 0, 0, 1)`: a red shape that covers its region. -/
def exampleRedImage : Image :=
  ⟨⟨0, 0, 2, 2⟩, 4, fun _ e => if e % 4 = 0 ∨ e % 4 = 3 then 1 else 0⟩

/-- A float image of one component on `[0, 2) x [0, 2)`, every value of which is `3/2`. -/
def exampleBrightImage : Image := ⟨⟨0, 0, 2, 2⟩, 1, fun _ _ => 3 / 2⟩

/-- A simple pentagon: the scan accepts a chord at its last vertex. -/
def wrapPentagon : BezierCPs :=
  [cornerCP 6 3, cornerCP 3 3, cornerCP 4 2, cornerCP 7 3, cornerCP 0 5]

/-- A simple hexagon in which the segment from the vertex 1 to the vertex 4 crosses the edge
from the last vertex to the first. -/
def crossedHexagon : BezierCPs :=
  [cornerCP 4 0, cornerCP 0 8, cornerCP 8 3, cornerCP 8 0, cornerCP 4 2, cornerCP 3 4]

/-- A simple closed curve of five control points that lie on the horizontal axis: four arches
above the axis, from `(0, 0)` to `(16, 0)`, and one arc below it that comes back to
`(0, 0)`.  The fields are the position, the left handle and the right handle. -/
def scallop : BezierCPs :=
  [⟨⟨0, 0⟩, ⟨0, -8⟩, ⟨1, 3⟩⟩, ⟨⟨4, 0⟩, ⟨3, 3⟩, ⟨5, 3⟩⟩, ⟨⟨8, 0⟩, ⟨7, 3⟩, ⟨9, 3⟩⟩,
    ⟨⟨12, 0⟩, ⟨11, 3⟩, ⟨13, 3⟩⟩, ⟨⟨16, 0⟩, ⟨15, 3⟩, ⟨16, -8⟩⟩]

/-- The convex octagon `(-2,3), (0,6), (4,6), (6,5), (7,3), (6,1), (4,0), (0,0)`, listed
clockwise, as a polygonal closed curve. -/
def convexOctagon : BezierCPs :=
  [cornerCP (-2) 3, cornerCP 0 6, cornerCP 4 6, cornerCP 6 5, cornerCP 7 3, cornerCP 6 1,
    cornerCP 4 0, cornerCP 0 0]

/-! # Properties -/

/-! ## `pointInPolygon` -/

/-- The remainder of the truncating division by 2 is non-zero exactly for the odd integers,
the negative ones included (where it is `-1`). -/
theorem tmod_two_ne_zero_iff_odd (w : Int) : Int.tmod w 2 ≠ 0 ↔ Odd w := by
  rw [Int.odd_iff]
  rcases w with n | n
  · simp only [Int.ofNat_eq_coe]
    have h : Int.tmod (n : Int) 2 = (n : Int) % 2 := by
      rw [Int.tmod_eq_emod] <;> omega
    rw [h]; omega
  · have h : Int.tmod (Int.negSucc n) 2 = -(((n + 1 : Nat) : Int) % 2) := by
      show Int.tmod (Int.negSucc n) ((2 : Nat) : Int) = _
      rfl
    rw [h, Int.negSucc_eq]
    push_cast
    omega

/-- The loop of `pointInPolygon` in closed form: `last_pt` ends on the last point, after one
step per remaining point, and the winding number has been folded over the consecutive
pairs. -/
theorem windingLoop_eq (pli : PointLineIntersection) (p : Point) (rest : List Point) :
    ∀ (idx : Nat) (last_pt : Point) (w : Int),
      windingLoop pli p idx last_pt rest w =
        (idx + rest.length, (last_pt :: rest).getLast (List.cons_ne_nil _ _),
          ((last_pt :: rest).zip rest).foldl (fun acc e => pli e.1 e.2 p acc) w) := by
  induction rest with
  | nil => intro idx last_pt w; simp [windingLoop]
  | cons cur rest ih =>
    intro idx last_pt w
    rw [windingLoop, ih]
    simp [List.getLast_cons, Nat.add_comm, Nat.add_left_comm]

/-- C1: for a point inside the half-open bounding box and a non-empty polygon `v0 .. v(k-1)`,
`pointInPolygon` folds `point_line_intersection` over the `k - 1` consecutive edges
`(vi, vi+1)`, then over the closing edge `(v(k-1), v0)` when `k >= 2`, and returns
`winding != 0` under the winding rule and `winding is odd` (negative odd values included)
under the even-odd rule. -/
theorem pointInPolygon_winding_over_edges (pli : PointLineIntersection) (p : Point)
    (polygon : List Point) (bbox : RectD) (rule : FillRuleEnum)
    (hx1 : EDouble.lt (.fin p.x) bbox.x1 = false) (hx2 : EDouble.lt (.fin p.x) bbox.x2 = true)
    (hy1 : EDouble.lt (.fin p.y) bbox.y1 = false) (hy2 : EDouble.lt (.fin p.y) bbox.y2 = true)
    (hne : polygon ≠ []) :
    let edges := polygon.zip polygon.tail ++
      (if 2 ≤ polygon.length then [(polygon.getLast hne, polygon.head hne)] else [])
    let winding := edges.foldl (fun w e => pli e.1 e.2 p w) 0
    (polygon.zip polygon.tail).length = polygon.length - 1 ∧
    pointInPolygon pli p polygon bbox rule =
      (match rule with
       | FillRuleEnum.eFillRuleWinding => decide (winding ≠ 0)
       | FillRuleEnum.eFillRuleOddEven => decide (Odd winding)) := by
  intro edges winding
  constructor
  · simp
  · obtain ⟨first, tail, rfl⟩ := List.exists_cons_of_ne_nil hne
    have hw : winding = (if tail.length ≠ 0 then
        pli ((first :: tail).getLast hne) first p
          (((first :: tail).zip tail).foldl (fun w e => pli e.1 e.2 p w) 0)
        else ((first :: tail).zip tail).foldl (fun w e => pli e.1 e.2 p w) 0) := by
      simp only [winding, edges, List.tail_cons, List.head_cons, List.length_cons]
      by_cases ht : tail.length = 0
      · have hnil : tail = [] := List.length_eq_zero.mp ht
        subst hnil; simp
      · have h2 : 2 ≤ tail.length + 1 := by omega
        simp [ht, h2, List.foldl_append]
    simp only [pointInPolygon, EDouble.ge, hx1, hx2, hy1, hy2, windingLoop_eq, List.isEmpty_cons]
    simp only [Nat.zero_add, Bool.not_true, Bool.or_self, Bool.false_eq_true, if_false]
    rw [← hw]
    cases rule
    · simp [← tmod_two_ne_zero_iff_odd]
    · simp

/-- The point `(1,1)` of the triangle `(0,0), (4,0), (0,4)`, under the even-odd rule. -/
theorem pointInPolygon_winding_over_edges_witness :
    (EDouble.lt (.fin (⟨1, 1⟩ : Point).x) triangleBBox.x1 = false ∧
      EDouble.lt (.fin (⟨1, 1⟩ : Point).x) triangleBBox.x2 = true ∧
      EDouble.lt (.fin (⟨1, 1⟩ : Point).y) triangleBBox.y1 = false ∧
      EDouble.lt (.fin (⟨1, 1⟩ : Point).y) triangleBBox.y2 = true ∧ triangle ≠ []) ∧
    pointInPolygon specPointLineIntersection ⟨1, 1⟩ triangle triangleBBox
      FillRuleEnum.eFillRuleOddEven =
      decide (Odd ((triangle.zip triangle.tail ++
        (if 2 ≤ triangle.length then
          [(triangle.getLast (by decide), triangle.head (by decide))] else [])).foldl
        (fun w e => specPointLineIntersection e.1 e.2 ⟨1, 1⟩ w) 0)) :=
  ⟨by decide!,
    (pointInPolygon_winding_over_edges specPointLineIntersection ⟨1, 1⟩ triangle triangleBBox
      FillRuleEnum.eFillRuleOddEven (by decide!) (by decide!) (by decide!) (by decide!)
      (by decide)).2⟩

/-- C2: `pointInPolygon` returns `false`, for either fill rule and whatever the vertices,
when the point is outside the half-open bounding box (`p.x < x1`, `p.x >= x2`, `p.y < y1` or
`p.y >= y2`) or the polygon is empty. -/
theorem pointInPolygon_rejects (pli : PointLineIntersection) (p : Point)
    (polygon : List Point) (bbox : RectD) (rule : FillRuleEnum)
    (h : EDouble.lt (.fin p.x) bbox.x1 = true ∨ EDouble.ge (.fin p.x) bbox.x2 = true ∨
      EDouble.lt (.fin p.y) bbox.y1 = true ∨ EDouble.ge (.fin p.y) bbox.y2 = true ∨
      polygon = []) :
    pointInPolygon pli p polygon bbox rule = false := by
  unfold pointInPolygon
  rcases h with h | h | h | h | h <;> simp [h]

/-- The point `(4,1)` lies on the right side of the box of the triangle, which is excluded. -/
theorem pointInPolygon_rejects_witness :
    (EDouble.lt (.fin (⟨4, 1⟩ : Point).x) triangleBBox.x1 = true ∨
      EDouble.ge (.fin (⟨4, 1⟩ : Point).x) triangleBBox.x2 = true ∨
      EDouble.lt (.fin (⟨4, 1⟩ : Point).y) triangleBBox.y1 = true ∨
      EDouble.ge (.fin (⟨4, 1⟩ : Point).y) triangleBBox.y2 = true ∨ triangle = []) ∧
    pointInPolygon specPointLineIntersection ⟨4, 1⟩ triangle triangleBBox
      FillRuleEnum.eFillRuleWinding = false :=
  ⟨by decide!,
    pointInPolygon_rejects specPointLineIntersection ⟨4, 1⟩ triangle triangleBBox
      FillRuleEnum.eFillRuleWinding (by decide!)⟩

/-! ## `bezulate`: one scan -/

/-- The walk of `pointIt` pushes one point per step. -/
theorem subCurveLoop_length (curve : BezierCPs) :
    ∀ (steps pointIt : Nat) (subCurve : BezierCPs),
      (subCurveLoop curve steps pointIt subCurve).length = subCurve.length + steps := by
  intro steps
  induction steps with
  | zero => intro pointIt subCurve; simp [subCurveLoop]
  | succ steps ih =>
    intro pointIt subCurve
    rw [subCurveLoop, ih]
    simp; omega

/-- The walk of `pointIt` keeps the points already in the sub-curve. -/
theorem subCurveLoop_subset (curve : BezierCPs) :
    ∀ (steps pointIt : Nat) (subCurve : BezierCPs) (v : BezierCP),
      v ∈ subCurve → v ∈ subCurveLoop curve steps pointIt subCurve := by
  intro steps
  induction steps with
  | zero => intro pointIt subCurve v hv; simpa [subCurveLoop] using hv
  | succ steps ih =>
    intro pointIt subCurve v hv
    rw [subCurveLoop]
    exact ih _ _ v (List.mem_append_left _ hv)

/-- As long as `pointIt` has not reached the end of the list, its `t`-th step pushes the point
at index `pointIt + t`. -/
theorem subCurveLoop_mem (curve : BezierCPs) :
    ∀ (steps pointIt : Nat) (subCurve : BezierCPs) (t : Nat),
      1 ≤ t → t ≤ steps → pointIt + t < curve.length →
      curve.getD (pointIt + t) default ∈ subCurveLoop curve steps pointIt subCurve := by
  intro steps
  induction steps with
  | zero => intro pointIt subCurve t h1 h2; omega
  | succ steps ih =>
    intro pointIt subCurve t h1 h2 h3
    rw [subCurveLoop]
    have hne : pointIt + 1 ≠ curve.length := by omega
    simp only [hne, if_false]
    by_cases ht : t = 1
    · subst ht
      exact subCurveLoop_subset curve _ _ _ _ (by simp)
    · have h := ih (pointIt + 1) (subCurve ++ [curve.getD (pointIt + 1) default]) (t - 1)
        (by omega) (by omega) (by omega)
      have e : pointIt + 1 + (t - 1) = pointIt + t := by omega
      rw [e] at h
      exact h

/-- A scan that accepts a chord does so by `cutAt`, at an index `i0` of the curve and with
`next` at most `n` places after it (it is fewer after a `continue`). -/
theorem scanLoop_found (env : Env) (curve : BezierCPs) (polygon : List Point) (bbox : RectD)
    (n : Nat) (patch rest : BezierCPs) (hk : 0 < curve.length) :
    ∀ (suffix : BezierCPs) (i next : Nat),
      i + suffix.length = curve.length → next ≤ i + n → next ≤ curve.length →
      scanLoop env curve polygon bbox n suffix i next = ScanOutcome.found patch rest →
      ∃ i0 next0, i0 < curve.length ∧ next0 ≤ i0 + n ∧ next0 ≤ curve.length ∧
        cutAt curve n i0 (if next0 = curve.length then 0 else next0)
          (decide (next0 = curve.length)) = ScanOutcome.found patch rest := by
  intro suffix
  induction suffix with
  | nil => intro i next _ _ _ h; simp [scanLoop] at h
  | cons it more ih =>
    intro i next hi hn hnk h
    rw [scanLoop] at h
    simp only at h
    have hw : (if next = curve.length then 0 else next) < curve.length := by
      split <;> omega
    simp only [List.length_cons] at hi
    generalize hnx : (if next = curve.length then 0 else next) = nx at h hw
    have hnx2 : nx ≤ i + n := by rw [← hnx]; split <;> omega
    split at h
    · exact ih (i + 1) nx (by omega) (by omega) (by omega) h
    · split at h
      · exact ⟨i, next, by omega, hn, hnk, by rw [hnx]; exact h⟩
      · refine ih (i + 1) _ (by omega) ?_ ?_ h
        · split <;> omega
        · split <;> omega

/-- An element of a list is before the index `a`, at or after the index `b`, or at an index of
`[a, b)`. -/
theorem mem_take_or_drop (curve : BezierCPs) (a b : Nat) (v : BezierCP) (hv : v ∈ curve) :
    v ∈ curve.take a ∨ v ∈ curve.drop b ∨ ∃ j, a ≤ j ∧ j < b ∧ j < curve.length ∧
      v = curve.getD j default := by
  obtain ⟨j, hj, rfl⟩ := List.mem_iff_getElem.mp hv
  by_cases h1 : j < a
  · left
    exact List.mem_iff_getElem.mpr ⟨j, by simp; omega, by simp⟩
  · by_cases h2 : b ≤ j
    · right; left
      exact List.mem_iff_getElem.mpr ⟨j - b, by simp; omega, by simp; congr 1; omega⟩
    · right; right
      exact ⟨j, by omega, by omega, hj, by simp [List.getD_eq_getElem?_getD, hj]⟩

/-- An accepted cut on a curve of more than 4 points, `next` being at most `n` places after
`it`: the patch has `n + 1` points, the curve left does not have exactly one point, and when it
is not empty every point of the curve is in the patch or in the curve left. -/
theorem cutAt_found (curve : BezierCPs) (n i next0 : Nat) (patch rest : BezierCPs)
    (hk : 4 < curve.length) (hn2 : 2 ≤ n) (hn3 : n ≤ 3) (hi : i < curve.length)
    (h1 : next0 ≤ i + n) (h2 : next0 ≤ curve.length)
    (h : cutAt curve n i (if next0 = curve.length then 0 else next0)
      (decide (next0 = curve.length)) = ScanOutcome.found patch rest) :
    patch.length = n + 1 ∧ rest.length ≠ 1 ∧
      (rest ≠ [] → ∀ v ∈ curve, v ∈ patch ∨ v ∈ rest) := by
  unfold cutAt at h
  simp only at h
  have hsub : ∀ t, 1 ≤ t → t ≤ n - 1 → i + t < curve.length →
      curve.getD (i + t) default ∈
        subCurveLoop curve (n - 1) i [curve.getD i default] ++
          [curve.getD (if next0 = curve.length then 0 else next0) default] := by
    intro t ht1 ht2 ht3
    exact List.mem_append_left _ (subCurveLoop_mem curve _ _ _ t ht1 ht2 ht3)
  have hlen : (subCurveLoop curve (n - 1) i [curve.getD i default] ++
          [curve.getD (if next0 = curve.length then 0 else next0) default]).length = n + 1 := by
    simp [subCurveLoop_length]; omega
  by_cases hnk : next0 = curve.length
  · by_cases hek : i + 1 = curve.length
    · -- both iterators wrapped: nothing is erased
      simp [hnk, hek, eraseRange] at h
      obtain ⟨hp, hr⟩ := h
      subst hr
      refine ⟨by rw [← hp]; simpa [hnk] using hlen, by omega, ?_⟩
      intro _ v hv; exact Or.inr hv
    · simp [hnk, hek] at h
      obtain ⟨hp, hr⟩ := h
      refine ⟨by rw [← hp]; simpa [hnk] using hlen, ?_, ?_⟩
      · rw [← hr]; simp; omega
      · intro _ v hv
        rcases mem_take_or_drop curve (i + 1) curve.length v hv with hv | hv | ⟨j, hj1, hj2, hj3, rfl⟩
        · right; rw [← hr]; exact hv
        · simp at hv
        · left; rw [← hp]
          have := hsub (j - i) (by omega) (by omega) (by omega)
          have e : i + (j - i) = j := by omega
          rw [e] at this
          simpa [hnk] using this
  · by_cases hek : i + 1 = curve.length
    · -- the whole list is erased
      simp [hnk, hek] at h
      obtain ⟨hp, hr⟩ := h
      refine ⟨by rw [← hp]; simpa [hnk] using hlen, by rw [hr]; simp, ?_⟩
      intro hr0; exact absurd hr hr0
    · simp only [hnk, hek, if_false, decide_False, Bool.not_false, Bool.and_self, Bool.true_or,
        if_true, eraseRange] at h
      by_cases hle : i + 1 ≤ next0
      · simp only [hle, if_true] at h
        injection h with hp hr
        refine ⟨by rw [← hp]; simpa [hnk] using hlen, ?_, ?_⟩
        · rw [← hr]; simp; omega
        · intro _ v hv
          rcases mem_take_or_drop curve (i + 1) next0 v hv with hv | hv | ⟨j, hj1, hj2, hj3, rfl⟩
          · right; rw [← hr]; exact List.mem_append_left _ hv
          · right; rw [← hr]; exact List.mem_append_right _ hv
          · left; rw [← hp]
            have := hsub (j - i) (by omega) (by omega) (by omega)
            have e : i + (j - i) = j := by omega
            rw [e] at this
            simpa [hnk] using this
      · simp [hle] at h

/-- The facts of `cutAt_found` for a scan with chord length `n`. -/
theorem scanFor_found (env : Env) (curve : BezierCPs) (n : Nat) (patch rest : BezierCPs)
    (hk : 4 < curve.length) (hn2 : 2 ≤ n) (hn3 : n ≤ 3)
    (h : scanFor env curve n = ScanOutcome.found patch rest) :
    patch.length = n + 1 ∧ rest.length ≠ 1 ∧
      (rest ≠ [] → ∀ v ∈ curve, v ∈ patch ∨ v ∈ rest) := by
  unfold scanFor at h
  obtain ⟨i0, next0, hi, h1, h2, hc⟩ :=
    scanLoop_found env curve _ _ n patch rest (by omega) curve 0 n (by simp) (by omega)
      (by omega) h
  exact cutAt_found curve n i0 next0 patch rest hk hn2 hn3 hi h1 h2 hc

/-- The facts of `cutAt_found` for the two scans of one iteration of the loop. -/
theorem scanAll_found (env : Env) (curve : BezierCPs) (patch rest : BezierCPs)
    (hk : 4 < curve.length) (h : scanAll env curve = ScanOutcome.found patch rest) :
    (patch.length = 3 ∨ patch.length = 4) ∧ rest.length ≠ 1 ∧
      (rest ≠ [] → ∀ v ∈ curve, v ∈ patch ∨ v ∈ rest) := by
  unfold scanAll at h
  split at h
  · obtain ⟨h1, h2, h3⟩ := scanFor_found env curve 2 patch rest hk (by omega) (by omega) h
    exact ⟨Or.inl h1, h2, h3⟩
  · obtain ⟨h1, h2, h3⟩ := scanFor_found env curve 3 patch rest hk (by omega) (by omega) h
    exact ⟨Or.inr h1, h2, h3⟩

/-- The subdivision pushes two points per point of the curve. -/
theorem subdivideLoop_length (env : Env) (curve : BezierCPs) :
    ∀ (suffix : BezierCPs) (next : Nat) (acc : BezierCPs),
      (subdivideLoop env curve suffix next acc).length = acc.length + 2 * suffix.length := by
  intro suffix
  induction suffix with
  | nil => intro next acc; simp [subdivideLoop]
  | cons it more ih =>
    intro next acc
    rw [subdivideLoop]
    simp only [ih, List.length_append, List.length_cons, List.length_nil]
    omega

/-- The subdivision keeps the points it has pushed and pushes every point it visits. -/
theorem subdivideLoop_mem (env : Env) (curve : BezierCPs) :
    ∀ (suffix : BezierCPs) (next : Nat) (acc : BezierCPs) (v : BezierCP),
      v ∈ acc ∨ v ∈ suffix → v ∈ subdivideLoop env curve suffix next acc := by
  intro suffix
  induction suffix with
  | nil => intro next acc v hv; simpa [subdivideLoop] using hv
  | cons it more ih =>
    intro next acc v hv
    rw [subdivideLoop]
    apply ih
    rcases hv with hv | hv
    · left; simp [hv]
    · rcases List.mem_cons.mp hv with rfl | hv
      · left; simp
      · right; exact hv

/-- The subdivided curve has twice as many points. -/
theorem subdivide_length (env : Env) (curve : BezierCPs) :
    (subdivide env curve).length = 2 * curve.length := by
  simp [subdivide, subdivideLoop_length]

/-- The subdivided curve holds every point of the curve. -/
theorem subdivide_mem (env : Env) (curve : BezierCPs) (v : BezierCP) (hv : v ∈ curve) :
    v ∈ subdivide env curve :=
  subdivideLoop_mem env curve curve _ [] v (Or.inr hv)

/-! ## `bezulate`: the loop -/

/-- With at most 4 points the loop is over: the non-empty remainder is pushed. -/
theorem bezulateLoop_small (env : Env) (fuel : Nat) (curve : BezierCPs)
    (acc : List BezierCPs) (h : curve.length ≤ 4) :
    bezulateLoop env fuel curve acc =
      BezulateResult.returned (if curve = [] then acc else acc ++ [curve]) := by
  have h4 : ¬ curve.length > 4 := by omega
  cases fuel <;> cases curve <;> simp_all [bezulateLoop]

/-- With more than 4 points and no iteration left the run is out of fuel. -/
theorem bezulateLoop_zero (env : Env) (curve : BezierCPs) (acc : List BezierCPs)
    (h : 4 < curve.length) : bezulateLoop env 0 curve acc = BezulateResult.outOfFuel := by
  simp [bezulateLoop, h]

/-- One iteration of the loop on a curve of more than 4 points. -/
theorem bezulateLoop_succ (env : Env) (fuel : Nat) (curve : BezierCPs)
    (acc : List BezierCPs) (h : 4 < curve.length) :
    bezulateLoop env (fuel + 1) curve acc =
      match scanAll env curve with
      | ScanOutcome.found patch rest => bezulateLoop env fuel rest (acc ++ [patch])
      | ScanOutcome.undefinedErase => BezulateResult.undefinedBehaviour
      | ScanOutcome.notFound => bezulateLoop env fuel (subdivide env curve) acc := by
  rw [bezulateLoop]
  simp only [gt_iff_lt, h, if_true]

/-- Invariant of the loop: the working curve never has exactly one point and every patch has
2 to 4 points. -/
theorem bezulateLoop_patch_sizes (env : Env) (patches : List BezierCPs) :
    ∀ (fuel : Nat) (curve : BezierCPs) (acc : List BezierCPs),
      curve.length ≠ 1 → (∀ p ∈ acc, 2 ≤ p.length ∧ p.length ≤ 4) →
      bezulateLoop env fuel curve acc = BezulateResult.returned patches →
      ∀ p ∈ patches, 2 ≤ p.length ∧ p.length ≤ 4 := by
  intro fuel
  induction fuel with
  | zero =>
    intro curve acc h1 hacc h
    by_cases hk : 4 < curve.length
    · rw [bezulateLoop_zero env curve acc hk] at h; cases h
    · rw [bezulateLoop_small env 0 curve acc (by omega)] at h
      injection h with h
      subst h
      intro p hp
      split at hp
      · exact hacc p hp
      · rcases List.mem_append.mp hp with hp | hp
        · exact hacc p hp
        · have : p = curve := by simpa using hp
          subst this
          have : p.length ≠ 0 := by
            intro h0; exact ‹¬ p = []› (List.length_eq_zero.mp h0)
          omega
  | succ fuel ih =>
    intro curve acc h1 hacc h
    by_cases hk : 4 < curve.length
    · rw [bezulateLoop_succ env fuel curve acc hk] at h
      split at h
      · rename_i patch rest hs
        obtain ⟨hp, hr, _⟩ := scanAll_found env curve patch rest hk hs
        refine ih rest (acc ++ [patch]) hr ?_ h
        intro p hp'
        rcases List.mem_append.mp hp' with hp' | hp'
        · exact hacc p hp'
        · have : p = patch := by simpa using hp'
          subst this; omega
      · cases h
      · exact ih _ acc (by rw [subdivide_length]; omega) hacc h
    · rw [bezulateLoop_small env _ curve acc (by omega)] at h
      injection h with h
      subst h
      intro p hp
      split at hp
      · exact hacc p hp
      · rcases List.mem_append.mp hp with hp | hp
        · exact hacc p hp
        · have : p = curve := by simpa using hp
          subst this
          have : p.length ≠ 0 := by
            intro h0; exact ‹¬ p = []› (List.length_eq_zero.mp h0)
          omega

/-- The trace of a run starts with the curve it is run on. -/
theorem workingCurves_head (env : Env) (fuel : Nat) (curve : BezierCPs) :
    curve ∈ workingCurves env fuel curve := by
  cases fuel with
  | zero => rw [workingCurves]; split <;> simp
  | succ fuel =>
    rw [workingCurves]
    split
    · cases scanAll env curve <;> simp
    · simp

/-- With at most 4 points the trace is the curve alone. -/
theorem workingCurves_small (env : Env) (fuel : Nat) (curve : BezierCPs)
    (h : curve.length ≤ 4) : workingCurves env fuel curve = [curve] := by
  have h4 : ¬ curve.length > 4 := by omega
  cases fuel <;> simp [workingCurves, h4]

/-- The trace of one iteration of the loop on a curve of more than 4 points. -/
theorem workingCurves_succ (env : Env) (fuel : Nat) (curve : BezierCPs)
    (h : 4 < curve.length) :
    workingCurves env (fuel + 1) curve =
      match scanAll env curve with
      | ScanOutcome.found _ rest => curve :: workingCurves env fuel rest
      | ScanOutcome.undefinedErase => [curve]
      | ScanOutcome.notFound => curve :: workingCurves env fuel (subdivide env curve) := by
  rw [workingCurves, if_pos h]

/-- Invariant of the loop: when the run returns and no working curve of the trace is empty,
the patches pushed before are kept and every vertex of every working curve is in some patch. -/
theorem bezulateLoop_cover (env : Env) (patches : List BezierCPs) :
    ∀ (fuel : Nat) (curve : BezierCPs) (acc : List BezierCPs),
      bezulateLoop env fuel curve acc = BezulateResult.returned patches →
      [] ∉ workingCurves env fuel curve →
      (∀ p ∈ acc, p ∈ patches) ∧
        ∀ c ∈ workingCurves env fuel curve, ∀ v ∈ c, ∃ p ∈ patches, v ∈ p := by
  have small : ∀ (fuel : Nat) (curve : BezierCPs) (acc : List BezierCPs),
      curve.length ≤ 4 →
      bezulateLoop env fuel curve acc = BezulateResult.returned patches →
      [] ∉ workingCurves env fuel curve →
      (∀ p ∈ acc, p ∈ patches) ∧
        ∀ c ∈ workingCurves env fuel curve, ∀ v ∈ c, ∃ p ∈ patches, v ∈ p := by
    intro fuel curve acc hk h hne
    rw [workingCurves_small env fuel curve hk] at hne ⊢
    have hc : curve ≠ [] := by intro h0; apply hne; simp [h0]
    rw [bezulateLoop_small env fuel curve acc hk, if_neg hc] at h
    injection h with h
    subst h
    refine ⟨fun p hp => List.mem_append_left _ hp, ?_⟩
    intro c hcm v hv
    have : c = curve := by simpa using hcm
    subst this
    exact ⟨c, by simp, hv⟩
  intro fuel
  induction fuel with
  | zero =>
    intro curve acc h hne
    by_cases hk : 4 < curve.length
    · rw [bezulateLoop_zero env curve acc hk] at h; cases h
    · exact small 0 curve acc (by omega) h hne
  | succ fuel ih =>
    intro curve acc h hne
    by_cases hk : 4 < curve.length
    · rw [bezulateLoop_succ env fuel curve acc hk] at h
      rw [workingCurves_succ env fuel curve hk] at hne ⊢
      cases hs : scanAll env curve with
      | found patch rest =>
        rw [hs] at h hne
        simp only [List.mem_cons, not_or] at h hne
        obtain ⟨hacc, hcov⟩ := ih rest (acc ++ [patch]) h hne.2
        have hrest : rest ≠ [] := by
          intro h0
          apply hne.2
          rw [← h0]
          exact workingCurves_head env fuel rest
        obtain ⟨_, _, hcut⟩ := scanAll_found env curve patch rest hk hs
        refine ⟨fun p hp => hacc p (List.mem_append_left _ hp), ?_⟩
        intro c hcm v hv
        rcases List.mem_cons.mp hcm with rfl | hcm
        · rcases hcut hrest v hv with hv | hv
          · exact ⟨patch, hacc patch (by simp), hv⟩
          · exact hcov rest (workingCurves_head env fuel rest) v hv
        · exact hcov c hcm v hv
      | undefinedErase =>
        rw [hs] at h
        cases h
      | notFound =>
        rw [hs] at h hne
        simp only [List.mem_cons, not_or] at h hne
        obtain ⟨hacc, hcov⟩ := ih _ acc h hne.2
        refine ⟨hacc, ?_⟩
        intro c hcm v hv
        rcases List.mem_cons.mp hcm with rfl | hcm
        · exact hcov _ (workingCurves_head env fuel _) v (subdivide_mem env c v hv)
        · exact hcov c hcm v hv
    · exact small _ curve acc (by omega) h hne

/-- On a family of curves closed under shortening ear cuts, the loop returns within
`length - 4` iterations. -/
theorem bezulateLoop_terminates (env : Env) (S : BezierCPs → Prop)
    (hS : ∀ c, S c → 4 < c.length →
      ∃ patch rest, scanAll env c = ScanOutcome.found patch rest ∧
        rest.length < c.length ∧ S rest) :
    ∀ (fuel : Nat) (curve : BezierCPs) (acc : List BezierCPs),
      S curve → curve.length ≤ fuel + 4 →
      ∃ patches, bezulateLoop env fuel curve acc = BezulateResult.returned patches := by
  intro fuel
  induction fuel with
  | zero =>
    intro curve acc _ hk
    exact ⟨_, bezulateLoop_small env 0 curve acc (by omega)⟩
  | succ fuel ih =>
    intro curve acc hc hk
    by_cases h4 : 4 < curve.length
    · obtain ⟨patch, rest, hs, hlt, hr⟩ := hS curve hc h4
      rw [bezulateLoop_succ env fuel curve acc h4, hs]
      exact ih rest (acc ++ [patch]) hr (by omega)
    · exact ⟨_, bezulateLoop_small env _ curve acc (by omega)⟩

/-! ## `bezulate` on a curve that lies on a line -/

/-- Two horizontal segments have no intersection point. -/
theorem specIntersect_horizontal (l1a l1b l2a l2b : Point) (h1 : l1a.y = l1b.y)
    (h2 : l2a.y = l2b.y) : specIntersect l1a l1b l2a l2b = none := by
  simp [specIntersect, h1, h2]

/-- The polygon of a curve is the list of the positions of its control points. -/
theorem polygonAndBBox_fst (env : Env) (curve : BezierCPs) :
    (polygonAndBBox env curve).1 = curve.map (fun it => it.pos) := by
  have h : ∀ (l : BezierCPs) (acc : List Point × RectD),
      (l.foldl (fun (acc : List Point × RectD) it =>
        (acc.1 ++ [it.pos], bboxUpdate acc.2 it.pos)) acc).1 =
        acc.1 ++ l.map (fun it => it.pos) := by
    intro l
    induction l with
    | nil => intro acc; simp
    | cons it l ih => intro acc; simp [ih]
  simpa [polygonAndBBox] using h curve ([], env.setupInfinity)

/-- On horizontal segments the loop over the polygon edges inserts nothing. -/
theorem intersectionsLoop_flat (r : RectD) (curPoint nextPoint : Point)
    (hc : curPoint.y = 0) (hn : nextPoint.y = 0) :
    ∀ (rest : List Point) (last_pt : Point) (acc : List Point),
      last_pt.y = 0 → (∀ q ∈ rest, q.y = 0) →
      intersectionsLoop (specEnv r) curPoint nextPoint last_pt rest acc = acc ∨
        acc.length > 2 := by
  intro rest
  induction rest with
  | nil => intro last_pt acc _ _; left; simp [intersectionsLoop]
  | cons cur rest ih =>
    intro last_pt acc hl hr
    have hcur : cur.y = 0 := hr cur (by simp)
    rw [intersectionsLoop]
    have : (specEnv r).intersect curPoint nextPoint last_pt cur = none :=
      specIntersect_horizontal _ _ _ _ (by rw [hc, hn]) (by rw [hl, hcur])
    simp only [this]
    by_cases h2 : acc.length > 2
    · right; exact h2
    · rw [if_neg h2]
      exact ih cur acc hcur (fun q hq => hr q (List.mem_cons_of_mem _ hq))

/-- A horizontal chord has no intersection point with a polygon on the same line. -/
theorem chordIntersections_flat (r : RectD) (curPoint nextPoint : Point)
    (hc : curPoint.y = 0) (hn : nextPoint.y = 0) (polygon : List Point)
    (hp : ∀ q ∈ polygon, q.y = 0) :
    chordIntersections (specEnv r) curPoint nextPoint polygon = [] := by
  cases polygon with
  | nil => rfl
  | cons first rest =>
    rw [chordIntersections]
    rcases intersectionsLoop_flat r curPoint nextPoint hc hn rest first []
      (hp first (by simp)) (fun q hq => hp q (List.mem_cons_of_mem _ hq)) with h | h
    · exact h
    · simp at h

/-- Every point read in a flat curve, the default point included, lies on the axis. -/
theorem getD_flat (curve : BezierCPs) (hf : Flat curve) (j : Nat) :
    (curve.getD j default).pos.y = 0 ∧ (curve.getD j default).left.y = 0 ∧
      (curve.getD j default).right.y = 0 := by
  by_cases hj : j < curve.length
  · have : curve.getD j default = curve[j] := by simp [List.getD_eq_getElem?_getD, hj]
    rw [this]
    exact hf _ (List.getElem_mem _)
  · have : curve.getD j default = default := by
      simp [List.getD_eq_getElem?_getD, List.getElem?_eq_none (Nat.le_of_not_lt hj)]
    rw [this]
    exact ⟨rfl, rfl, rfl⟩

/-- A scan of a flat curve accepts no chord. -/
theorem scanLoop_flat (r : RectD) (curve : BezierCPs) (hf : Flat curve) (polygon : List Point)
    (hp : ∀ q ∈ polygon, q.y = 0) (bbox : RectD) (n : Nat) :
    ∀ (suffix : BezierCPs) (i next : Nat), Flat suffix →
      scanLoop (specEnv r) curve polygon bbox n suffix i next = ScanOutcome.notFound := by
  intro suffix
  induction suffix with
  | nil => intro i next _; simp [scanLoop]
  | cons it more ih =>
    intro i next hs
    rw [scanLoop]
    have hit : it.pos.y = 0 := (hs it (by simp)).1
    have hch := chordIntersections_flat r it.pos
      (curve.getD (if next = curve.length then 0 else next) default).pos hit
      (getD_flat curve hf _).1 polygon hp
    simp only [hch, List.length_nil]
    simp only [ne_eq, OfNat.zero_ne_ofNat, not_false_eq_true, if_true]
    exact ih _ _ (fun v hv => hs v (List.mem_cons_of_mem _ hv))

/-- One iteration of the loop on a flat curve finds no ear. -/
theorem scanAll_flat (r : RectD) (curve : BezierCPs) (hf : Flat curve) :
    scanAll (specEnv r) curve = ScanOutcome.notFound := by
  have hp : ∀ q ∈ (polygonAndBBox (specEnv r) curve).1, q.y = 0 := by
    intro q hq
    rw [polygonAndBBox_fst] at hq
    obtain ⟨v, hv, rfl⟩ := List.mem_map.mp hq
    exact (hf v hv).1
  have h : ∀ n, scanFor (specEnv r) curve n = ScanOutcome.notFound := by
    intro n
    exact scanLoop_flat r curve hf _ hp _ n curve 0 n hf
  simp [scanAll, h]

/-- The subdivision of a flat curve pushes points of the axis only. -/
theorem subdivideLoop_flat (r : RectD) (curve : BezierCPs) (hf : Flat curve) :
    ∀ (suffix : BezierCPs) (next : Nat) (acc : BezierCPs), Flat suffix → Flat acc →
      Flat (subdivideLoop (specEnv r) curve suffix next acc) := by
  intro suffix
  induction suffix with
  | nil => intro next acc _ ha; simpa [subdivideLoop] using ha
  | cons it more ih =>
    intro next acc hs ha
    rw [subdivideLoop]
    apply ih
    · exact fun v hv => hs v (List.mem_cons_of_mem _ hv)
    · intro v hv
      obtain ⟨h1, h2, h3⟩ := hs it (by simp)
      obtain ⟨g1, g2, g3⟩ := getD_flat curve hf (if next = curve.length then 0 else next)
      simp only [List.mem_append, List.mem_cons, List.mem_singleton, List.not_mem_nil,
        or_false] at hv
      rcases hv with hv | rfl | rfl
      · exact ha v hv
      · exact ⟨h1, h2, h3⟩
      · simp only [specEnv, specBezierFullPoint, lerpPoint, h1, h3, g1, g2]
        norm_num

/-- The subdivision of a flat curve is flat. -/
theorem subdivide_flat (r : RectD) (curve : BezierCPs) (hf : Flat curve) :
    Flat (subdivide (specEnv r) curve) :=
  subdivideLoop_flat r curve hf curve _ [] hf (by intro v hv; simp at hv)

/-- The loop never ends on a flat curve of more than 4 points. -/
theorem bezulateLoop_flat (r : RectD) :
    ∀ (fuel : Nat) (curve : BezierCPs) (acc : List BezierCPs), Flat curve →
      4 < curve.length →
      bezulateLoop (specEnv r) fuel curve acc = BezulateResult.outOfFuel := by
  intro fuel
  induction fuel with
  | zero => intro curve acc _ hk; exact bezulateLoop_zero _ curve acc hk
  | succ fuel ih =>
    intro curve acc hf hk
    rw [bezulateLoop_succ _ fuel curve acc hk, scanAll_flat r curve hf]
    exact ih _ acc (subdivide_flat r curve hf) (by rw [subdivide_length]; omega)

/-- The curve `flatCurve` is flat. -/
theorem flatCurve_flat : Flat flatCurve := by
  intro v hv
  simp only [flatCurve, List.mem_cons, List.mem_singleton, List.not_mem_nil, or_false] at hv
  rcases hv with rfl | rfl | rfl | rfl | rfl <;> exact ⟨rfl, rfl, rfl⟩

/-! ## `bezulate` on a hexagon: a cut that removes nothing -/

/-- On the hexagon the scan with `n = 3` rejects the chords at the vertices 0, 1 and 2; two
of them leave by `continue`, so that `next` has advanced only once and stands on vertex 4
when `it` is on vertex 3.  The chord from vertex 3 to vertex 4 is an edge of the polygon: it
has two intersection points and its midpoint passes the inside test, the patch pushed is
`3, 4, 5, 4` and `erase (eraseStart, next)` is called on an empty range.  The working curve
is unchanged. -/
theorem scanAll_hexagon :
    ∀ setupInfinity ∈ [infiniteRect, emptyRect],
      scanAll (specEnv setupInfinity) hexagon =
        ScanOutcome.found [cornerCP 8 6, cornerCP 7 5, cornerCP 2 4, cornerCP 7 5] hexagon := by
  decide!

/-- The loop of `bezulate` never leaves the hexagon: every iteration pushes the same patch and
keeps the same working curve. -/
theorem bezulate_hexagon_never_returns :
    ∀ setupInfinity ∈ [infiniteRect, emptyRect], ∀ (fuel : Nat),
      bezulate (specEnv setupInfinity) fuel hexagon = BezulateResult.outOfFuel := by
  intro r hr fuel
  have hs := scanAll_hexagon r hr
  have h : ∀ (fuel : Nat) (acc : List BezierCPs),
      bezulateLoop (specEnv r) fuel hexagon acc = BezulateResult.outOfFuel := by
    intro fuel
    induction fuel with
    | zero => intro acc; exact bezulateLoop_zero _ hexagon acc (by decide)
    | succ fuel ih =>
      intro acc
      rw [bezulateLoop_succ _ fuel hexagon acc (by decide), hs]
      exact ih _
  exact h fuel []

/-! ## `bezulate` on a convex curve -/

/-- A segment whose two ends lie strictly on the same side of the line of the chord has no
intersection point with the chord. -/
theorem specIntersect_same_side (a b p q : Point)
    (h : 0 < cross3 a b p * cross3 a b q) : specIntersect a b p q = none := by
  unfold specIntersect
  dsimp only
  split
  · rfl
  · rename_i hden
    have hnum : (b.x - a.x) * (a.y - p.y) - (b.y - a.y) * (a.x - p.x) = -cross3 a b p := by
      unfold cross3; ring
    have hd : (b.y - a.y) * (p.x - q.x) - (b.x - a.x) * (p.y - q.y) =
        cross3 a b q - cross3 a b p := by
      unfold cross3; ring
    rw [if_pos]
    right; right
    rw [hnum, hd]
    rw [hd] at hden
    rcases lt_or_gt_of_ne hden with hlt | hgt
    · -- den < 0 : sq < sp
      rcases lt_or_le 0 (cross3 a b p) with hp | hp
      · right
        have hq : 0 < cross3 a b q := by
          by_contra hq
          push_neg at hq
          nlinarith
        rw [lt_div_iff_of_neg hlt]
        linarith
      · left
        have hp2 : cross3 a b p < 0 := by
          rcases lt_or_eq_of_le hp with h1 | h1
          · exact h1
          · rw [h1] at h; simp at h
        have hq : cross3 a b q < 0 := by
          by_contra hq
          push_neg at hq
          nlinarith
        exact div_neg_of_pos_of_neg (by linarith) hlt
    · rcases lt_or_le 0 (cross3 a b p) with hp | hp
      · left
        apply div_neg_of_neg_of_pos _ hgt
        linarith
      · right
        have hp2 : cross3 a b p < 0 := by
          rcases lt_or_eq_of_le hp with h1 | h1
          · exact h1
          · rw [h1] at h; simp at h
        rw [lt_div_iff₀ hgt]
        have hq : cross3 a b q < 0 := by
          by_contra hq
          push_neg at hq
          nlinarith
        linarith

/-- A segment that starts at the first end of the chord, and does not go along it, meets the
chord at that end. -/
theorem specIntersect_at_start (a b q : Point) (h : cross3 a b q ≠ 0) :
    specIntersect a b a q = some a := by
  unfold specIntersect
  dsimp only
  have hd : (b.y - a.y) * (a.x - q.x) - (b.x - a.x) * (a.y - q.y) = cross3 a b q := by
    unfold cross3; ring
  rw [hd, if_neg h]
  simp

/-- A segment that ends at the second end of the chord, and does not come along it, meets the
chord at that end. -/
theorem specIntersect_into_end (a b p : Point) (h : cross3 a b p ≠ 0) :
    specIntersect a b p b = some b := by
  unfold specIntersect
  dsimp only
  have hd : (b.y - a.y) * (p.x - b.x) - (b.x - a.x) * (p.y - b.y) = -cross3 a b p := by
    unfold cross3; ring
  have hna : (p.y - b.y) * (a.x - p.x) - (p.x - b.x) * (a.y - p.y) = -cross3 a b p := by
    unfold cross3; ring
  have hnb : (b.x - a.x) * (a.y - p.y) - (b.y - a.y) * (a.x - p.x) = -cross3 a b p := by
    unfold cross3; ring
  have h0 : -cross3 a b p ≠ 0 := neg_ne_zero.mpr h
  rw [hd, hna, hnb, if_neg h0, div_self h0]
  simp

/-- A segment that starts at the second end of the chord, and does not go along it, meets the
chord at that end. -/
theorem specIntersect_from_end (a b q : Point) (h : cross3 a b q ≠ 0) :
    specIntersect a b b q = some b := by
  unfold specIntersect
  dsimp only
  have hd : (b.y - a.y) * (b.x - q.x) - (b.x - a.x) * (b.y - q.y) = cross3 a b q := by
    unfold cross3; ring
  have hna : (b.y - q.y) * (a.x - b.x) - (b.x - q.x) * (a.y - b.y) = cross3 a b q := by
    unfold cross3; ring
  have hnb : (b.x - a.x) * (a.y - b.y) - (b.y - a.y) * (a.x - b.x) = 0 := by
    ring
  rw [hd, hna, hnb, if_neg h, div_self h]
  simp

/-- A point that the set holds is not inserted again. -/
theorem setInsert_self (l : List Point) (p : Point) (h : p ∈ l) : setInsert l p = l := by
  unfold setInsert
  rw [if_pos]
  rw [List.any_eq_true]
  refine ⟨p, h, ?_⟩
  simp [qpointf_compare_less]

/-- A point that differs from the only point of the set by at least `1e-6` in a coordinate
is inserted. -/
theorem setInsert_apart (a b : Point)
    (h : 1 / 1000000 ≤ |a.x - b.x| ∨ 1 / 1000000 ≤ |a.y - b.y|) :
    setInsert [a] b = [a, b] := by
  unfold setInsert
  rw [if_neg]
  · rfl
  · simp only [List.any_cons, List.any_nil, Bool.or_false, Bool.and_eq_true,
      Bool.not_eq_true', not_and, Bool.not_eq_false]
    intro h1
    unfold qpointf_compare_less at h1 ⊢
    rw [abs_sub_comm b.x a.x, abs_sub_comm b.y a.y] at h1
    by_cases hx : |a.x - b.x| < 1 / 1000000
    · have hy : ¬ |a.y - b.y| < 1 / 1000000 := by
        rcases h with h | h
        · exact absurd hx (not_lt.mpr h)
        · exact not_lt.mpr h
      rw [if_pos hx, if_neg hy] at h1 ⊢
      have hne : a.y ≠ b.y := by
        intro e
        rw [e] at hy
        simp at hy
      by_cases hlt : a.y < b.y
      · simp [hlt]
      · have : b.y < a.y := lt_of_le_of_ne (not_lt.mp hlt) (Ne.symm hne)
        simp [this] at h1
    · rw [if_neg hx] at h1 ⊢
      have hne : a.x ≠ b.x := by
        intro e
        rw [e] at hx
        simp at hx
      by_cases hlt : a.x < b.x
      · simp [hlt]
      · have : b.x < a.x := lt_of_le_of_ne (not_lt.mp hlt) (Ne.symm hne)
        simp [this] at h1

/-- The signed area changes sign when two points are exchanged. -/
theorem cross3_swap (a b c : Point) : cross3 a c b = -cross3 a b c := by
  unfold cross3; ring

/-- The signed area is kept by a rotation of the three points. -/
theorem cross3_rotate (a b c : Point) : cross3 b c a = cross3 a b c := by
  unfold cross3; ring

/-- Two numbers of the same strict sign have a positive product. -/
theorem same_sign_mul (s x y : ℚ) (hs : s = 1 ∨ s = -1) (hx : 0 < s * x) (hy : 0 < s * y) :
    0 < x * y := by
  rcases hs with rfl | rfl
  · simp only [one_mul] at hx hy; exact mul_pos hx hy
  · simp only [neg_mul, one_mul, Left.neg_pos_iff] at hx hy
    exact mul_pos_of_neg_of_neg hx hy

/-- The loop over the edges inserts nothing on a path that stays strictly on one side of the
chord. -/
theorem intersectionsLoop_same_side (r : RectD) (s : ℚ) (hs : s = 1 ∨ s = -1) (a b : Point) :
    ∀ (rest : List Point) (last_pt : Point) (acc : List Point),
      0 < s * cross3 a b last_pt → (∀ w ∈ rest, 0 < s * cross3 a b w) → acc.length ≤ 2 →
      intersectionsLoop (specEnv r) a b last_pt rest acc = acc := by
  intro rest
  induction rest with
  | nil => intro last_pt acc _ _ _; simp [intersectionsLoop]
  | cons cur rest ih =>
    intro last_pt acc hl hr hacc
    have hcur := hr cur (by simp)
    rw [intersectionsLoop]
    have hnone : (specEnv r).intersect a b last_pt cur = none :=
      specIntersect_same_side a b last_pt cur (same_sign_mul s _ _ hs hl hcur)
    simp only [hnone]
    rw [if_neg (by omega)]
    exact ih cur acc hcur (fun w hw => hr w (List.mem_cons_of_mem _ hw)) hacc

/-- What strict convexity says of the first four vertices and of the others. -/
theorem strictlyConvex_facts (s : ℚ) (v0 v1 v2 v3 : Point) (tail : List Point)
    (h : strictlyConvex s (v0 :: v1 :: v2 :: v3 :: tail) = true) :
    0 < s * cross3 v0 v1 v3 ∧ 0 < s * cross3 v0 v2 v3 ∧ 0 < s * cross3 v1 v2 v3 ∧
      0 < s * cross3 v0 v1 v2 ∧
      (∀ w ∈ tail, 0 < s * cross3 v0 v3 w) ∧
      tail.Pairwise (fun b c => 0 < s * cross3 v0 b c) ∧
      tail.Pairwise (fun b c => 0 < s * cross3 v3 b c) ∧
      strictlyConvex s (v0 :: v3 :: tail) = true := by
  simp only [strictlyConvex, Bool.and_eq_true, decide_eq_true_eq, List.pairwise_cons,
    List.mem_cons, forall_eq_or_imp] at h
  obtain ⟨⟨⟨h012, h013, h01w⟩, ⟨h023, h02w⟩, h03w, hp0⟩, ⟨⟨h123, h12w⟩, h13w, hp1⟩,
    ⟨h23w, hp2⟩, hp3, hc⟩ := h
  refine ⟨h013, h023, h123, h012, h03w, hp0, hp3, ?_⟩
  simp only [strictlyConvex, Bool.and_eq_true, decide_eq_true_eq, List.pairwise_cons]
  exact ⟨⟨h03w, hp0⟩, hp3, hc⟩

/-- In a strictly convex polygon of at least five vertices the chord from the first to the
fourth vertex has two intersection points with the edges: its two ends. -/
theorem chordIntersections_convex (r : RectD) (s : ℚ) (hs : s = 1 ∨ s = -1)
    (v0 v1 v2 v3 v4 : Point) (rest : List Point)
    (hc : strictlyConvex s (v0 :: v1 :: v2 :: v3 :: v4 :: rest) = true)
    (ha : 1 / 1000000 ≤ |v0.x - v3.x| ∨ 1 / 1000000 ≤ |v0.y - v3.y|) :
    chordIntersections (specEnv r) v0 v3 (v0 :: v1 :: v2 :: v3 :: v4 :: rest) = [v0, v3] := by
  obtain ⟨h013, h023, _, _, h03w, _, _, _⟩ := strictlyConvex_facts s v0 v1 v2 v3 (v4 :: rest) hc
  have h1 : 0 < -s * cross3 v0 v3 v1 := by rw [cross3_swap]; linarith
  have h2 : 0 < -s * cross3 v0 v3 v2 := by rw [cross3_swap]; linarith
  have hs2 : -s = 1 ∨ -s = -1 := by rcases hs with rfl | rfl <;> simp
  have h4 := h03w v4 (by simp)
  have e1 : (specEnv r).intersect v0 v3 v0 v1 = some v0 :=
    specIntersect_at_start v0 v3 v1 (by intro e; rw [e] at h1; simp at h1)
  have e2 : (specEnv r).intersect v0 v3 v1 v2 = none :=
    specIntersect_same_side v0 v3 v1 v2 (same_sign_mul (-s) _ _ hs2 h1 h2)
  have e3 : (specEnv r).intersect v0 v3 v2 v3 = some v3 :=
    specIntersect_into_end v0 v3 v2 (by intro e; rw [e] at h2; simp at h2)
  have e4 : (specEnv r).intersect v0 v3 v3 v4 = some v3 :=
    specIntersect_from_end v0 v3 v4 (by intro e; rw [e] at h4; simp at h4)
  have i1 : setInsert [] v0 = [v0] := by simp [setInsert]
  have i3 : setInsert [v0] v3 = [v0, v3] := setInsert_apart v0 v3 ha
  have i4 : setInsert [v0, v3] v3 = [v0, v3] := setInsert_self _ _ (by simp)
  rw [chordIntersections, intersectionsLoop]
  simp only [e1, i1]
  rw [if_neg (by simp), intersectionsLoop]
  simp only [e2]
  rw [if_neg (by simp), intersectionsLoop]
  simp only [e3, i3]
  rw [if_neg (by simp), intersectionsLoop]
  simp only [e4, i4]
  rw [if_neg (by simp)]
  exact intersectionsLoop_same_side r s hs v0 v3 rest v4 [v0, v3] h4
    (fun w hw => h03w w (List.mem_cons_of_mem _ hw)) (by simp)

/-- The four sides of the rectangle after one round of updates. -/
theorem bboxUpdate_sides (r : RectD) (p : Point) :
    (bboxUpdate r p).x1 = (if EDouble.lt (.fin p.x) r.x1 then .fin p.x else r.x1) ∧
      (bboxUpdate r p).x2 = (if EDouble.lt r.x2 (.fin p.x) then .fin p.x else r.x2) ∧
      (bboxUpdate r p).y1 = (if EDouble.lt (.fin p.y) r.y1 then .fin p.y else r.y1) ∧
      (bboxUpdate r p).y2 = (if EDouble.lt r.y2 (.fin p.y) then .fin p.y else r.y2) := by
  unfold bboxUpdate
  dsimp only
  refine ⟨?_, ?_, ?_, ?_⟩ <;> split_ifs <;> rfl

/-- The comparison of two finite values. -/
theorem EDouble.lt_fin_fin (a b : ℚ) : EDouble.lt (.fin a) (.fin b) = decide (a < b) := rfl

/-- After the updates for a point the rectangle holds the point. -/
theorem bboxUpdate_covers_self (r : RectD) (p : Point) : (bboxUpdate r p).covers p := by
  obtain ⟨e1, e2, e3, e4⟩ := bboxUpdate_sides r p
  unfold RectD.covers
  rw [e1, e2, e3, e4]
  refine ⟨?_, ?_, ?_, ?_⟩
  · by_cases h : EDouble.lt (.fin p.x) r.x1 = true
    · rw [if_pos h]; simp [EDouble.lt]
    · rw [if_neg h]; simpa using h
  · by_cases h : EDouble.lt r.x2 (.fin p.x) = true
    · rw [if_pos h]; simp [EDouble.lt]
    · rw [if_neg h]; simpa using h
  · by_cases h : EDouble.lt (.fin p.y) r.y1 = true
    · rw [if_pos h]; simp [EDouble.lt]
    · rw [if_neg h]; simpa using h
  · by_cases h : EDouble.lt r.y2 (.fin p.y) = true
    · rw [if_pos h]; simp [EDouble.lt]
    · rw [if_neg h]; simpa using h

/-- A lower side that is lowered stays below what it was below. -/
theorem EDouble.lower_mono (e : EDouble) (t u : ℚ) (h : EDouble.lt (.fin t) e = false) :
    EDouble.lt (.fin t) (if EDouble.lt (.fin u) e then .fin u else e) = false := by
  by_cases hu : EDouble.lt (.fin u) e = true
  · rw [if_pos hu]
    cases e with
    | negInf => simp [EDouble.lt] at hu
    | fin q =>
      simp only [EDouble.lt, decide_eq_true_eq, decide_eq_false_iff_not, not_lt] at hu h ⊢
      linarith
    | posInf => simp [EDouble.lt] at h
  · rw [if_neg hu]; exact h

/-- An upper side that is raised stays above what it was above. -/
theorem EDouble.upper_mono (e : EDouble) (t u : ℚ) (h : EDouble.lt e (.fin t) = false) :
    EDouble.lt (if EDouble.lt e (.fin u) then .fin u else e) (.fin t) = false := by
  by_cases hu : EDouble.lt e (.fin u) = true
  · rw [if_pos hu]
    cases e with
    | negInf => simp [EDouble.lt] at h
    | fin q =>
      simp only [EDouble.lt, decide_eq_true_eq, decide_eq_false_iff_not, not_lt] at hu h ⊢
      linarith
    | posInf => simp [EDouble.lt] at hu
  · rw [if_neg hu]; exact h

/-- The updates for a point keep in the rectangle the points that it held. -/
theorem bboxUpdate_covers (r : RectD) (p q : Point) (h : r.covers q) :
    (bboxUpdate r p).covers q := by
  obtain ⟨e1, e2, e3, e4⟩ := bboxUpdate_sides r p
  unfold RectD.covers at h ⊢
  rw [e1, e2, e3, e4]
  exact ⟨EDouble.lower_mono _ _ _ h.1, EDouble.upper_mono _ _ _ h.2.1,
    EDouble.lower_mono _ _ _ h.2.2.1, EDouble.upper_mono _ _ _ h.2.2.2⟩

/-- The rectangle built with the polygon holds every vertex, whatever rectangle
`setupInfinity` leaves. -/
theorem polygonAndBBox_covers (env : Env) (curve : BezierCPs) :
    ∀ v ∈ curve, (polygonAndBBox env curve).2.covers v.pos := by
  have h : ∀ (l : BezierCPs) (acc : List Point × RectD),
      (∀ q : Point, acc.2.covers q →
        (l.foldl (fun (acc : List Point × RectD) it =>
          (acc.1 ++ [it.pos], bboxUpdate acc.2 it.pos)) acc).2.covers q) ∧
      (∀ v ∈ l,
        (l.foldl (fun (acc : List Point × RectD) it =>
          (acc.1 ++ [it.pos], bboxUpdate acc.2 it.pos)) acc).2.covers v.pos) := by
    intro l
    induction l with
    | nil => intro acc; exact ⟨fun q hq => hq, fun v hv => absurd hv (by simp)⟩
    | cons it l ih =>
      intro acc
      obtain ⟨ih1, ih2⟩ := ih (acc.1 ++ [it.pos], bboxUpdate acc.2 it.pos)
      refine ⟨fun q hq => ?_, fun v hv => ?_⟩
      · rw [List.foldl_cons]
        exact ih1 q (bboxUpdate_covers _ _ _ hq)
      · rw [List.foldl_cons]
        rcases List.mem_cons.mp hv with rfl | hv
        · exact ih1 _ (bboxUpdate_covers_self _ _)
        · exact ih2 v hv
  exact (h curve ([], env.setupInfinity)).2

/-- The test of `pointInPolygon` against the box passes for the midpoint of two points of the
box when the box holds a point further right and a point further up. -/
theorem midpoint_in_bbox (bbox : RectD) (a b wx wy : Point)
    (ha : bbox.covers a) (hb : bbox.covers b) (hwx : bbox.covers wx) (hwy : bbox.covers wy)
    (hx : (b.x + a.x) / 2 < wx.x) (hy : (b.y + a.y) / 2 < wy.y) :
    EDouble.lt (.fin ((b.x + a.x) / 2)) bbox.x1 = false ∧
      EDouble.lt (.fin ((b.x + a.x) / 2)) bbox.x2 = true ∧
      EDouble.lt (.fin ((b.y + a.y) / 2)) bbox.y1 = false ∧
      EDouble.lt (.fin ((b.y + a.y) / 2)) bbox.y2 = true := by
  obtain ⟨bx1, bx2, by1, by2⟩ := bbox
  unfold RectD.covers at ha hb hwx hwy
  simp only at ha hb hwx hwy
  have l1 : EDouble.lt (.fin ((b.x + a.x) / 2)) bx1 = false := by
    cases bx1 with
    | negInf => rfl
    | fin q =>
      have h1 := ha.1; have h2 := hb.1
      simp only [EDouble.lt, decide_eq_false_iff_not, not_lt] at h1 h2 ⊢
      linarith
    | posInf => have h1 := ha.1; simp [EDouble.lt] at h1
  have l2 : EDouble.lt (.fin ((b.x + a.x) / 2)) bx2 = true := by
    cases bx2 with
    | negInf => have h1 := hwx.2.1; simp [EDouble.lt] at h1
    | fin q =>
      have h1 := hwx.2.1
      simp only [EDouble.lt, decide_eq_false_iff_not, not_lt, decide_eq_true_eq] at h1 ⊢
      linarith
    | posInf => rfl
  have l3 : EDouble.lt (.fin ((b.y + a.y) / 2)) by1 = false := by
    cases by1 with
    | negInf => rfl
    | fin q =>
      have h1 := ha.2.2.1; have h2 := hb.2.2.1
      simp only [EDouble.lt, decide_eq_false_iff_not, not_lt] at h1 h2 ⊢
      linarith
    | posInf => have h1 := ha.2.2.1; simp [EDouble.lt] at h1
  have l4 : EDouble.lt (.fin ((b.y + a.y) / 2)) by2 = true := by
    cases by2 with
    | negInf => have h1 := hwy.2.2.2; simp [EDouble.lt] at h1
    | fin q =>
      have h1 := hwy.2.2.2
      simp only [EDouble.lt, decide_eq_false_iff_not, not_lt, decide_eq_true_eq] at h1 ⊢
      linarith
    | posInf => rfl
  exact ⟨l1, l2, l3, l4⟩

/-- For a point on the left of the line from `a` to `b`, the edge counts, for `-1`, exactly
when it goes downwards across the level of the point. -/
theorem specPointLineIntersection_left (a b m : Point) (w : Int) (h : 0 < cross3 a b m) :
    specPointLineIntersection a b m w = if b.y ≤ m.y ∧ m.y < a.y then w - 1 else w := by
  unfold specPointLineIntersection
  dsimp only
  by_cases he : a.y = b.y
  · rw [if_pos he, if_neg]
    intro hh; rw [he] at hh; linarith [hh.1, hh.2]
  · rw [if_neg he]
    by_cases hd : b.y < a.y
    · simp only [hd, if_true]
      by_cases hst : b.y ≤ m.y ∧ m.y < a.y
      · rw [if_pos hst, if_pos hst, if_pos]
        · ring
        · have hpos : 0 < a.y - b.y := by linarith
          have e : (a.x - b.x) / (a.y - b.y) * (m.y - b.y) ≤ m.x - b.x := by
            rw [div_mul_eq_mul_div, div_le_iff₀ hpos]
            unfold cross3 at h
            nlinarith
          linarith
      · rw [if_neg hst, if_neg hst]
    · have hu : a.y < b.y := lt_of_le_of_ne (not_lt.mp hd) he
      simp only [hd, if_false]
      have hR : ¬ (b.y ≤ m.y ∧ m.y < a.y) := fun hh => by linarith [hh.1, hh.2]
      rw [if_neg hR]
      by_cases hst : a.y ≤ m.y ∧ m.y < b.y
      · rw [if_pos hst, if_neg]
        have hpos : 0 < b.y - a.y := by linarith
        intro hx
        have e : (b.x - a.x) / (b.y - a.y) * (m.y - a.y) ≤ m.x - a.x := by linarith
        rw [div_mul_eq_mul_div, div_le_iff₀ hpos] at e
        unfold cross3 at h
        nlinarith
      · rw [if_neg hst]

/-- For a point on the right of the line from `a` to `b`, the edge counts, for `+1`, exactly
when it goes upwards across the level of the point. -/
theorem specPointLineIntersection_right (a b m : Point) (w : Int) (h : cross3 a b m < 0) :
    specPointLineIntersection a b m w = if a.y ≤ m.y ∧ m.y < b.y then w + 1 else w := by
  unfold specPointLineIntersection
  dsimp only
  by_cases he : a.y = b.y
  · rw [if_pos he, if_neg]
    intro hh; rw [he] at hh; linarith [hh.1, hh.2]
  · rw [if_neg he]
    by_cases hd : b.y < a.y
    · simp only [hd, if_true]
      have hR : ¬ (a.y ≤ m.y ∧ m.y < b.y) := fun hh => by linarith [hh.1, hh.2]
      rw [if_neg hR]
      by_cases hst : b.y ≤ m.y ∧ m.y < a.y
      · rw [if_pos hst, if_neg]
        have hpos : 0 < a.y - b.y := by linarith
        intro hx
        have e : (a.x - b.x) / (a.y - b.y) * (m.y - b.y) ≤ m.x - b.x := by linarith
        rw [div_mul_eq_mul_div, div_le_iff₀ hpos] at e
        unfold cross3 at h
        nlinarith
      · rw [if_neg hst]
    · have hu : a.y < b.y := lt_of_le_of_ne (not_lt.mp hd) he
      simp only [hd, if_false]
      by_cases hst : a.y ≤ m.y ∧ m.y < b.y
      · rw [if_pos hst, if_pos hst, if_pos]
        have hpos : 0 < b.y - a.y := by linarith
        have e : (b.x - a.x) / (b.y - a.y) * (m.y - a.y) ≤ m.x - a.x := by
          rw [div_mul_eq_mul_div, div_le_iff₀ hpos]
          unfold cross3 at h
          nlinarith
        linarith
      · rw [if_neg hst, if_neg hst]

/-- The winding number of a point on the left of every edge: minus the number of the edges
that go downwards across its level. -/
theorem winding_left (m : Point) :
    ∀ (edges : List (Point × Point)) (w : Int),
      (∀ e ∈ edges, 0 < cross3 e.1 e.2 m) →
      edges.foldl (fun acc e => specPointLineIntersection e.1 e.2 m acc) w =
        w - (edges.countP (fun e => decide (e.2.y ≤ m.y ∧ m.y < e.1.y)) : Nat) := by
  intro edges
  induction edges with
  | nil => intro w _; simp
  | cons e edges ih =>
    intro w h
    rw [List.foldl_cons, ih _ (fun e2 he2 => h e2 (List.mem_cons_of_mem _ he2)),
      specPointLineIntersection_left _ _ _ _ (h e (by simp)), List.countP_cons]
    by_cases hst : e.2.y ≤ m.y ∧ m.y < e.1.y
    · rw [if_pos hst]
      simp only [hst, and_self, decide_True, if_true]
      push_cast
      ring
    · rw [if_neg hst]
      simp [hst]

/-- The winding number of a point on the right of every edge: the number of the edges that go
upwards across its level. -/
theorem winding_right (m : Point) :
    ∀ (edges : List (Point × Point)) (w : Int),
      (∀ e ∈ edges, cross3 e.1 e.2 m < 0) →
      edges.foldl (fun acc e => specPointLineIntersection e.1 e.2 m acc) w =
        w + (edges.countP (fun e => decide (e.1.y ≤ m.y ∧ m.y < e.2.y)) : Nat) := by
  intro edges
  induction edges with
  | nil => intro w _; simp
  | cons e edges ih =>
    intro w h
    rw [List.foldl_cons, ih _ (fun e2 he2 => h e2 (List.mem_cons_of_mem _ he2)),
      specPointLineIntersection_right _ _ _ _ (h e (by simp)), List.countP_cons]
    by_cases hst : e.1.y ≤ m.y ∧ m.y < e.2.y
    · rw [if_pos hst]
      simp only [hst, and_self, decide_True, if_true]
      push_cast
      ring
    · rw [if_neg hst]
      simp [hst]

/-- The consecutive pairs of a list are related by a relation that holds pairwise. -/
theorem pairwise_zip_tail {R : Point → Point → Prop} :
    ∀ (l : List Point) (x : Point), (x :: l).Pairwise R → ∀ e ∈ (x :: l).zip l, R e.1 e.2 := by
  intro l
  induction l with
  | nil => intro x _ e he; simp at he
  | cons y l ih =>
    intro x hp e he
    rw [List.zip_cons_cons] at he
    rcases List.mem_cons.mp he with rfl | he
    · exact (List.pairwise_cons.mp hp).1 y (by simp)
    · exact ih y (List.pairwise_cons.mp hp).2 e he

/-- A property that no edge of a path loses is kept from the first point on. -/
theorem chain_forward (g : Point → Prop) :
    ∀ (l : List Point) (x : Point), (∀ e ∈ (x :: l).zip l, g e.1 → g e.2) → g x →
      ∀ y ∈ l, g y := by
  intro l
  induction l with
  | nil => intro x _ _ y hy; simp at hy
  | cons z l ih =>
    intro x h hx y hy
    rw [List.zip_cons_cons] at h
    have hz : g z := h (x, z) (by simp) hx
    rcases List.mem_cons.mp hy with rfl | hy
    · exact hz
    · exact ih z (fun e he => h e (List.mem_cons_of_mem _ he)) hz y hy

/-- A property that no edge of a path loses reaches the last point. -/
theorem chain_to_last (g : Point → Prop) :
    ∀ (l : List Point) (x : Point), (∀ e ∈ (x :: l).zip l, g e.1 → g e.2) →
      ∀ u ∈ x :: l, g u → g ((x :: l).getLast (List.cons_ne_nil _ _)) := by
  intro l
  induction l with
  | nil => intro x _ u hu hg; simp at hu; subst hu; simpa using hg
  | cons z l ih =>
    intro x h u hu hg
    rw [List.zip_cons_cons] at h
    rw [List.getLast_cons (List.cons_ne_nil _ _)]
    rcases List.mem_cons.mp hu with rfl | hu
    · exact ih z (fun e he => h e (List.mem_cons_of_mem _ he)) z (by simp)
        (h (u, z) (by simp) hg)
    · exact ih z (fun e he => h e (List.mem_cons_of_mem _ he)) u hu hg

/-- Around a closed polygon, a property that holds of a vertex and fails of another is lost
along an edge, the closing edge included. -/
theorem cyclic_transition (g : Point → Prop) (first : Point) (tail : List Point)
    (hu : ∃ u ∈ first :: tail, g u) (hw : ∃ w ∈ first :: tail, ¬ g w) :
    ∃ e ∈ (first :: tail).zip tail ++
        [((first :: tail).getLast (List.cons_ne_nil _ _), first)], g e.1 ∧ ¬ g e.2 := by
  by_contra hno
  push_neg at hno
  have hedges : ∀ e ∈ (first :: tail).zip tail, g e.1 → g e.2 :=
    fun e he => hno e (List.mem_append_left _ he)
  obtain ⟨u, hu1, hu2⟩ := hu
  have hlast := chain_to_last g tail first hedges u hu1 hu2
  have hfirst : g first := hno (_, first) (by simp) hlast
  obtain ⟨w, hw1, hw2⟩ := hw
  rcases List.mem_cons.mp hw1 with rfl | hw1
  · exact hw2 hfirst
  · exact hw2 (chain_forward g tail first hedges hfirst w hw1)

/-- One of the two ends of the chord and of the two vertices next to it on either side lies
further right than the midpoint of the chord, and one lies further up. -/
theorem midpoint_lt_vertex (s : ℚ) (hs : s = 1 ∨ s = -1) (v0 v1 v3 v4 : Point)
    (h1 : 0 < s * cross3 v0 v1 v3) (h4 : 0 < s * cross3 v0 v3 v4) :
    (∃ w ∈ [v0, v1, v3, v4], (v3.x + v0.x) / 2 < w.x) ∧
      (∃ w ∈ [v0, v1, v3, v4], (v3.y + v0.y) / 2 < w.y) := by
  have key : ∀ (d a c : ℚ), 0 < s * (a * d) → 0 < s * (-(d * c)) → 0 < a ∨ 0 < c := by
    intro d a c k1 k2
    by_contra hno
    push_neg at hno
    rcases hs with rfl | rfl
    · simp only [one_mul] at k1 k2
      rcases le_or_lt 0 d with hd | hd
      · nlinarith [mul_nonneg hd (neg_nonneg.mpr hno.1)]
      · nlinarith [mul_nonneg (neg_nonneg.mpr hd.le) (neg_nonneg.mpr hno.2)]
    · simp only [neg_mul, one_mul, Left.neg_pos_iff] at k1 k2
      rcases le_or_lt 0 d with hd | hd
      · nlinarith [mul_nonneg hd (neg_nonneg.mpr hno.2)]
      · nlinarith [mul_nonneg (neg_nonneg.mpr hd.le) (neg_nonneg.mpr hno.1)]
  constructor
  · rcases lt_trichotomy v0.x v3.x with h | h | h
    · exact ⟨v3, by simp, by linarith⟩
    · have e1 : cross3 v0 v1 v3 = (v1.x - v0.x) * (v3.y - v0.y) := by
        unfold cross3; rw [← h]; ring
      have e4 : cross3 v0 v3 v4 = -((v3.y - v0.y) * (v4.x - v0.x)) := by
        unfold cross3; rw [← h]; ring
      rw [e1] at h1
      rw [e4] at h4
      rcases key _ _ _ h1 h4 with k | k
      · exact ⟨v1, by simp, by rw [← h]; linarith⟩
      · exact ⟨v4, by simp, by rw [← h]; linarith⟩
    · exact ⟨v0, by simp, by linarith⟩
  · rcases lt_trichotomy v0.y v3.y with h | h | h
    · exact ⟨v3, by simp, by linarith⟩
    · have e1 : cross3 v0 v1 v3 = (v1.y - v0.y) * -(v3.x - v0.x) := by
        unfold cross3; rw [← h]; ring
      have e4 : cross3 v0 v3 v4 = -(-(v3.x - v0.x) * (v4.y - v0.y)) := by
        unfold cross3; rw [← h]; ring
      rw [e1] at h1
      rw [e4] at h4
      rcases key _ _ _ h1 h4 with k | k
      · exact ⟨v1, by simp, by rw [← h]; linarith⟩
      · exact ⟨v4, by simp, by rw [← h]; linarith⟩
    · exact ⟨v0, by simp, by linarith⟩

/-- The value of `cross3` at the midpoint of two points. -/
theorem cross3_midpoint (a b p q : Point) :
    cross3 a b ⟨(q.x + p.x) / 2, (q.y + p.y) / 2⟩ = (cross3 a b p + cross3 a b q) / 2 := by
  unfold cross3; ring

/-- The midpoint of the chord from the first to the fourth vertex of a strictly convex polygon
lies strictly on the inner side of every edge, the closing edge included. -/
theorem midpoint_inner_side (s : ℚ) (v0 v1 v2 v3 v4 : Point) (rest : List Point)
    (hc : strictlyConvex s (v0 :: v1 :: v2 :: v3 :: v4 :: rest) = true) :
    ∀ e ∈ (v0 :: v1 :: v2 :: v3 :: v4 :: rest).zip (v1 :: v2 :: v3 :: v4 :: rest) ++
        [((v0 :: v1 :: v2 :: v3 :: v4 :: rest).getLast (List.cons_ne_nil _ _), v0)],
      0 < s * cross3 e.1 e.2 ⟨(v3.x + v0.x) / 2, (v3.y + v0.y) / 2⟩ := by
  obtain ⟨h013, h023, h123, h012, h03w, hp0, hp3, _⟩ :=
    strictlyConvex_facts s v0 v1 v2 v3 (v4 :: rest) hc
  have hside : ∀ a b : Point, 0 ≤ s * cross3 a b v0 → 0 ≤ s * cross3 a b v3 →
      0 < s * cross3 a b v0 + s * cross3 a b v3 →
      0 < s * cross3 a b ⟨(v3.x + v0.x) / 2, (v3.y + v0.y) / 2⟩ := by
    intro a b _ _ h
    rw [cross3_midpoint]
    linarith
  have hz0 : ∀ a b : Point, cross3 a b a = 0 := by intro a b; unfold cross3; ring
  have hz1 : ∀ a b : Point, cross3 a b b = 0 := by intro a b; unfold cross3; ring
  have hpw : (v3 :: v4 :: rest).Pairwise
      (fun b c => 0 < s * cross3 v0 b c ∧ 0 ≤ s * cross3 v3 b c) := by
    rw [List.pairwise_cons]
    refine ⟨fun w hw => ⟨h03w w hw, ?_⟩, ?_⟩
    · have : cross3 v3 v3 w = 0 := by unfold cross3; ring
      rw [this]; simp
    · exact (hp0.and hp3).imp (fun h => ⟨h.1, h.2.le⟩)
  intro e he
  rcases List.mem_append.mp he with he | he
  · rw [List.zip_cons_cons, List.zip_cons_cons, List.zip_cons_cons] at he
    rcases List.mem_cons.mp he with rfl | he
    · apply hside
      · rw [hz0]; simp
      · exact h013.le
      · rw [hz0]; simpa using h013
    rcases List.mem_cons.mp he with rfl | he
    · have e0 : cross3 v1 v2 v0 = cross3 v0 v1 v2 := cross3_rotate v0 v1 v2
      apply hside
      · show 0 ≤ s * cross3 v1 v2 v0
        rw [e0]; exact h012.le
      · exact h123.le
      · show 0 < s * cross3 v1 v2 v0 + s * cross3 v1 v2 v3
        rw [e0]; linarith
    rcases List.mem_cons.mp he with rfl | he
    · have e0 : cross3 v2 v3 v0 = cross3 v0 v2 v3 := cross3_rotate v0 v2 v3
      apply hside
      · show 0 ≤ s * cross3 v2 v3 v0
        rw [e0]; exact h023.le
      · show 0 ≤ s * cross3 v2 v3 v3
        rw [hz1]; simp
      · show 0 < s * cross3 v2 v3 v0 + s * cross3 v2 v3 v3
        rw [e0, hz1]; simpa using h023
    · obtain ⟨k0, k3⟩ := pairwise_zip_tail (v4 :: rest) v3 hpw e he
      have e0 : cross3 e.1 e.2 v0 = cross3 v0 e.1 e.2 := cross3_rotate v0 e.1 e.2
      have e3 : cross3 e.1 e.2 v3 = cross3 v3 e.1 e.2 := cross3_rotate v3 e.1 e.2
      apply hside
      · rw [e0]; exact k0.le
      · rw [e3]; exact k3
      · rw [e0, e3]; linarith
  · rw [List.mem_singleton] at he
    subst he
    have hl : (v0 :: v1 :: v2 :: v3 :: v4 :: rest).getLast (List.cons_ne_nil _ _) ∈
        v4 :: rest := by
      rw [List.getLast_cons (List.cons_ne_nil _ _), List.getLast_cons (List.cons_ne_nil _ _),
        List.getLast_cons (List.cons_ne_nil _ _), List.getLast_cons (List.cons_ne_nil _ _)]
      exact List.getLast_mem _
    have hlast := h03w _ hl
    have e3 : ∀ l : Point, cross3 l v0 v3 = cross3 v0 v3 l := by
      intro l; unfold cross3; ring
    apply hside
    · show 0 ≤ s * cross3 _ v0 v0
      rw [hz1]; simp
    · show 0 ≤ s * cross3 _ v0 v3
      rw [e3]; exact hlast.le
    · show 0 < s * cross3 _ v0 v0 + s * cross3 _ v0 v3
      rw [hz1, e3]; simpa using hlast

/-- The midpoint of the chord from the first to the fourth vertex of a strictly convex
polygon passes the test of `pointInPolygon` under the winding rule, for a box that holds the
vertices. -/
theorem pointInPolygon_midpoint_convex (s : ℚ) (hs : s = 1 ∨ s = -1)
    (v0 v1 v2 v3 v4 : Point) (rest : List Point)
    (hc : strictlyConvex s (v0 :: v1 :: v2 :: v3 :: v4 :: rest) = true) (bbox : RectD)
    (hbox : ∀ v ∈ v0 :: v1 :: v2 :: v3 :: v4 :: rest, bbox.covers v) :
    pointInPolygon specPointLineIntersection ⟨(v3.x + v0.x) / 2, (v3.y + v0.y) / 2⟩
      (v0 :: v1 :: v2 :: v3 :: v4 :: rest) bbox FillRuleEnum.eFillRuleWinding = true := by
  obtain ⟨h013, _, _, _, h03w, _, _, _⟩ := strictlyConvex_facts s v0 v1 v2 v3 (v4 :: rest) hc
  obtain ⟨⟨wx, hwx, hx⟩, ⟨wy, hwy, hy⟩⟩ :=
    midpoint_lt_vertex s hs v0 v1 v3 v4 h013 (h03w v4 (by simp))
  have hsub : ∀ w ∈ [v0, v1, v3, v4], w ∈ v0 :: v1 :: v2 :: v3 :: v4 :: rest := by
    intro w hw
    simp only [List.mem_cons, List.mem_singleton, List.not_mem_nil, or_false] at hw ⊢
    tauto
  obtain ⟨l1, l2, l3, l4⟩ := midpoint_in_bbox bbox v0 v3 wx wy (hbox v0 (by simp))
    (hbox v3 (by simp)) (hbox wx (hsub wx hwx)) (hbox wy (hsub wy hwy)) hx hy
  have hside := midpoint_inner_side s v0 v1 v2 v3 v4 rest hc
  -- a vertex at or below the level of the midpoint, and one above it
  have hlow : ∃ u ∈ v0 :: v1 :: v2 :: v3 :: v4 :: rest, u.y ≤ (v3.y + v0.y) / 2 := by
    rcases le_total v0.y v3.y with h | h
    · exact ⟨v0, by simp, by linarith⟩
    · exact ⟨v3, by simp, by linarith⟩
  have hhigh : ∃ w ∈ v0 :: v1 :: v2 :: v3 :: v4 :: rest, (v3.y + v0.y) / 2 < w.y :=
    ⟨wy, hsub wy hwy, hy⟩
  simp only [pointInPolygon, EDouble.ge, l1, l2, l3, l4, windingLoop_eq, List.isEmpty_cons]
  simp only [Nat.zero_add, Bool.not_true, Bool.or_self, Bool.false_eq_true, if_false]
  rw [if_pos trivial, if_pos (by simp)]
  have hfold : specPointLineIntersection
      ((v0 :: v1 :: v2 :: v3 :: v4 :: rest).getLast (List.cons_ne_nil _ _)) v0
      ⟨(v3.x + v0.x) / 2, (v3.y + v0.y) / 2⟩
      (List.foldl (fun acc e => specPointLineIntersection e.1 e.2
        ⟨(v3.x + v0.x) / 2, (v3.y + v0.y) / 2⟩ acc) 0
        ((v0 :: v1 :: v2 :: v3 :: v4 :: rest).zip (v1 :: v2 :: v3 :: v4 :: rest))) =
      List.foldl (fun acc e => specPointLineIntersection e.1 e.2
        ⟨(v3.x + v0.x) / 2, (v3.y + v0.y) / 2⟩ acc) 0
        ((v0 :: v1 :: v2 :: v3 :: v4 :: rest).zip (v1 :: v2 :: v3 :: v4 :: rest) ++
          [((v0 :: v1 :: v2 :: v3 :: v4 :: rest).getLast (List.cons_ne_nil _ _), v0)]) := by
    rw [List.foldl_append]
    rfl
  rw [hfold]
  rcases hs with rfl | rfl
  · have hleft : ∀ e ∈ (v0 :: v1 :: v2 :: v3 :: v4 :: rest).zip (v1 :: v2 :: v3 :: v4 :: rest) ++
        [((v0 :: v1 :: v2 :: v3 :: v4 :: rest).getLast (List.cons_ne_nil _ _), v0)],
        0 < cross3 e.1 e.2 ⟨(v3.x + v0.x) / 2, (v3.y + v0.y) / 2⟩ := by
      intro e he
      simpa using hside e he
    rw [winding_left _ _ 0 hleft]
    obtain ⟨e, he, hg1, hg2⟩ := cyclic_transition (fun v => (v3.y + v0.y) / 2 < v.y) v0
      (v1 :: v2 :: v3 :: v4 :: rest) hhigh
      (by obtain ⟨u, hu1, hu2⟩ := hlow; exact ⟨u, hu1, not_lt.mpr hu2⟩)
    have hpos : 0 < List.countP
        (fun e : Point × Point => decide (e.2.y ≤ (⟨(v3.x + v0.x) / 2, (v3.y + v0.y) / 2⟩ : Point).y ∧
          (⟨(v3.x + v0.x) / 2, (v3.y + v0.y) / 2⟩ : Point).y < e.1.y))
        ((v0 :: v1 :: v2 :: v3 :: v4 :: rest).zip (v1 :: v2 :: v3 :: v4 :: rest) ++
          [((v0 :: v1 :: v2 :: v3 :: v4 :: rest).getLast (List.cons_ne_nil _ _), v0)]) :=
      List.countP_pos_iff.mpr ⟨e, he, by simpa using ⟨not_lt.mp hg2, hg1⟩⟩
    rw [decide_eq_true_eq]
    omega
  · have hright : ∀ e ∈ (v0 :: v1 :: v2 :: v3 :: v4 :: rest).zip (v1 :: v2 :: v3 :: v4 :: rest) ++
        [((v0 :: v1 :: v2 :: v3 :: v4 :: rest).getLast (List.cons_ne_nil _ _), v0)],
        cross3 e.1 e.2 ⟨(v3.x + v0.x) / 2, (v3.y + v0.y) / 2⟩ < 0 := by
      intro e he
      simpa using hside e he
    rw [winding_right _ _ 0 hright]
    obtain ⟨e, he, hg1, hg2⟩ := cyclic_transition (fun v => v.y ≤ (v3.y + v0.y) / 2) v0
      (v1 :: v2 :: v3 :: v4 :: rest) hlow
      (by obtain ⟨u, hu1, hu2⟩ := hhigh; exact ⟨u, hu1, not_le.mpr hu2⟩)
    have hpos : 0 < List.countP
        (fun e : Point × Point => decide (e.1.y ≤ (⟨(v3.x + v0.x) / 2, (v3.y + v0.y) / 2⟩ : Point).y ∧
          (⟨(v3.x + v0.x) / 2, (v3.y + v0.y) / 2⟩ : Point).y < e.2.y))
        ((v0 :: v1 :: v2 :: v3 :: v4 :: rest).zip (v1 :: v2 :: v3 :: v4 :: rest) ++
          [((v0 :: v1 :: v2 :: v3 :: v4 :: rest).getLast (List.cons_ne_nil _ _), v0)]) :=
      List.countP_pos_iff.mpr ⟨e, he, by simpa using ⟨hg1, not_le.mp hg2⟩⟩
    rw [decide_eq_true_eq]
    omega

/-- On a convex curve of at least five control points the scan accepts the chord from the
first to the fourth control point: the patch is made of the first four control points, the
second and the third are erased, and the curve that is left is convex. -/
theorem scanAll_convex (r : RectD) (c0 c1 c2 c3 c4 : BezierCP) (more : BezierCPs)
    (hcc : ConvexCurve (c0 :: c1 :: c2 :: c3 :: c4 :: more)) :
    scanAll (specEnv r) (c0 :: c1 :: c2 :: c3 :: c4 :: more) =
        ScanOutcome.found [c0, c1, c2, c3] (c0 :: c3 :: c4 :: more) ∧
      ConvexCurve (c0 :: c3 :: c4 :: more) := by
  obtain ⟨hconv, hap⟩ := hcc
  simp only [List.map_cons] at hconv hap
  have hap2 := hap
  simp only [apart, decide_eq_true_eq, List.pairwise_cons, List.mem_cons,
    forall_eq_or_imp] at hap2
  obtain ⟨⟨_, _, h03, h0w⟩, ⟨_, _, _⟩, ⟨_, _⟩, h3w, hrest⟩ := hap2
  have hapart : apart (c0.pos :: c3.pos :: c4.pos :: more.map (fun it => it.pos)) = true := by
    simp only [apart, decide_eq_true_eq, List.pairwise_cons, List.mem_cons, forall_eq_or_imp]
    exact ⟨⟨h03, h0w⟩, h3w, hrest⟩
  have hpoly : (polygonAndBBox (specEnv r) (c0 :: c1 :: c2 :: c3 :: c4 :: more)).1 =
      c0.pos :: c1.pos :: c2.pos :: c3.pos :: c4.pos :: more.map (fun it => it.pos) := by
    rw [polygonAndBBox_fst]; rfl
  have hcov : ∀ v ∈ c0.pos :: c1.pos :: c2.pos :: c3.pos :: c4.pos ::
      more.map (fun it => it.pos),
      (polygonAndBBox (specEnv r) (c0 :: c1 :: c2 :: c3 :: c4 :: more)).2.covers v := by
    intro v hv
    have hv2 : v ∈ (c0 :: c1 :: c2 :: c3 :: c4 :: more).map (fun it => it.pos) := by
      simpa using hv
    obtain ⟨it, hit, rfl⟩ := List.mem_map.mp hv2
    exact polygonAndBBox_covers _ _ it hit
  have hlen : (3 : Nat) ≠ (c0 :: c1 :: c2 :: c3 :: c4 :: more).length := by
    simp only [List.length_cons]; omega
  have hlen1 : (0 + 1 : Nat) ≠ (c0 :: c1 :: c2 :: c3 :: c4 :: more).length := by
    simp only [List.length_cons]; omega
  have main : ∀ s : ℚ, (s = 1 ∨ s = -1) →
      strictlyConvex s (c0.pos :: c1.pos :: c2.pos :: c3.pos :: c4.pos ::
        more.map (fun it => it.pos)) = true →
      scanAll (specEnv r) (c0 :: c1 :: c2 :: c3 :: c4 :: more) =
        ScanOutcome.found [c0, c1, c2, c3] (c0 :: c3 :: c4 :: more) := by
    intro s hs hc
    have hint := chordIntersections_convex r s hs c0.pos c1.pos c2.pos c3.pos c4.pos
      (more.map (fun it => it.pos)) hc h03
    have hin := pointInPolygon_midpoint_convex s hs c0.pos c1.pos c2.pos c3.pos c4.pos
      (more.map (fun it => it.pos)) hc _ hcov
    have hscan : scanFor (specEnv r) (c0 :: c1 :: c2 :: c3 :: c4 :: more) 3 =
        ScanOutcome.found [c0, c1, c2, c3] (c0 :: c3 :: c4 :: more) := by
      rw [scanFor, scanLoop]
      simp only [hlen, if_false, decide_False, hpoly]
      have hget : ((c0 :: c1 :: c2 :: c3 :: c4 :: more).getD 3 default).pos = c3.pos := rfl
      rw [hget, hint]
      simp only [List.length_cons, List.length_nil, ne_eq, not_true_eq_false, if_false]
      have hin2 : pointInPolygon (specEnv r).point_line_intersection
          ⟨(c3.pos.x + c0.pos.x) / 2, (c3.pos.y + c0.pos.y) / 2⟩
          (c0.pos :: c1.pos :: c2.pos :: c3.pos :: c4.pos :: more.map (fun it => it.pos))
          (polygonAndBBox (specEnv r) (c0 :: c1 :: c2 :: c3 :: c4 :: more)).2
          FillRuleEnum.eFillRuleWinding = true := hin
      rw [if_pos hin2]
      rw [cutAt]
      simp only [hlen1, if_false, decide_False]
      simp [subCurveLoop, eraseRange]
    rw [scanAll, hscan]
  rcases hconv with hc | hc
  · refine ⟨main 1 (Or.inl rfl) hc, ?_, hapart⟩
    left
    exact (strictlyConvex_facts 1 _ _ _ _ _ hc).2.2.2.2.2.2.2
  · refine ⟨main (-1) (Or.inr rfl) hc, ?_, hapart⟩
    right
    exact (strictlyConvex_facts (-1) _ _ _ _ _ hc).2.2.2.2.2.2.2

/-! ## `bezulate`: termination, cover and patch sizes -/

/-- C4, as stated, fails: on five control points that lie on a horizontal line (tangent
handles included) no chord ever has an intersection point, no ear is found, the curve is
subdivided in every iteration and the `while` loop is still running after any number of
iterations, whatever rectangle `setupInfinity` leaves. -/
theorem bezulate_flatCurve_never_returns :
    5 ≤ flatCurve.length ∧
      ∀ (setupInfinity : RectD) (fuel : Nat),
        bezulate (specEnv setupInfinity) fuel flatCurve = BezulateResult.outOfFuel :=
  ⟨by decide, fun r fuel => bezulateLoop_flat r fuel flatCurve [] flatCurve_flat (by decide)⟩

/-- C4, amended: `bezulate` returns, after at most `k - 4` iterations of its loop, on every
closed curve of `k >= 5` control points whose positions are the vertices of a strictly convex
polygon, listed counter-clockwise or clockwise, no two of them within `1e-6` of each other in
both coordinates, whatever the tangent handles and whatever rectangle `setupInfinity` leaves:
every scan accepts the chord from the first to the fourth control point, which takes two
control points off the working curve and leaves it convex. -/
theorem bezulate_returns_on_convex (setupInfinity : RectD) (cps : BezierCPs)
    (h5 : 5 ≤ cps.length) (hc : ConvexCurve cps) :
    ∃ patches,
      bezulate (specEnv setupInfinity) (cps.length - 4) cps = BezulateResult.returned patches :=
  bezulateLoop_terminates (specEnv setupInfinity) ConvexCurve
    (by
      intro c hcc h4
      match c, hcc, h4 with
      | c0 :: c1 :: c2 :: c3 :: c4 :: more, hcc, _ =>
        obtain ⟨hs, hrest⟩ := scanAll_convex setupInfinity c0 c1 c2 c3 c4 more hcc
        exact ⟨_, _, hs, by simp, hrest⟩)
    (cps.length - 4) cps [] hc (by omega)

/-- A convex octagon listed clockwise: the loop returns within four iterations. -/
theorem bezulate_returns_on_convex_witness :
    (5 ≤ convexOctagon.length ∧ ConvexCurve convexOctagon) ∧
    ∃ patches, bezulate (specEnv emptyRect) (convexOctagon.length - 4) convexOctagon =
      BezulateResult.returned patches :=
  ⟨⟨by decide, by decide!⟩,
    bezulate_returns_on_convex emptyRect convexOctagon (by decide) (by decide!)⟩

/-- The patches of that run: three ear cuts, each from the first control point, and no
remainder of more than four points. -/
theorem bezulate_convexOctagon_example :
    bezulate (specEnv emptyRect) (convexOctagon.length - 4) convexOctagon =
      BezulateResult.returned
        [[cornerCP (-2) 3, cornerCP 0 6, cornerCP 4 6, cornerCP 6 5],
          [cornerCP (-2) 3, cornerCP 6 5, cornerCP 7 3, cornerCP 6 1],
          [cornerCP (-2) 3, cornerCP 6 1, cornerCP 4 0, cornerCP 0 0]] := by
  decide!

/-- C5, as stated, fails: on the convex pentagon the chord from the first to the fourth
vertex is accepted, the patch holds the vertices 0 to 3 and the remainder the vertices 0, 3
and 4, so the first vertex belongs to two emitted patches (for either rectangle that
`setupInfinity` may leave). -/
theorem bezulate_pentagon_shares_chord_ends :
    5 ≤ pentagon.length ∧
      ∀ setupInfinity ∈ [infiniteRect, emptyRect],
        bezulate (specEnv setupInfinity) 1 pentagon =
          BezulateResult.returned
            [[cornerCP 0 0, cornerCP 4 0, cornerCP 5 3, cornerCP 2 5],
              [cornerCP 0 0, cornerCP 2 5, cornerCP (-1) 3]] ∧
        cornerCP 0 0 ∈ pentagon ∧
        ([[cornerCP 0 0, cornerCP 4 0, cornerCP 5 3, cornerCP 2 5],
              [cornerCP 0 0, cornerCP 2 5, cornerCP (-1) 3]].filter
            (fun patch => decide (cornerCP 0 0 ∈ patch))).length = 2 := by
  decide!

/-- C5, amended: when `bezulate` returns and no ear cut has emptied the working curve, the
emitted patches cover the curve: every vertex of the input curve, and every vertex of every
later working curve (the midpoints inserted by the subdivisions), belongs to at least one
emitted patch. -/
theorem bezulate_patches_cover (env : Env) (fuel : Nat) (cps : BezierCPs)
    (patches : List BezierCPs)
    (hret : bezulate env fuel cps = BezulateResult.returned patches)
    (hne : [] ∉ workingCurves env fuel cps) :
    (∀ v ∈ cps, ∃ patch ∈ patches, v ∈ patch) ∧
      ∀ curve ∈ workingCurves env fuel cps, ∀ v ∈ curve, ∃ patch ∈ patches, v ∈ patch := by
  have h := (bezulateLoop_cover env patches fuel cps [] hret hne).2
  exact ⟨h cps (workingCurves_head env fuel cps), h⟩

/-- The convex pentagon: its two patches cover its five vertices. -/
theorem bezulate_patches_cover_witness :
    (bezulate (specEnv infiniteRect) 1 pentagon =
        BezulateResult.returned
          [[cornerCP 0 0, cornerCP 4 0, cornerCP 5 3, cornerCP 2 5],
            [cornerCP 0 0, cornerCP 2 5, cornerCP (-1) 3]] ∧
      [] ∉ workingCurves (specEnv infiniteRect) 1 pentagon) ∧
    ∀ v ∈ pentagon, ∃ patch ∈ [[cornerCP 0 0, cornerCP 4 0, cornerCP 5 3, cornerCP 2 5],
      [cornerCP 0 0, cornerCP 2 5, cornerCP (-1) 3]], v ∈ patch :=
  ⟨⟨by decide!, by decide!⟩,
    (bezulate_patches_cover (specEnv infiniteRect) 1 pentagon _ (by decide!) (by decide!)).1⟩

/-- C6: when `bezulate` returns on a curve of at least 2 control points, every emitted patch
has 2, 3 or 4 control points; the remainder pushed last is one of them, so the final
assertion `simpleClosedCurve.size () >= 2` holds. -/
theorem bezulate_patch_sizes (env : Env) (fuel : Nat) (cps : BezierCPs)
    (patches : List BezierCPs) (h2 : 2 ≤ cps.length)
    (hret : bezulate env fuel cps = BezulateResult.returned patches) :
    ∀ patch ∈ patches, patch.length = 2 ∨ patch.length = 3 ∨ patch.length = 4 := by
  intro patch hp
  have := bezulateLoop_patch_sizes env patches fuel cps [] (by omega) (by simp) hret patch hp
  omega

/-- The convex pentagon: a patch of 4 points and a remainder of 3 points. -/
theorem bezulate_patch_sizes_witness :
    (2 ≤ pentagon.length ∧
      bezulate (specEnv emptyRect) 1 pentagon =
        BezulateResult.returned
          [[cornerCP 0 0, cornerCP 4 0, cornerCP 5 3, cornerCP 2 5],
            [cornerCP 0 0, cornerCP 2 5, cornerCP (-1) 3]]) ∧
    ∀ patch ∈ [[cornerCP 0 0, cornerCP 4 0, cornerCP 5 3, cornerCP 2 5],
      [cornerCP 0 0, cornerCP 2 5, cornerCP (-1) 3]],
      patch.length = 2 ∨ patch.length = 3 ∨ patch.length = 4 :=
  ⟨⟨by decide, by decide!⟩,
    bezulate_patch_sizes (specEnv emptyRect) 1 pentagon _ (by decide) (by decide!)⟩

/-- C7: on a curve of 2, 3 or 4 control points `bezulate` emits exactly one patch, the input
sequence in order, and on an empty curve it emits no patch; this holds for every bound on
the number of loop iterations, zero included: the loop body, where the cuts and the
subdivisions are, does not run. -/
theorem bezulate_at_most_four (env : Env) (fuel : Nat) (cps : BezierCPs) :
    (2 ≤ cps.length → cps.length ≤ 4 → bezulate env fuel cps = BezulateResult.returned [cps]) ∧
      bezulate env fuel [] = BezulateResult.returned [] := by
  constructor
  · intro h2 h4
    have hne : cps ≠ [] := by intro h0; simp [h0] at h2
    simp [bezulate, bezulateLoop_small env fuel cps [] h4, hne]
  · simp [bezulate, bezulateLoop_small]

/-- A curve of three control points, with no loop iteration allowed. -/
theorem bezulate_at_most_four_witness :
    (2 ≤ [cornerCP 0 0, cornerCP 2 5, cornerCP (-1) 3].length ∧
      [cornerCP 0 0, cornerCP 2 5, cornerCP (-1) 3].length ≤ 4) ∧
    bezulate (specEnv infiniteRect) 0 [cornerCP 0 0, cornerCP 2 5, cornerCP (-1) 3] =
      BezulateResult.returned [[cornerCP 0 0, cornerCP 2 5, cornerCP (-1) 3]] :=
  ⟨by decide,
    (bezulate_at_most_four (specEnv infiniteRect) 0
      [cornerCP 0 0, cornerCP 2 5, cornerCP (-1) 3]).1 (by decide) (by decide)⟩

/-! ## `getRenderDotParams` -/

/-- The function `hardnessGaussLookup` does not increase on `[0, 1]`. -/
theorem hardnessGaussLookup_antitone (a b : ℚ) (h0 : 0 ≤ a) (hab : a ≤ b) (h1 : b ≤ 1) :
    hardnessGaussLookup b ≤ hardnessGaussLookup a := by
  unfold hardnessGaussLookup
  have ha : ¬ a < -(1 / 2) := by linarith
  have hb : ¬ b < -(1 / 2) := by linarith
  simp only [ha, hb, if_false]
  by_cases ha2 : a < 1 / 2 <;> by_cases hb2 : b < 1 / 2 <;> simp only [ha2, hb2, if_true, if_false]
  · nlinarith
  · nlinarith
  · linarith
  · nlinarith

/-- The loop of the opacity stops keeps the stops sorted by strictly increasing distance and
non-increasing opacity, when the profile `d ↦ hardnessGaussLookup (pow d exp) * alpha` does
not increase on `[0, 1]`. -/
theorem opacityStopsLoop_pairwise (pow : ℚ → ℚ → ℚ) (exp alpha : ℚ)
    (hanti : ∀ a b : ℚ, 0 ≤ a → a ≤ b → b ≤ 1 →
      hardnessGaussLookup (pow b exp) * alpha ≤ hardnessGaussLookup (pow a exp) * alpha) :
    ∀ (d : ℚ) (stops : List (ℚ × ℚ)), 0 ≤ d →
      stops.Pairwise (fun s t => s.1 < t.1 ∧ t.2 ≤ s.2) →
      (∀ s ∈ stops, 0 ≤ s.1 ∧ s.1 < d ∧ s.2 = hardnessGaussLookup (pow s.1 exp) * alpha) →
      (opacityStopsLoop pow exp alpha d stops).Pairwise (fun s t => s.1 < t.1 ∧ t.2 ≤ s.2) := by
  intro d stops
  induction d, stops using opacityStopsLoop.induct pow exp alpha with
  | case1 d stops hd o ih =>
    intro h0 hp hs
    rw [opacityStopsLoop, if_pos hd]
    have hincr : (0 : ℚ) < incr := by norm_num [incr, maxStops]
    apply ih (by linarith)
    · rw [List.pairwise_append]
      refine ⟨hp, List.pairwise_singleton _ _, ?_⟩
      intro s hs' t ht
      have ht' : t = (d, o * alpha) := by simpa using ht
      subst ht'
      obtain ⟨hs0, hsd, hse⟩ := hs s hs'
      exact ⟨hsd, by rw [hse]; exact hanti s.1 d hs0 (le_of_lt hsd) hd⟩
    · intro s hs'
      rcases List.mem_append.mp hs' with hs' | hs'
      · obtain ⟨hs0, hsd, hse⟩ := hs s hs'
        exact ⟨hs0, by linarith, hse⟩
      · have hsd : s = (d, o * alpha) := by simpa using hs'
        subst hsd
        exact ⟨h0, by simp only; linarith, rfl⟩
  | case2 d stops hd =>
    intro _ hp _
    rw [opacityStopsLoop, if_neg hd]
    exact hp

/-- The loop of the opacity stops, started at `d = 0`, pushes nine stops: `incr = 1/8` is
added exactly and the test `d <= 1.` still holds at `d = 1`. -/
theorem opacityStopsLoop_from_zero (pow : ℚ → ℚ → ℚ) (exp alpha : ℚ) :
    opacityStopsLoop pow exp alpha 0 [] =
      [(0 : ℚ), 1 / 8, 2 / 8, 3 / 8, 4 / 8, 5 / 8, 6 / 8, 7 / 8, 1].map
        (fun d => (d, hardnessGaussLookup (pow d exp) * alpha)) := by
  have step : ∀ (d : ℚ) (stops : List (ℚ × ℚ)), d ≤ 1 →
      opacityStopsLoop pow exp alpha d stops =
        opacityStopsLoop pow exp alpha (d + 1 / 8)
          (stops ++ [(d, hardnessGaussLookup (pow d exp) * alpha)]) := by
    intro d stops hd
    rw [opacityStopsLoop, if_pos hd]
    simp only [incr, maxStops]
  have stop : ∀ (d : ℚ) (stops : List (ℚ × ℚ)), 1 < d →
      opacityStopsLoop pow exp alpha d stops = stops := by
    intro d stops hd
    rw [opacityStopsLoop, if_neg (not_le.mpr hd)]
  rw [step 0 _ (by norm_num), step _ _ (by norm_num), step _ _ (by norm_num),
    step _ _ (by norm_num), step _ _ (by norm_num), step _ _ (by norm_num),
    step _ _ (by norm_num), step _ _ (by norm_num), step _ _ (by norm_num),
    stop _ _ (by norm_num)]
  norm_num

/-- C9: for a hardness below 1 and an opacity `alpha >= 0` (both as used after the
conditional pressure scaling), the opacity stops `(d, hardnessGaussLookup (d ^ exponent) *
alpha)` with `exponent = 0.4 / (1 - hardness)` come in increasing order of `d` and with
non-increasing opacity, from the centre (`d = 0`, first stop) to the edge (`d = 1`, last
stop).  `std::pow`, a parameter of the
embedding, is only assumed to be non-decreasing in its base on `[0, 1]` with values in
`[0, 1]`, for this exponent. -/
theorem getRenderDotParams_stops_nonincreasing (pow : ℚ → ℚ → ℚ)
    (alpha brushSizePixel brushHardness brushSpacing pressure : ℚ)
    (pressureAffectsOpacity pressureAffectsSize pressureAffectsHardness : Bool)
    (previous stops : List (ℚ × ℚ))
    (hhard : (if pressureAffectsHardness then brushHardness * pressure else brushHardness) < 1)
    (halpha : 0 ≤ (if pressureAffectsOpacity then alpha * pressure else alpha))
    (hpow : ∀ a b : ℚ, 0 ≤ a → a ≤ b → b ≤ 1 →
      0 ≤ pow a ((2 / 5) / (1 - (if pressureAffectsHardness then brushHardness * pressure
        else brushHardness))) ∧
      pow a ((2 / 5) / (1 - (if pressureAffectsHardness then brushHardness * pressure
        else brushHardness))) ≤
        pow b ((2 / 5) / (1 - (if pressureAffectsHardness then brushHardness * pressure
          else brushHardness))) ∧
      pow b ((2 / 5) / (1 - (if pressureAffectsHardness then brushHardness * pressure
        else brushHardness))) ≤ 1)
    (hstops : (getRenderDotParams pow alpha brushSizePixel brushHardness brushSpacing pressure
      pressureAffectsOpacity pressureAffectsSize pressureAffectsHardness
      (some previous)).opacityStops = some stops) :
    stops.Pairwise (fun s t => s.1 < t.1 ∧ t.2 ≤ s.2) ∧
      stops.head?.map Prod.fst = some 0 ∧ stops.getLast?.map Prod.fst = some 1 := by
  have hne : (if pressureAffectsHardness then brushHardness * pressure else brushHardness) ≠ 1 :=
    ne_of_lt hhard
  simp only [getRenderDotParams, hne, ne_eq, not_false_eq_true, if_true, Option.some.injEq]
    at hstops
  rw [← hstops]
  refine ⟨?_, ?_, ?_⟩
  · apply opacityStopsLoop_pairwise pow _ _ _ 0 [] (le_refl 0) List.Pairwise.nil
    · intro s hs; simp at hs
    · intro a b h0 hab h1
      obtain ⟨hp0, hpab, hp1⟩ := hpow a b h0 hab h1
      exact mul_le_mul_of_nonneg_right (hardnessGaussLookup_antitone _ _ hp0 hpab hp1) halpha
  · rw [opacityStopsLoop_from_zero]; rfl
  · rw [opacityStopsLoop_from_zero]; rfl

/-- C8: with `size' = size * pressure` when the pressure affects the size (else `size`) and
`hardness' = hardness * pressure` when it affects the hardness (else `hardness`),
`getRenderDotParams` returns `internalRadius = max (size' * hardness', 1) / 2`,
`externalRadius = max (size', 1) / 2` and `spacing = externalRadius * 2 * brushSpacing`. -/
theorem getRenderDotParams_radii (pow : ℚ → ℚ → ℚ)
    (alpha brushSizePixel brushHardness brushSpacing pressure : ℚ)
    (pressureAffectsOpacity pressureAffectsSize pressureAffectsHardness : Bool)
    (opacityStops : Option (List (ℚ × ℚ))) :
    (getRenderDotParams pow alpha brushSizePixel brushHardness brushSpacing pressure
        pressureAffectsOpacity pressureAffectsSize pressureAffectsHardness
        opacityStops).internalDotRadius =
      max ((if pressureAffectsSize then brushSizePixel * pressure else brushSizePixel) *
        (if pressureAffectsHardness then brushHardness * pressure else brushHardness)) 1 / 2 ∧
    (getRenderDotParams pow alpha brushSizePixel brushHardness brushSpacing pressure
        pressureAffectsOpacity pressureAffectsSize pressureAffectsHardness
        opacityStops).externalDotRadius =
      max (if pressureAffectsSize then brushSizePixel * pressure else brushSizePixel) 1 / 2 ∧
    (getRenderDotParams pow alpha brushSizePixel brushHardness brushSpacing pressure
        pressureAffectsOpacity pressureAffectsSize pressureAffectsHardness
        opacityStops).spacing =
      (getRenderDotParams pow alpha brushSizePixel brushHardness brushSpacing pressure
        pressureAffectsOpacity pressureAffectsSize pressureAffectsHardness
        opacityStops).externalDotRadius * 2 * brushSpacing :=
  ⟨rfl, rfl, rfl⟩

/-- C10: when the hardness used after the conditional pressure scaling equals 1,
`getRenderDotParams` leaves the vector of opacity stops empty, whatever it held before the
call. -/
theorem getRenderDotParams_no_stops (pow : ℚ → ℚ → ℚ)
    (alpha brushSizePixel brushHardness brushSpacing pressure : ℚ)
    (pressureAffectsOpacity pressureAffectsSize pressureAffectsHardness : Bool)
    (previous : List (ℚ × ℚ))
    (hhard : (if pressureAffectsHardness then brushHardness * pressure else brushHardness) = 1) :
    (getRenderDotParams pow alpha brushSizePixel brushHardness brushSpacing pressure
      pressureAffectsOpacity pressureAffectsSize pressureAffectsHardness
      (some previous)).opacityStops = some [] := by
  simp [getRenderDotParams, hhard]

/-- The stops of a brush of hardness `3/5` (exponent 1, for which `pow d 1 = d`) and
opacity 1. -/
theorem getRenderDotParams_stops_nonincreasing_witness :
    ((if false then (3 / 5 : ℚ) * 1 else 3 / 5) < 1 ∧
      0 ≤ (if false then (1 : ℚ) * 1 else 1) ∧
      (getRenderDotParams (fun d _ => d) 1 10 (3 / 5) (1 / 10) 1 false false false
        (some [])).opacityStops =
        some [(0, 1), (1 / 8, 31 / 32), (2 / 8, 7 / 8), (3 / 8, 23 / 32), (4 / 8, 1 / 2),
          (5 / 8, 9 / 32), (6 / 8, 1 / 8), (7 / 8, 1 / 32), (1, 0)]) ∧
    ([(0, 1), (1 / 8, 31 / 32), (2 / 8, 7 / 8), (3 / 8, 23 / 32), (4 / 8, 1 / 2),
        (5 / 8, 9 / 32), (6 / 8, 1 / 8), (7 / 8, 1 / 32), (1, 0)] : List (ℚ × ℚ)).Pairwise
      (fun s t => s.1 < t.1 ∧ t.2 ≤ s.2) :=
  have hstops : (getRenderDotParams (fun d _ => d) 1 10 (3 / 5) (1 / 10) 1 false false false
      (some [])).opacityStops =
      some [(0, 1), (1 / 8, 31 / 32), (2 / 8, 7 / 8), (3 / 8, 23 / 32), (4 / 8, 1 / 2),
        (5 / 8, 9 / 32), (6 / 8, 1 / 8), (7 / 8, 1 / 32), (1, 0)] := by
    simp only [getRenderDotParams, opacityStopsLoop_from_zero, hardnessGaussLookup]
    norm_num
  ⟨⟨by norm_num, by norm_num, hstops⟩,
    (getRenderDotParams_stops_nonincreasing (fun d _ => d) 1 10 (3 / 5) (1 / 10) 1 false false
      false [] _ (by norm_num) (by norm_num)
      (fun a b h0 hab h1 => ⟨h0, hab, h1⟩) hstops).1⟩

/-- A brush of hardness 2 under a pressure of `1/2` that affects the hardness. -/
theorem getRenderDotParams_no_stops_witness :
    (if true then (2 : ℚ) * (1 / 2) else 2) = 1 ∧
    (getRenderDotParams (fun d _ => d) 1 10 2 (1 / 10) (1 / 2) false false true
      (some [(0, 1), (1, 0)])).opacityStops = some [] :=
  ⟨by norm_num,
    getRenderDotParams_no_stops (fun d _ => d) 1 10 2 (1 / 10) (1 / 2) false false true
      [(0, 1), (1, 0)] (by norm_num)⟩

/-- C11, as stated, fails: for a hardness of `3/5` the vector of opacity stops has 9 entries,
not 8, whatever `std::pow` returns. -/
theorem getRenderDotParams_stops_count_example :
    (3 / 5 : ℚ) ≠ 1 ∧
      ∀ pow : ℚ → ℚ → ℚ,
        (getRenderDotParams pow 1 10 (3 / 5) (1 / 10) 1 false false false
          (some [])).opacityStops.map List.length = some 9 := by
  refine ⟨by norm_num, fun pow => ?_⟩
  simp [getRenderDotParams, opacityStopsLoop_from_zero]
  norm_num

/-- C11, amended: for every hardness different from 1 (after the conditional pressure
scaling) the opacity stops are sampled at the 9 positions `0, 1/8, 2/8, ..., 1`: the 8
steps of `incr = 1/8` from the centre to the edge, both ends included. -/
theorem getRenderDotParams_nine_stops (pow : ℚ → ℚ → ℚ)
    (alpha brushSizePixel brushHardness brushSpacing pressure : ℚ)
    (pressureAffectsOpacity pressureAffectsSize pressureAffectsHardness : Bool)
    (previous : List (ℚ × ℚ))
    (hhard : (if pressureAffectsHardness then brushHardness * pressure else brushHardness) ≠ 1) :
    ∃ stops,
      (getRenderDotParams pow alpha brushSizePixel brushHardness brushSpacing pressure
        pressureAffectsOpacity pressureAffectsSize pressureAffectsHardness
        (some previous)).opacityStops = some stops ∧
      stops.length = 9 ∧
      stops.map Prod.fst = (List.range 9).map (fun (k : Nat) => (k : ℚ) * incr) := by
  refine ⟨opacityStopsLoop pow
    ((2 / 5) / (1 - (if pressureAffectsHardness then brushHardness * pressure
      else brushHardness)))
    (if pressureAffectsOpacity then alpha * pressure else alpha) 0 [], ?_, ?_, ?_⟩
  · simp only [getRenderDotParams, hhard, ne_eq, not_false_eq_true, if_true]
  · rw [opacityStopsLoop_from_zero]; rfl
  · rw [opacityStopsLoop_from_zero]
    simp only [List.map_map, incr, maxStops]
    norm_num [List.range_succ]

/-- A brush of hardness `3/5`. -/
theorem getRenderDotParams_nine_stops_witness :
    (if false then (3 / 5 : ℚ) * 1 else 3 / 5) ≠ 1 ∧
    ∃ stops,
      (getRenderDotParams (fun d _ => d) 1 10 (3 / 5) (1 / 10) 1 false false false
        (some [])).opacityStops = some stops ∧
      stops.length = 9 ∧
      stops.map Prod.fst = (List.range 9).map (fun (k : Nat) => (k : ℚ) * incr) :=
  ⟨by norm_num,
    getRenderDotParams_nine_stops (fun d _ => d) 1 10 (3 / 5) (1 / 10) 1 false false false []
      (by norm_num)⟩

/-! ## The smear dab callback -/

/-- C12: when the previous centre is the sentinel (`x` or `y` equal to `INT_MIN`) or equals
the new centre, `renderSmearRenderDot_cairo` reports that no dab was rendered and leaves the
destination image, and all the user data, as they were. -/
theorem renderSmearRenderDot_cairo_noop (env : SmearEnv) (myData : RenderSmearCairoData)
    (prevCenter center : Point) (pressure : ℚ)
    (h : prevCenter.x = INT_MIN ∨ prevCenter.y = INT_MIN ∨
      (prevCenter.x = center.x ∧ prevCenter.y = center.y)) :
    (renderSmearRenderDot_cairo env myData prevCenter center pressure).map (fun r => r.1) =
        some false ∧
      (renderSmearRenderDot_cairo env myData prevCenter center pressure).map
        (fun r => r.2.2.dstImage) = some myData.dstImage ∧
      (renderSmearRenderDot_cairo env myData prevCenter center pressure).map (fun r => r.2.2) =
        some myData := by
  unfold renderSmearRenderDot_cairo
  dsimp only
  by_cases h1 : prevCenter.x = INT_MIN ∨ prevCenter.y = INT_MIN
  · rw [if_pos h1]
    exact ⟨rfl, rfl, rfl⟩
  · have h2 : prevCenter.x = center.x ∧ prevCenter.y = center.y := by
      rcases h with h | h | h
      · exact absurd (Or.inl h) h1
      · exact absurd (Or.inr h) h1
      · exact h
    rw [if_neg h1, if_pos h2]
    exact ⟨rfl, rfl, rfl⟩

/-! ## The control points of a feather patch -/

/-- C18: for `fallOff > 0` the intermediate control points are the normalized weighted blends
`p0p1 = (p0 * fallOff * 2 + p1 / fallOff) / (fallOff * 2 + 1 / fallOff)` and `p1p0 = (p0 *
fallOff + 2 * p1 / fallOff) / (fallOff + 2 / fallOff)`, likewise `p3p2` and `p2p3` from `p3`
and `p2`; each is a point `(1 - t) a + t b` of the segment between its end points, with
`0 < t < 1`; for `fallOff = 1` they are the points at `1/3` and `2/3` of the segment. -/
theorem featherControlPoints_blend (fallOff : ℚ) (p0 p1 p2 p3 : Point) (hf : 0 < fallOff) :
    ((featherControlPoints fallOff p0 p1 p2 p3).p0p1 =
        ⟨(p0.x * fallOff * 2 + p1.x / fallOff) / (fallOff * 2 + 1 / fallOff),
          (p0.y * fallOff * 2 + p1.y / fallOff) / (fallOff * 2 + 1 / fallOff)⟩ ∧
      (featherControlPoints fallOff p0 p1 p2 p3).p1p0 =
        ⟨(p0.x * fallOff + 2 * p1.x / fallOff) / (fallOff + 2 / fallOff),
          (p0.y * fallOff + 2 * p1.y / fallOff) / (fallOff + 2 / fallOff)⟩ ∧
      (featherControlPoints fallOff p0 p1 p2 p3).p3p2 =
        ⟨(p3.x * fallOff * 2 + p2.x / fallOff) / (fallOff * 2 + 1 / fallOff),
          (p3.y * fallOff * 2 + p2.y / fallOff) / (fallOff * 2 + 1 / fallOff)⟩ ∧
      (featherControlPoints fallOff p0 p1 p2 p3).p2p3 =
        ⟨(p3.x * fallOff + 2 * p2.x / fallOff) / (fallOff + 2 / fallOff),
          (p3.y * fallOff + 2 * p2.y / fallOff) / (fallOff + 2 / fallOff)⟩) ∧
    (∃ t u : ℚ, 0 < t ∧ t < 1 ∧ 0 < u ∧ u < 1 ∧
      (featherControlPoints fallOff p0 p1 p2 p3).p0p1 = lerpPoint p0 p1 t ∧
      (featherControlPoints fallOff p0 p1 p2 p3).p1p0 = lerpPoint p0 p1 u ∧
      (featherControlPoints fallOff p0 p1 p2 p3).p3p2 = lerpPoint p3 p2 t ∧
      (featherControlPoints fallOff p0 p1 p2 p3).p2p3 = lerpPoint p3 p2 u) ∧
    (fallOff = 1 →
      (featherControlPoints fallOff p0 p1 p2 p3).p0p1 = lerpPoint p0 p1 (1 / 3) ∧
      (featherControlPoints fallOff p0 p1 p2 p3).p1p0 = lerpPoint p0 p1 (2 / 3) ∧
      (featherControlPoints fallOff p0 p1 p2 p3).p3p2 = lerpPoint p3 p2 (1 / 3) ∧
      (featherControlPoints fallOff p0 p1 p2 p3).p2p3 = lerpPoint p3 p2 (2 / 3)) := by
  have hne : fallOff ≠ 0 := ne_of_gt hf
  have hinv : 0 < 1 / fallOff := by positivity
  have hd1 : fallOff * 2 + 1 / fallOff ≠ 0 := by positivity
  have hd2 : fallOff + 2 * (1 / fallOff) ≠ 0 := by positivity
  have hd3 : fallOff + 2 / fallOff ≠ 0 := by positivity
  refine ⟨⟨?_, ?_, ?_, ?_⟩, ?_, ?_⟩
  · simp only [featherControlPoints, Point.mk.injEq]
    constructor <;> congr 1 <;> ring
  · simp only [featherControlPoints, Point.mk.injEq]
    constructor <;> · congr 1 <;> ring
  · simp only [featherControlPoints, Point.mk.injEq]
    constructor <;> congr 1 <;> ring
  · simp only [featherControlPoints, Point.mk.injEq]
    constructor <;> · congr 1 <;> ring
  · refine ⟨(1 / fallOff) / (fallOff * 2 + 1 / fallOff),
      (2 * (1 / fallOff)) / (fallOff + 2 * (1 / fallOff)), by positivity, ?_, by positivity, ?_,
      ?_, ?_, ?_, ?_⟩
    · rw [div_lt_one (by positivity)]; linarith
    · rw [div_lt_one (by positivity)]; linarith
    all_goals
      simp only [featherControlPoints, lerpPoint, Point.mk.injEq]
      constructor <;> field_simp <;> ring
  · intro h1
    subst h1
    simp only [featherControlPoints, lerpPoint, Point.mk.injEq]
    norm_num
    refine ⟨⟨?_, ?_⟩, ⟨?_, ?_⟩, ⟨?_, ?_⟩, ⟨?_, ?_⟩⟩ <;> ring

/-- The feather patch between `(0,0)`, `(3,0)`, `(3,3)`, `(0,3)` for a fall-off of 2. -/
theorem featherControlPoints_blend_witness :
    (0 : ℚ) < 2 ∧
    ∃ t u : ℚ, 0 < t ∧ t < 1 ∧ 0 < u ∧ u < 1 ∧
      (featherControlPoints 2 ⟨0, 0⟩ ⟨3, 0⟩ ⟨3, 3⟩ ⟨0, 3⟩).p0p1 = lerpPoint ⟨0, 0⟩ ⟨3, 0⟩ t ∧
      (featherControlPoints 2 ⟨0, 0⟩ ⟨3, 0⟩ ⟨3, 3⟩ ⟨0, 3⟩).p1p0 = lerpPoint ⟨0, 0⟩ ⟨3, 0⟩ u ∧
      (featherControlPoints 2 ⟨0, 0⟩ ⟨3, 0⟩ ⟨3, 3⟩ ⟨0, 3⟩).p3p2 = lerpPoint ⟨0, 3⟩ ⟨3, 3⟩ t ∧
      (featherControlPoints 2 ⟨0, 0⟩ ⟨3, 0⟩ ⟨3, 3⟩ ⟨0, 3⟩).p2p3 = lerpPoint ⟨0, 3⟩ ⟨3, 3⟩ u :=
  ⟨by norm_num,
    (featherControlPoints_blend 2 ⟨0, 0⟩ ⟨3, 0⟩ ⟨3, 3⟩ ⟨0, 3⟩ (by norm_num)).2.1⟩

/-- The sentinel as previous centre. -/
theorem renderSmearRenderDot_cairo_noop_witness :
    ((⟨INT_MIN, 0⟩ : Point).x = INT_MIN ∨ (⟨INT_MIN, 0⟩ : Point).y = INT_MIN ∨
      ((⟨INT_MIN, 0⟩ : Point).x = (⟨2, 2⟩ : Point).x ∧
        (⟨INT_MIN, 0⟩ : Point).y = (⟨2, 2⟩ : Point).y)) ∧
    (renderSmearRenderDot_cairo exampleSmearEnv exampleSmearData ⟨INT_MIN, 0⟩ ⟨2, 2⟩ 1).map
      (fun r => r.1) = some false :=
  ⟨Or.inl rfl,
    (renderSmearRenderDot_cairo_noop exampleSmearEnv exampleSmearData ⟨INT_MIN, 0⟩ ⟨2, 2⟩ 1
      (Or.inl rfl)).1⟩

/-! ## `renderMaskInternal_cairo` -/

/-- C16: when the creation of the surface fails, `renderMaskInternal_cairo` leaves the
destination image as it was, during painting (where the image has only been read, to fill the
buffer of the surface) and otherwise. -/
theorem renderMaskInternal_cairo_surface_failure (cairo : CairoBackend)
    (rotoItem : RotoDrawableItem) (roi : RectI) (numComponents : Nat)
    (depth : ImageBitDepthEnum) (isDuringPainting : Bool) (dstImage : Image)
    (hfail : cairo.statusSuccess = false) :
    renderMaskInternal_cairo cairo rotoItem roi numComponents depth isDuringPainting dstImage =
      dstImage := by
  unfold renderMaskInternal_cairo
  simp [hfail]

/-- A stroke painted on `exampleImage` with a library that cannot create surfaces. -/
theorem renderMaskInternal_cairo_surface_failure_witness :
    failingCairo.statusSuccess = false ∧
    renderMaskInternal_cairo failingCairo exampleStroke ⟨0, 0, 4, 4⟩ 1
      ImageBitDepthEnum.eImageBitDepthFloat true exampleImage = exampleImage :=
  ⟨rfl,
    renderMaskInternal_cairo_surface_failure failingCairo exampleStroke ⟨0, 0, 4, 4⟩ 1
      ImageBitDepthEnum.eImageBitDepthFloat true exampleImage rfl⟩

/-- C17: the surface format depends on the shape type, the build-up flag and the number of
components only: an item that is not a stroke (a bezier) gets the 1-channel alpha format; a
stroke gets the 4-channel ARGB format when build-up is off or more than one component is
requested, and the 1-channel alpha format otherwise. -/
theorem surfaceFormat_cases (rotoItem : RotoDrawableItem) (numComponents : Nat) :
    (rotoItem.isStroke = false →
      surfaceFormat rotoItem numComponents = (CairoFormat.CAIRO_FORMAT_A8, 1)) ∧
    (rotoItem.isStroke = true → (rotoItem.buildUp = false ∨ 1 < numComponents) →
      surfaceFormat rotoItem numComponents = (CairoFormat.CAIRO_FORMAT_ARGB32, 4)) ∧
    (rotoItem.isStroke = true → rotoItem.buildUp = true → numComponents ≤ 1 →
      surfaceFormat rotoItem numComponents = (CairoFormat.CAIRO_FORMAT_A8, 1)) ∧
    (∀ other : RotoDrawableItem, other.isStroke = rotoItem.isStroke →
      other.buildUp = rotoItem.buildUp →
      surfaceFormat other numComponents = surfaceFormat rotoItem numComponents) := by
  refine ⟨?_, ?_, ?_, ?_⟩
  · intro h; simp [surfaceFormat, h]
  · intro h hb
    rcases hb with hb | hb
    · simp [surfaceFormat, h, hb]
    · simp [surfaceFormat, h, hb]
  · intro h hb hn
    have : ¬ numComponents > 1 := by omega
    simp [surfaceFormat, h, hb, this]
  · intro other h1 h2
    simp [surfaceFormat, h1, h2]

/-- A stroke with build-up that renders one component, and the same with three. -/
theorem surfaceFormat_cases_witness :
    (exampleStroke.isStroke = true ∧ exampleStroke.buildUp = true ∧ (1 : Nat) ≤ 1 ∧
      (exampleStroke.buildUp = false ∨ 1 < 3)) ∧
    surfaceFormat exampleStroke 1 = (CairoFormat.CAIRO_FORMAT_A8, 1) ∧
    surfaceFormat exampleStroke 3 = (CairoFormat.CAIRO_FORMAT_ARGB32, 4) :=
  ⟨⟨rfl, rfl, by decide, Or.inr (by decide)⟩,
    (surfaceFormat_cases exampleStroke 1).2.2.1 rfl rfl (by decide),
    (surfaceFormat_cases exampleStroke 3).2.1 rfl (Or.inr (by decide))⟩

/-! ## Counted loops and the two conversions -/

/-- Invariant rule for a counted loop. -/
theorem forLoop_invariant {σ : Type} (body : Int → σ → σ) (P : Int → σ → Prop) :
    ∀ (count : Nat) (start : Int) (state : σ), P start state →
      (∀ (j : Int) (t : σ), start ≤ j → j < start + count → P j t → P (j + 1) (body j t)) →
      P (start + count) (forLoop body count start state) := by
  intro count
  induction count with
  | zero => intro start state h _; simpa [forLoop] using h
  | succ count ih =>
    intro start state h hstep
    rw [forLoop]
    have h1 := hstep start state (le_refl _) (by push_cast; omega) h
    have h2 := ih (start + 1) (body start state) h1
      (fun j t hj1 hj2 hP => hstep j t (by omega) (by push_cast; omega) hP)
    have e : start + 1 + (count : Int) = start + ((count + 1 : Nat) : Int) := by
      push_cast; ring
    rw [e] at h2
    exact h2

/-- An assignment through a pointer changes the element pointed to and nothing else. -/
theorem Image.set_data (image : Image) (y ptr : Int) (v : ℚ) (y0 e0 : Int) :
    (image.set y ptr v).data y0 e0 = if y0 = y ∧ e0 = ptr then v else image.data y0 e0 := rfl

/-- An assignment through a pointer keeps the number of components. -/
theorem Image.set_nComps (image : Image) (y ptr : Int) (v : ℚ) :
    (image.set y ptr v).nComps = image.nComps := rfl

/-- The components written by `writeNatronPixel`, and the elements it leaves alone. -/
theorem writeNatronPixel_data (PIX : ℚ → ℚ) (dstNComps : Nat) (useOpacity : Bool)
    (image : Image) (y dstPix : Int) (cairoPixel r g b opacity : ℚ)
    (hn : dstNComps = 1 ∨ dstNComps = 2 ∨ dstNComps = 3 ∨ dstNComps = 4) :
    (writeNatronPixel PIX dstNComps useOpacity image y dstPix cairoPixel r g b opacity).nComps =
        image.nComps ∧
      (∀ y0 e0, (y0 ≠ y ∨ e0 < dstPix ∨ dstPix + dstNComps ≤ e0) →
        (writeNatronPixel PIX dstNComps useOpacity image y dstPix cairoPixel r g b
          opacity).data y0 e0 = image.data y0 e0) ∧
      (∀ c : Nat, c < dstNComps →
        (writeNatronPixel PIX dstNComps useOpacity image y dstPix cairoPixel r g b
          opacity).data y (dstPix + c) =
          natronPixelValue PIX dstNComps useOpacity cairoPixel r g b opacity c) := by
  rcases hn with rfl | rfl | rfl | rfl
  all_goals
    refine ⟨rfl, ?_, ?_⟩
    · intro y0 e0 h
      simp only [writeNatronPixel, Image.set_data]
      rcases h with h | h | h
      · simp [h]
      · repeat rw [if_neg (by omega)]
      · repeat rw [if_neg (by push_cast at h; omega)]
    · intro c hc
      simp only [writeNatronPixel, Image.set_data, natronPixelValue]
      interval_cases c <;> simp

/-- The inner loop of the conversion of a surface to an image, in closed form: the pointers
have advanced by `width` pixels, the pixel `x` of the row has received the values computed from
the byte at `srcPix + x * srcNComps`, and no other element has changed. -/
theorem cairoToNatronRow_spec (PIX : ℚ → ℚ) (maxValue : ℚ) (dstNComps srcNComps : Nat)
    (useOpacity inverted : Bool) (cdata : SurfaceData) (y : Int) (r g b opacity : ℚ)
    (hn : dstNComps = 1 ∨ dstNComps = 2 ∨ dstNComps = 3 ∨ dstNComps = 4)
    (width : Nat) (dstPix srcPix : Int) (image : Image) :
    (cairoToNatronRow PIX maxValue dstNComps srcNComps useOpacity inverted cdata y r g b opacity
        width (dstPix, srcPix, image)).1 = dstPix + width * dstNComps ∧
      (cairoToNatronRow PIX maxValue dstNComps srcNComps useOpacity inverted cdata y r g b
        opacity width (dstPix, srcPix, image)).2.1 = srcPix + width * srcNComps ∧
      (cairoToNatronRow PIX maxValue dstNComps srcNComps useOpacity inverted cdata y r g b
        opacity width (dstPix, srcPix, image)).2.2.nComps = image.nComps ∧
      (∀ y0 e0, (y0 ≠ y ∨ e0 < dstPix ∨ dstPix + width * dstNComps ≤ e0) →
        (cairoToNatronRow PIX maxValue dstNComps srcNComps useOpacity inverted cdata y r g b
          opacity width (dstPix, srcPix, image)).2.2.data y0 e0 = image.data y0 e0) ∧
      (∀ (x : Int) (c : Nat), 0 ≤ x → x < width → c < dstNComps →
        (cairoToNatronRow PIX maxValue dstNComps srcNComps useOpacity inverted cdata y r g b
          opacity width (dstPix, srcPix, image)).2.2.data y (dstPix + x * dstNComps + c) =
          natronPixelValue PIX dstNComps useOpacity
            (cairoPixelOf maxValue inverted (cdata (srcPix + x * srcNComps))) r g b opacity
            c) := by
  have key := forLoop_invariant
    (fun _ (s : Int × Int × Image) =>
      (s.1 + dstNComps, s.2.1 + srcNComps,
        writeNatronPixel PIX dstNComps useOpacity s.2.2 y s.1
          (cairoPixelOf maxValue inverted (cdata s.2.1)) r g b opacity))
    (fun j s => 0 ≤ j ∧ s.1 = dstPix + j * dstNComps ∧ s.2.1 = srcPix + j * srcNComps ∧
      s.2.2.nComps = image.nComps ∧
      (∀ y0 e0, (y0 ≠ y ∨ e0 < dstPix ∨ dstPix + j * dstNComps ≤ e0) →
        s.2.2.data y0 e0 = image.data y0 e0) ∧
      (∀ (x : Int) (c : Nat), 0 ≤ x → x < j → c < dstNComps →
        s.2.2.data y (dstPix + x * dstNComps + c) =
          natronPixelValue PIX dstNComps useOpacity
            (cairoPixelOf maxValue inverted (cdata (srcPix + x * srcNComps))) r g b opacity c))
    width 0 (dstPix, srcPix, image)
    (by
      refine ⟨le_refl _, by simp, by simp, rfl, fun _ _ _ => rfl, ?_⟩
      intro x c h0 h1; omega)
    (by
      intro j s _ _ ⟨hj0, hd, hp, hc, hframe, hval⟩
      obtain ⟨wn, wframe, wval⟩ := writeNatronPixel_data PIX dstNComps useOpacity s.2.2 y s.1
        (cairoPixelOf maxValue inverted (cdata s.2.1)) r g b opacity hn
      refine ⟨by omega, by simp only [hd]; ring, by simp only [hp]; ring, by rw [wn, hc], ?_, ?_⟩
      · intro y0 e0 h
        simp only
        rw [wframe y0 e0, hframe y0 e0]
        · rcases h with h | h | h
          · exact Or.inl h
          · exact Or.inr (Or.inl h)
          · right; right
            have : (0 : Int) ≤ dstNComps := Int.natCast_nonneg _
            nlinarith
        · rcases h with h | h | h
          · exact Or.inl h
          · right; left; rw [hd]
            have : (0 : Int) ≤ j * dstNComps := mul_nonneg hj0 (Int.natCast_nonneg _)
            omega
          · right; right; rw [hd]; linarith
      · intro x c hx0 hx1 hcn
        simp only
        by_cases hxj : x = j
        · subst hxj
          rw [← hd, wval c hcn, hp]
        · have hlt : x < j := by omega
          rw [wframe, hval x c hx0 hlt hcn]
          right; left; rw [hd]
          have h1 : (x + 1) * (dstNComps : Int) ≤ j * dstNComps :=
            mul_le_mul_of_nonneg_right (by omega) (Int.natCast_nonneg _)
          have h2 : (c : Int) < dstNComps := by exact_mod_cast hcn
          linarith)
  simp only [zero_add] at key
  obtain ⟨_, h1, h2, h3, h4, h5⟩ := key
  exact ⟨h1, h2, h3, h4, h5⟩

/-- The conversion of a surface to an image, in closed form: the component `c` of the pixel
`(x1 + x, y1 + y)` of the region receives the value computed from the byte at the offset
`y * stride + x * srcNComps` of the surface, the number of components is kept, and the rows
outside of the region are kept. -/
theorem convertCairoImageToNatronImageForInverted_noColor_spec (PIX : ℚ → ℚ) (maxValue : ℚ)
    (dstNComps srcNComps : Nat) (useOpacity inverted : Bool) (cdata : SurfaceData)
    (stride : Int) (image : Image) (pixelRod : RectI) (shapeColor : ℚ × ℚ × ℚ) (opacity : ℚ)
    (hn : dstNComps = 1 ∨ dstNComps = 2 ∨ dstNComps = 3 ∨ dstNComps = 4)
    (hcomps : image.nComps = dstNComps) (hw : 0 ≤ pixelRod.width) :
    (convertCairoImageToNatronImageForInverted_noColor PIX maxValue dstNComps srcNComps
        useOpacity inverted cdata stride image pixelRod shapeColor opacity).nComps =
        image.nComps ∧
      (∀ y0 e0, (y0 < pixelRod.y1 ∨ pixelRod.y1 + pixelRod.height.toNat ≤ y0) →
        (convertCairoImageToNatronImageForInverted_noColor PIX maxValue dstNComps srcNComps
          useOpacity inverted cdata stride image pixelRod shapeColor opacity).data y0 e0 =
          image.data y0 e0) ∧
      (∀ (x y : Int) (c : Nat), 0 ≤ x → x < pixelRod.width → 0 ≤ y → y < pixelRod.height →
        c < dstNComps →
        (convertCairoImageToNatronImageForInverted_noColor PIX maxValue dstNComps srcNComps
          useOpacity inverted cdata stride image pixelRod shapeColor opacity).data
            (pixelRod.y1 + y) ((pixelRod.x1 + x) * dstNComps + c) =
          natronPixelValue PIX dstNComps useOpacity
            (cairoPixelOf maxValue inverted (cdata (y * stride + x * srcNComps)))
            (if useOpacity then shapeColor.1 * opacity else shapeColor.1)
            (if useOpacity then shapeColor.2.1 * opacity else shapeColor.2.1)
            (if useOpacity then shapeColor.2.2 * opacity else shapeColor.2.2) opacity c) := by
  have hW : ((pixelRod.width.toNat : Nat) : Int) = pixelRod.width := Int.toNat_of_nonneg hw
  have key := forLoop_invariant
    (fun y (rows : Int × Image) =>
      ((cairoToNatronRow PIX maxValue dstNComps srcNComps useOpacity inverted cdata
          (pixelRod.y1 + y)
          (if useOpacity then shapeColor.1 * opacity else shapeColor.1)
          (if useOpacity then shapeColor.2.1 * opacity else shapeColor.2.1)
          (if useOpacity then shapeColor.2.2 * opacity else shapeColor.2.2) opacity
          pixelRod.width.toNat (pixelRod.x1 * image.nComps, rows.1, rows.2)).2.1 +
        (stride - pixelRod.width * srcNComps),
       (cairoToNatronRow PIX maxValue dstNComps srcNComps useOpacity inverted cdata
          (pixelRod.y1 + y)
          (if useOpacity then shapeColor.1 * opacity else shapeColor.1)
          (if useOpacity then shapeColor.2.1 * opacity else shapeColor.2.1)
          (if useOpacity then shapeColor.2.2 * opacity else shapeColor.2.2) opacity
          pixelRod.width.toNat (pixelRod.x1 * image.nComps, rows.1, rows.2)).2.2))
    (fun j rows => 0 ≤ j ∧ rows.1 = j * stride ∧ rows.2.nComps = image.nComps ∧
      (∀ y0 e0, (y0 < pixelRod.y1 ∨ pixelRod.y1 + j ≤ y0) →
        rows.2.data y0 e0 = image.data y0 e0) ∧
      (∀ (x y : Int) (c : Nat), 0 ≤ x → x < pixelRod.width → 0 ≤ y → y < j → c < dstNComps →
        rows.2.data (pixelRod.y1 + y) ((pixelRod.x1 + x) * dstNComps + c) =
          natronPixelValue PIX dstNComps useOpacity
            (cairoPixelOf maxValue inverted (cdata (y * stride + x * srcNComps)))
            (if useOpacity then shapeColor.1 * opacity else shapeColor.1)
            (if useOpacity then shapeColor.2.1 * opacity else shapeColor.2.1)
            (if useOpacity then shapeColor.2.2 * opacity else shapeColor.2.2) opacity c))
    pixelRod.height.toNat 0 (0, image)
    (by
      refine ⟨le_refl _, by simp, rfl, fun _ _ _ => rfl, ?_⟩
      intro x y c _ _ h0 h1; omega)
    (by
      intro j rows _ _ ⟨hj0, hp, hc, hframe, hval⟩
      obtain ⟨_, r2, r3, r4, r5⟩ := cairoToNatronRow_spec PIX maxValue dstNComps srcNComps
        useOpacity inverted cdata (pixelRod.y1 + j)
        (if useOpacity then shapeColor.1 * opacity else shapeColor.1)
        (if useOpacity then shapeColor.2.1 * opacity else shapeColor.2.1)
        (if useOpacity then shapeColor.2.2 * opacity else shapeColor.2.2) opacity hn
        pixelRod.width.toNat (pixelRod.x1 * image.nComps) rows.1 rows.2
      refine ⟨by omega, ?_, by rw [r3, hc], ?_, ?_⟩
      · dsimp only
        rw [r2, hW, hp]; ring
      · intro y0 e0 h
        simp only
        rw [r4 y0 e0 (Or.inl (by omega)), hframe y0 e0 (by omega)]
      · intro x y c hx0 hx1 hy0 hy1 hcn
        simp only
        by_cases hyj : y = j
        · subst hyj
          have e : (pixelRod.x1 + x) * (dstNComps : Int) + c =
              pixelRod.x1 * image.nComps + x * dstNComps + c := by rw [hcomps]; ring
          rw [e, r5 x c hx0 (by rw [hW]; exact hx1) hcn, hp]
        · rw [r4 _ _ (Or.inl (by omega)), hval x y c hx0 hx1 hy0 (by omega) hcn])
  simp only [zero_add] at key
  obtain ⟨_, _, h3, h4, h5⟩ := key
  refine ⟨h3, h4, ?_⟩
  intro x y c hx0 hx1 hy0 hy1 hcn
  exact h5 x y c hx0 hx1 hy0 (by rw [Int.toNat_of_nonneg (by omega)]; exact hy1) hcn

/-- An assignment through a pointer changes the byte pointed to and nothing else. -/
theorem SurfaceData.set_apply (data : SurfaceData) (ptr : Int) (v : Nat) (p : Int) :
    (data.set ptr v) p = if p = ptr then v else data p := rfl

/-- The bytes written by `natronToCairoPixel` for the pixel `x`, and the bytes it leaves
alone. -/
theorem natronToCairoPixel_data (toUChar : ℚ → Nat) (maxValue : ℚ) (srcNComps dstNComps : Nat)
    (shapeColor : ℚ × ℚ × ℚ) (srcPix : Int → ℚ) (dstPix x : Int) (buf : SurfaceData)
    (hn : dstNComps = 1 ∨ dstNComps = 4) :
    (∀ p, (p < dstPix + x * dstNComps ∨ dstPix + x * dstNComps + dstNComps ≤ p) →
        natronToCairoPixel toUChar maxValue srcNComps dstNComps shapeColor srcPix dstPix x buf
          p = buf p) ∧
      (∀ c : Nat, c < dstNComps →
        natronToCairoPixel toUChar maxValue srcNComps dstNComps shapeColor srcPix dstPix x buf
          (dstPix + x * dstNComps + c) =
          natronToCairoByte toUChar maxValue srcNComps dstNComps shapeColor srcPix x c) := by
  rcases hn with rfl | rfl
  · refine ⟨?_, ?_⟩
    · intro p h
      simp only [natronToCairoPixel, if_true, SurfaceData.set_apply]
      rw [if_neg (by push_cast at h; omega)]
    · intro c hc
      have hc0 : c = 0 := by omega
      subst hc0
      simp [natronToCairoPixel, natronToCairoByte, SurfaceData.set_apply]
  · have h41 : ¬ (4 : Nat) = 1 := by decide
    by_cases hs : srcNComps = 4
    · refine ⟨?_, ?_⟩
      · intro p h
        push_cast at h
        simp only [natronToCairoPixel, hs, h41, if_true, if_false, SurfaceData.set_apply,
          Nat.cast_ofNat]
        repeat (first | rw [if_pos (by omega)] | rw [if_neg (by omega)])
      · intro c hc
        interval_cases c <;>
        · simp only [natronToCairoPixel, natronToCairoByte, hs, h41, if_true, if_false,
            SurfaceData.set_apply, Nat.cast_ofNat]
          norm_num
          repeat (first | rw [if_pos (by omega)] | rw [if_neg (by omega)])
          try (intros; exfalso; omega)
    · refine ⟨?_, ?_⟩
      · intro p h
        push_cast at h
        simp only [natronToCairoPixel, hs, h41, if_true, if_false, SurfaceData.set_apply,
          Nat.cast_ofNat]
        repeat (first | rw [if_pos (by omega)] | rw [if_neg (by omega)])
      · intro c hc
        interval_cases c <;>
        · simp only [natronToCairoPixel, natronToCairoByte, hs, h41, if_true, if_false,
            SurfaceData.set_apply, Nat.cast_ofNat]
          norm_num
          try (intros; exfalso; omega)

/-- The inner loop of the conversion of an image to a surface, in closed form: the pixel `x`
of the row has received the bytes of `natronToCairoByte`, and no byte outside of the row has
changed. -/
theorem natronToCairoRow_spec (toUChar : ℚ → Nat) (maxValue : ℚ) (srcNComps dstNComps : Nat)
    (shapeColor : ℚ × ℚ × ℚ) (srcPix : Int → ℚ) (dstPix : Int)
    (hn : dstNComps = 1 ∨ dstNComps = 4) (width : Nat) (buf : SurfaceData) :
    (∀ p, (p < dstPix ∨ dstPix + width * dstNComps ≤ p) →
        forLoop (natronToCairoPixel toUChar maxValue srcNComps dstNComps shapeColor srcPix
          dstPix) width 0 buf p = buf p) ∧
      (∀ (x : Int) (c : Nat), 0 ≤ x → x < width → c < dstNComps →
        forLoop (natronToCairoPixel toUChar maxValue srcNComps dstNComps shapeColor srcPix
          dstPix) width 0 buf (dstPix + x * dstNComps + c) =
          natronToCairoByte toUChar maxValue srcNComps dstNComps shapeColor srcPix x c) := by
  have key := forLoop_invariant
    (natronToCairoPixel toUChar maxValue srcNComps dstNComps shapeColor srcPix dstPix)
    (fun j s => 0 ≤ j ∧
      (∀ p, (p < dstPix ∨ dstPix + j * dstNComps ≤ p) → s p = buf p) ∧
      (∀ (x : Int) (c : Nat), 0 ≤ x → x < j → c < dstNComps →
        s (dstPix + x * dstNComps + c) =
          natronToCairoByte toUChar maxValue srcNComps dstNComps shapeColor srcPix x c))
    width 0 buf
    (by
      refine ⟨le_refl _, fun _ _ => rfl, ?_⟩
      intro x c h0 h1; omega)
    (by
      intro j s _ _ ⟨hj0, hframe, hval⟩
      obtain ⟨wframe, wval⟩ := natronToCairoPixel_data toUChar maxValue srcNComps dstNComps
        shapeColor srcPix dstPix j s hn
      have hd0 : (0 : Int) ≤ dstNComps := Int.natCast_nonneg _
      have hjd : (0 : Int) ≤ j * dstNComps := mul_nonneg hj0 hd0
      refine ⟨by omega, ?_, ?_⟩
      · intro p h
        rw [wframe p, hframe p]
        · rcases h with h | h
          · exact Or.inl h
          · right; nlinarith
        · rcases h with h | h
          · left; omega
          · right; linarith
      · intro x c hx0 hx1 hcn
        by_cases hxj : x = j
        · subst hxj
          exact wval c hcn
        · have hlt : x < j := by omega
          rw [wframe, hval x c hx0 hlt hcn]
          left
          have h1 : (x + 1) * (dstNComps : Int) ≤ j * dstNComps :=
            mul_le_mul_of_nonneg_right (by omega) hd0
          have h2 : (c : Int) < dstNComps := by exact_mod_cast hcn
          linarith)
  simp only [zero_add] at key
  exact ⟨key.2.1, key.2.2⟩

/-- The conversion of an image to a surface, in closed form, when the rows of the region fit
in the stride: the byte `c` of the pixel `(x, y)` of the region, at the offset
`y * stride + x * dstNComps + c` from the initial pointer, is the byte of `natronToCairoByte`
for the row `roi.y1 + y` of the image, and the bytes outside of these rows are kept. -/
theorem convertNatronImageToCairoImageForComponents_spec (toUChar : ℚ → Nat) (maxValue : ℚ)
    (srcNComps dstNComps : Nat) (cairoImg : SurfaceData) (stride : Int) (image : Image)
    (roi dstBounds : RectI) (shapeColor : ℚ × ℚ × ℚ)
    (hn : dstNComps = 1 ∨ dstNComps = 4) (hw : 0 ≤ roi.width)
    (hstride : roi.width * dstNComps ≤ stride) :
    (∀ p, (∀ y : Int, 0 ≤ y → y < roi.height →
          p < (roi.y1 - dstBounds.y1) * stride + (roi.x1 - dstBounds.x1) + y * stride ∨
          (roi.y1 - dstBounds.y1) * stride + (roi.x1 - dstBounds.x1) + y * stride +
            roi.width * dstNComps ≤ p) →
        convertNatronImageToCairoImageForComponents toUChar maxValue srcNComps dstNComps
          cairoImg stride image roi dstBounds shapeColor p = cairoImg p) ∧
      (∀ (x y : Int) (c : Nat), 0 ≤ x → x < roi.width → 0 ≤ y → y < roi.height →
        c < dstNComps →
        convertNatronImageToCairoImageForComponents toUChar maxValue srcNComps dstNComps
          cairoImg stride image roi dstBounds shapeColor
          ((roi.y1 - dstBounds.y1) * stride + (roi.x1 - dstBounds.x1) + y * stride +
            x * dstNComps + c) =
          natronToCairoByte toUChar maxValue srcNComps dstNComps shapeColor
            (fun k => image.data (roi.y1 + y) (roi.x1 * image.nComps + k)) x c) := by
  have hW : ((roi.width.toNat : Nat) : Int) = roi.width := Int.toNat_of_nonneg hw
  have hd0 : (0 : Int) ≤ dstNComps := Int.natCast_nonneg _
  have hs0 : 0 ≤ stride := le_trans (mul_nonneg hw hd0) hstride
  have key := forLoop_invariant
    (fun y (rows : Int × SurfaceData) =>
      (rows.1 + stride,
        forLoop (natronToCairoPixel toUChar maxValue srcNComps dstNComps shapeColor
          (fun k => image.data (roi.y1 + y) (roi.x1 * image.nComps + k)) rows.1)
          roi.width.toNat 0 rows.2))
    (fun j rows => 0 ≤ j ∧
      rows.1 = (roi.y1 - dstBounds.y1) * stride + (roi.x1 - dstBounds.x1) + j * stride ∧
      (∀ p, (∀ y : Int, 0 ≤ y → y < j →
          p < (roi.y1 - dstBounds.y1) * stride + (roi.x1 - dstBounds.x1) + y * stride ∨
          (roi.y1 - dstBounds.y1) * stride + (roi.x1 - dstBounds.x1) + y * stride +
            roi.width * dstNComps ≤ p) → rows.2 p = cairoImg p) ∧
      (∀ (x y : Int) (c : Nat), 0 ≤ x → x < roi.width → 0 ≤ y → y < j → c < dstNComps →
        rows.2 ((roi.y1 - dstBounds.y1) * stride + (roi.x1 - dstBounds.x1) + y * stride +
            x * dstNComps + c) =
          natronToCairoByte toUChar maxValue srcNComps dstNComps shapeColor
            (fun k => image.data (roi.y1 + y) (roi.x1 * image.nComps + k)) x c))
    roi.height.toNat 0
    ((roi.y1 - dstBounds.y1) * stride + (roi.x1 - dstBounds.x1), cairoImg)
    (by
      refine ⟨le_refl _, by simp, fun _ _ => rfl, ?_⟩
      intro x y c _ _ h0 h1; omega)
    (by
      intro j rows _ _ ⟨hj0, hp, hframe, hval⟩
      obtain ⟨r1, r2⟩ := natronToCairoRow_spec toUChar maxValue srcNComps dstNComps shapeColor
        (fun k => image.data (roi.y1 + j) (roi.x1 * image.nComps + k)) rows.1 hn
        roi.width.toNat rows.2
      rw [hW] at r1 r2
      refine ⟨by omega, by dsimp only; rw [hp]; ring, ?_, ?_⟩
      · intro p h
        dsimp only
        rw [r1 p, hframe p]
        · intro y hy0 hy1
          exact h y hy0 (by omega)
        · rw [hp]
          exact h j hj0 (by omega)
      · intro x y c hx0 hx1 hy0 hy1 hcn
        dsimp only
        by_cases hyj : y = j
        · subst hyj
          rw [← hp]
          exact r2 x c hx0 hx1 hcn
        · have hlt : y < j := by omega
          rw [r1, hval x y c hx0 hx1 hy0 hlt hcn]
          left
          rw [hp]
          have h1 : (y + 1) * stride ≤ j * stride :=
            mul_le_mul_of_nonneg_right (by omega) hs0
          have h2 : (c : Int) < dstNComps := by exact_mod_cast hcn
          have h3 : (x + 1) * (dstNComps : Int) ≤ roi.width * dstNComps :=
            mul_le_mul_of_nonneg_right (by omega) hd0
          linarith)
  simp only [zero_add] at key
  obtain ⟨_, _, h3, h4⟩ := key
  have hH : ∀ y : Int, 0 ≤ y → y < roi.height → y < (roi.height.toNat : Int) := by
    intro y h0 h1
    omega
  refine ⟨?_, ?_⟩
  · intro p h
    apply h3 p
    intro y hy0 hy1
    exact h y hy0 (by omega)
  · intro x y c hx0 hx1 hy0 hy1 hcn
    exact h4 x y c hx0 hx1 hy0 (hH y hy0 hy1) hcn


/-! ## Surface to image: the value of every pixel -/

/-- C14: in the conversion of a surface to an image, for every pixel `(x, y)` of the region,
with `s` the byte of the surface at the offset `y * stride + x * srcNComps` and `v = s / 255 *
maxValue`, or `1 - s / 255 * maxValue` when inverted, the pixel `(x1 + x, y1 + y)` of the image
receives `(v r, v g, v b, v o)` for 4 components, `(v r, v g, v b)` for 3, `(v r, v g)` for 2
and `v o` for 1, each converted to the pixel type, where `(r, g, b)` is the shape colour,
multiplied by the opacity when the opacity is folded in, and `o` is the opacity when it is
folded in and 1 otherwise. -/
theorem convertCairoImageToNatronImage_noColor_pixel (PIX : ℚ → ℚ) (maxValue : ℚ)
    (cdata : SurfaceData) (stride : Int) (srcNComps : Nat) (image : Image) (pixelRod : RectI)
    (shapeColor : ℚ × ℚ × ℚ) (opacity : ℚ) (inverted useOpacity : Bool) (x y : Int)
    (v r g b o : ℚ)
    (hsrc : srcNComps = 1 ∨ srcNComps = 4)
    (hx : 0 ≤ x ∧ x < pixelRod.width) (hy : 0 ≤ y ∧ y < pixelRod.height)
    (hv : v = if inverted then 1 - (cdata (y * stride + x * srcNComps) : ℚ) / 255 * maxValue
      else (cdata (y * stride + x * srcNComps) : ℚ) / 255 * maxValue)
    (hr : r = if useOpacity then shapeColor.1 * opacity else shapeColor.1)
    (hg : g = if useOpacity then shapeColor.2.1 * opacity else shapeColor.2.1)
    (hb : b = if useOpacity then shapeColor.2.2 * opacity else shapeColor.2.2)
    (ho : o = if useOpacity then opacity else 1) :
    (image.nComps = 4 →
      (convertCairoImageToNatronImage_noColor PIX maxValue cdata stride srcNComps image pixelRod
          shapeColor opacity inverted useOpacity).get (pixelRod.x1 + x) (pixelRod.y1 + y) 0 =
          PIX (v * r) ∧
        (convertCairoImageToNatronImage_noColor PIX maxValue cdata stride srcNComps image pixelRod
          shapeColor opacity inverted useOpacity).get (pixelRod.x1 + x) (pixelRod.y1 + y) 1 =
          PIX (v * g) ∧
        (convertCairoImageToNatronImage_noColor PIX maxValue cdata stride srcNComps image pixelRod
          shapeColor opacity inverted useOpacity).get (pixelRod.x1 + x) (pixelRod.y1 + y) 2 =
          PIX (v * b) ∧
        (convertCairoImageToNatronImage_noColor PIX maxValue cdata stride srcNComps image pixelRod
          shapeColor opacity inverted useOpacity).get (pixelRod.x1 + x) (pixelRod.y1 + y) 3 =
          PIX (v * o)) ∧
      (image.nComps = 3 →
        (convertCairoImageToNatronImage_noColor PIX maxValue cdata stride srcNComps image pixelRod
          shapeColor opacity inverted useOpacity).get (pixelRod.x1 + x) (pixelRod.y1 + y) 0 =
          PIX (v * r) ∧
        (convertCairoImageToNatronImage_noColor PIX maxValue cdata stride srcNComps image pixelRod
          shapeColor opacity inverted useOpacity).get (pixelRod.x1 + x) (pixelRod.y1 + y) 1 =
          PIX (v * g) ∧
        (convertCairoImageToNatronImage_noColor PIX maxValue cdata stride srcNComps image pixelRod
          shapeColor opacity inverted useOpacity).get (pixelRod.x1 + x) (pixelRod.y1 + y) 2 =
          PIX (v * b)) ∧
      (image.nComps = 2 →
        (convertCairoImageToNatronImage_noColor PIX maxValue cdata stride srcNComps image pixelRod
          shapeColor opacity inverted useOpacity).get (pixelRod.x1 + x) (pixelRod.y1 + y) 0 =
          PIX (v * r) ∧
        (convertCairoImageToNatronImage_noColor PIX maxValue cdata stride srcNComps image pixelRod
          shapeColor opacity inverted useOpacity).get (pixelRod.x1 + x) (pixelRod.y1 + y) 1 =
          PIX (v * g)) ∧
      (image.nComps = 1 →
        (convertCairoImageToNatronImage_noColor PIX maxValue cdata stride srcNComps image pixelRod
          shapeColor opacity inverted useOpacity).get (pixelRod.x1 + x) (pixelRod.y1 + y) 0 =
          PIX (v * o)) := by
  have hvc : cairoPixelOf maxValue inverted (cdata (y * stride + x * srcNComps)) = v := by
    rw [hv, cairoPixelOf]; cases inverted <;> simp
  have hop : (if useOpacity then PIX (v * opacity) else PIX v) = PIX (v * o) := by
    rw [ho]; cases useOpacity <;> simp
  have main : ∀ n : Nat, image.nComps = n → (n = 1 ∨ n = 2 ∨ n = 3 ∨ n = 4) →
      ∀ c : Nat, c < n →
        (convertCairoImageToNatronImage_noColor PIX maxValue cdata stride srcNComps image pixelRod
          shapeColor opacity inverted useOpacity).get (pixelRod.x1 + x) (pixelRod.y1 + y) c =
          natronPixelValue PIX n useOpacity v r g b opacity c := by
    intro n hn h14 c hc
    have hcomps : image.nComps = 1 ∨ image.nComps = 2 ∨ image.nComps = 3 ∨ image.nComps = 4 := by
      rw [hn]; exact h14
    obtain ⟨s1, _, s3⟩ := convertCairoImageToNatronImageForInverted_noColor_spec PIX maxValue
      image.nComps srcNComps useOpacity inverted cdata stride image pixelRod shapeColor opacity
      hcomps rfl (by omega)
    rw [Image.get, convertCairoImageToNatronImage_noColor]
    rw [if_pos hcomps, if_pos hsrc, s1, s3 x y c hx.1 hx.2 hy.1 hy.2 (by omega), hvc, ← hr, ← hg,
      ← hb, hn]
  refine ⟨?_, ?_, ?_, ?_⟩
  · intro h
    refine ⟨?_, ?_, ?_, ?_⟩
    · rw [main 4 h (by decide) 0 (by decide)]; simp [natronPixelValue]
    · rw [main 4 h (by decide) 1 (by decide)]; simp [natronPixelValue]
    · rw [main 4 h (by decide) 2 (by decide)]; simp [natronPixelValue]
    · rw [main 4 h (by decide) 3 (by decide)]; simpa [natronPixelValue] using hop
  · intro h
    refine ⟨?_, ?_, ?_⟩
    · rw [main 3 h (by decide) 0 (by decide)]; simp [natronPixelValue]
    · rw [main 3 h (by decide) 1 (by decide)]; simp [natronPixelValue]
    · rw [main 3 h (by decide) 2 (by decide)]; simp [natronPixelValue]
  · intro h
    refine ⟨?_, ?_⟩
    · rw [main 2 h (by decide) 0 (by decide)]; simp [natronPixelValue]
    · rw [main 2 h (by decide) 1 (by decide)]; simp [natronPixelValue]
  · intro h
    rw [main 1 h (by decide) 0 (by decide)]; simpa [natronPixelValue] using hop

/-- A concrete instance: on a surface of four bytes per
pixel whose byte for the pixel `(1, 0)` is 204, with the colour `(1, 1/2, 1/4)` and the opacity
`1/2` folded in, the pixel `(1, 0)` of a float image of four components receives `4/5` times
`(1/2, 1/4, 1/8, 1/2)`. -/
theorem convertCairoImageToNatronImage_noColor_pixel_witness :
    (convertCairoImageToNatronImage_noColor id 1 exampleSurface 8 4 exampleColorImage
        exampleRoi (1, 1 / 2, 1 / 4) (1 / 2) false true).get (exampleRoi.x1 + 1)
        (exampleRoi.y1 + 0) 0 = id (4 / 5 * (1 / 2)) ∧
      (convertCairoImageToNatronImage_noColor id 1 exampleSurface 8 4 exampleColorImage
        exampleRoi (1, 1 / 2, 1 / 4) (1 / 2) false true).get (exampleRoi.x1 + 1)
        (exampleRoi.y1 + 0) 1 = id (4 / 5 * (1 / 4)) ∧
      (convertCairoImageToNatronImage_noColor id 1 exampleSurface 8 4 exampleColorImage
        exampleRoi (1, 1 / 2, 1 / 4) (1 / 2) false true).get (exampleRoi.x1 + 1)
        (exampleRoi.y1 + 0) 2 = id (4 / 5 * (1 / 8)) ∧
      (convertCairoImageToNatronImage_noColor id 1 exampleSurface 8 4 exampleColorImage
        exampleRoi (1, 1 / 2, 1 / 4) (1 / 2) false true).get (exampleRoi.x1 + 1)
        (exampleRoi.y1 + 0) 3 = id (4 / 5 * (1 / 2)) :=
  (convertCairoImageToNatronImage_noColor_pixel id 1 exampleSurface 8 4 exampleColorImage
    exampleRoi (1, 1 / 2, 1 / 4) (1 / 2) false true 1 0 (4 / 5) (1 / 2) (1 / 4) (1 / 8) (1 / 2)
    (Or.inr rfl) (by decide) (by decide) (by decide!) (by decide!) (by decide!) (by decide!)
    (by decide!)).1 rfl


/-! ## Image to surface: four components to four bytes -/

/-- A function of the state that commutes with the body of a counted loop commutes with the
loop. -/
theorem forLoop_map {σ τ : Type} (f : Int → σ → σ) (g : Int → τ → τ) (h : σ → τ)
    (hstep : ∀ i s, h (f i s) = g i (h s)) :
    ∀ (count : Nat) (start : Int) (state : σ),
      h (forLoop f count start state) = forLoop g count start (h state) := by
  intro count
  induction count with
  | zero => intro start state; rfl
  | succ count ih =>
    intro start state
    rw [forLoop, forLoop, ih, hstep]

/-- The value of `natronToCairoColor`. -/
theorem natronToCairoColor_fst (maxValue : ℚ) (c : Nat) (shapeColorK src : ℚ)
    (divisions : List (Nat × Bool)) :
    (natronToCairoColor maxValue c shapeColorK src divisions).1 =
      if shapeColorK = 0 then 0 else src / maxValue / shapeColorK * 255 := by
  unfold natronToCairoColor
  by_cases h : shapeColorK = 0
  · rw [if_pos h, if_pos h]
  · rw [if_neg h, if_neg h]; rfl

/-- The bytes written by `natronToCairoPixelChecked` are those of `natronToCairoPixel`. -/
theorem natronToCairoPixelChecked_fst (toUChar : ℚ → Nat) (maxValue : ℚ)
    (srcNComps dstNComps : Nat) (shapeColor : ℚ × ℚ × ℚ) (srcPix : Int → ℚ) (dstPix : Int)
    (x : Int) (state : SurfaceData × List (Nat × Bool)) :
    (natronToCairoPixelChecked toUChar maxValue srcNComps dstNComps shapeColor srcPix dstPix x
      state).1 =
      natronToCairoPixel toUChar maxValue srcNComps dstNComps shapeColor srcPix dstPix x
        state.1 := by
  unfold natronToCairoPixelChecked natronToCairoPixel
  by_cases h1 : dstNComps = 1
  · rw [if_pos h1, if_pos h1]; rfl
  · rw [if_neg h1, if_neg h1]
    by_cases h4 : dstNComps = 4
    · rw [if_pos h4, if_pos h4]
      by_cases hs : srcNComps = 4
      · rw [if_pos hs, if_pos hs]
        simp only [natronToCairoColor_fst]
      · rw [if_neg hs, if_neg hs]; rfl
    · rw [if_neg h4, if_neg h4]

/-- The bytes written by `convertNatronImageToCairoImageChecked` are those of
`convertNatronImageToCairoImage`. -/
theorem convertNatronImageToCairoImageChecked_fst (toUChar : ℚ → Nat) (maxValue : ℚ)
    (cairoImg : SurfaceData) (dstNComps : Nat) (stride : Int) (image : Image)
    (roi dstBounds : RectI) (shapeColor : ℚ × ℚ × ℚ) :
    (convertNatronImageToCairoImageChecked toUChar maxValue cairoImg dstNComps stride image roi
      dstBounds shapeColor).1 =
      convertNatronImageToCairoImage toUChar maxValue cairoImg dstNComps stride image roi
        dstBounds shapeColor := by
  have hcomp : ∀ srcNComps : Nat,
      (convertNatronImageToCairoImageForComponentsChecked toUChar maxValue srcNComps dstNComps
        cairoImg stride image roi dstBounds shapeColor).1 =
      convertNatronImageToCairoImageForComponents toUChar maxValue srcNComps dstNComps
        cairoImg stride image roi dstBounds shapeColor := by
    intro srcNComps
    unfold convertNatronImageToCairoImageForComponentsChecked
      convertNatronImageToCairoImageForComponents
    have key := forLoop_map
      (fun y (rows : Int × SurfaceData × List (Nat × Bool)) =>
        (rows.1 + stride,
          forLoop (natronToCairoPixelChecked toUChar maxValue srcNComps dstNComps shapeColor
            (fun k => image.data (roi.y1 + y) (roi.x1 * image.nComps + k)) rows.1)
            roi.width.toNat 0 rows.2))
      (fun y (rows : Int × SurfaceData) =>
        (rows.1 + stride,
          forLoop (natronToCairoPixel toUChar maxValue srcNComps dstNComps shapeColor
            (fun k => image.data (roi.y1 + y) (roi.x1 * image.nComps + k)) rows.1)
            roi.width.toNat 0 rows.2))
      (fun s => (s.1, s.2.1))
      (by
        intro i s
        have inner := forLoop_map
          (natronToCairoPixelChecked toUChar maxValue srcNComps dstNComps shapeColor
            (fun k => image.data (roi.y1 + i) (roi.x1 * image.nComps + k)) s.1)
          (natronToCairoPixel toUChar maxValue srcNComps dstNComps shapeColor
            (fun k => image.data (roi.y1 + i) (roi.x1 * image.nComps + k)) s.1)
          Prod.fst
          (fun j t => natronToCairoPixelChecked_fst toUChar maxValue srcNComps dstNComps
            shapeColor _ s.1 j t)
          roi.width.toNat 0 s.2
        simp only [inner])
      roi.height.toNat 0
      ((roi.y1 - dstBounds.y1) * stride + (roi.x1 - dstBounds.x1), cairoImg, [])
    exact congrArg Prod.snd key
  unfold convertNatronImageToCairoImageChecked convertNatronImageToCairoImage
  dsimp only
  split
  · split
    · exact hcomp _
    · rfl
  · rfl

/-- The divisions noted by `natronToCairoColor`: those noted before, and divisions for the
place `c`, performed only when the shape colour is not 0, by `maxValue` or by it. -/
theorem natronToCairoColor_divisions (maxValue : ℚ) (c : Nat) (shapeColorK src : ℚ)
    (divisions : List (Nat × Bool)) :
    ∀ e ∈ (natronToCairoColor maxValue c shapeColorK src divisions).2,
      e ∈ divisions ∨ (e.1 = c ∧ shapeColorK ≠ 0 ∧ (maxValue ≠ 0 → e.2 = false)) := by
  intro e he
  unfold natronToCairoColor at he
  by_cases h : shapeColorK = 0
  · rw [if_pos h] at he
    exact Or.inl he
  · rw [if_neg h] at he
    simp only [recordedDiv, checkedDiv, List.mem_append, List.mem_singleton] at he
    rcases he with (he | he) | he
    · exact Or.inl he
    · right
      subst he
      exact ⟨rfl, h, fun hm => by simpa using hm⟩
    · right
      subst he
      exact ⟨rfl, h, fun _ => by simpa using h⟩

/-- In the conversion of four components to four bytes, every division noted is performed for
a colour byte whose shape colour is not 0, and its divisor is not zero when `maxValue` is
not. -/
theorem convertNatronImageToCairoImageChecked_divisions (toUChar : ℚ → Nat) (maxValue : ℚ)
    (cairoImg : SurfaceData) (stride : Int) (image : Image) (roi dstBounds : RectI)
    (shapeColor : ℚ × ℚ × ℚ) (hcomps : image.nComps = 4) :
    ∀ e ∈ (convertNatronImageToCairoImageChecked toUChar maxValue cairoImg 4 stride image roi
        dstBounds shapeColor).2,
      (maxValue ≠ 0 → e.2 = false) ∧ (e.1 = 0 → shapeColor.2.2 ≠ 0) ∧
        (e.1 = 1 → shapeColor.2.1 ≠ 0) ∧ (e.1 = 2 → shapeColor.1 ≠ 0) ∧ e.1 < 3 := by
  have hpix : ∀ (srcPix : Int → ℚ) (dstPix x : Int) (state : SurfaceData × List (Nat × Bool)),
      (∀ e ∈ state.2, (maxValue ≠ 0 → e.2 = false) ∧ (e.1 = 0 → shapeColor.2.2 ≠ 0) ∧
        (e.1 = 1 → shapeColor.2.1 ≠ 0) ∧ (e.1 = 2 → shapeColor.1 ≠ 0) ∧ e.1 < 3) →
      ∀ e ∈ (natronToCairoPixelChecked toUChar maxValue 4 4 shapeColor srcPix dstPix x
          state).2,
        (maxValue ≠ 0 → e.2 = false) ∧ (e.1 = 0 → shapeColor.2.2 ≠ 0) ∧
        (e.1 = 1 → shapeColor.2.1 ≠ 0) ∧ (e.1 = 2 → shapeColor.1 ≠ 0) ∧ e.1 < 3 := by
    intro srcPix dstPix x state hstate e he
    unfold natronToCairoPixelChecked at he
    rw [if_neg (by decide), if_pos rfl, if_pos rfl] at he
    dsimp only at he
    rcases natronToCairoColor_divisions _ _ _ _ _ e he with h2 | ⟨h2, hc, hz⟩
    · rcases natronToCairoColor_divisions _ _ _ _ _ e h2 with h1 | ⟨h1, hc, hz⟩
      · rcases natronToCairoColor_divisions _ _ _ _ _ e h1 with h0 | ⟨h0, hc, hz⟩
        · exact hstate e h0
        · exact ⟨hz, fun _ => hc, by omega, by omega, by omega⟩
      · exact ⟨hz, by omega, fun _ => hc, by omega, by omega⟩
    · exact ⟨hz, by omega, by omega, fun _ => hc, by omega⟩
  unfold convertNatronImageToCairoImageChecked
  dsimp only
  rw [if_pos (by rw [hcomps]; simp), if_pos (by simp), hcomps]
  unfold convertNatronImageToCairoImageForComponentsChecked
  dsimp only
  have key := forLoop_invariant
    (fun y (rows : Int × SurfaceData × List (Nat × Bool)) =>
      (rows.1 + stride,
        forLoop (natronToCairoPixelChecked toUChar maxValue 4 4 shapeColor
          (fun k => image.data (roi.y1 + y) (roi.x1 * image.nComps + k)) rows.1)
          roi.width.toNat 0 rows.2))
    (fun _ rows => ∀ e ∈ rows.2.2, (maxValue ≠ 0 → e.2 = false) ∧
      (e.1 = 0 → shapeColor.2.2 ≠ 0) ∧ (e.1 = 1 → shapeColor.2.1 ≠ 0) ∧
      (e.1 = 2 → shapeColor.1 ≠ 0) ∧ e.1 < 3)
    roi.height.toNat 0
    ((roi.y1 - dstBounds.y1) * stride + (roi.x1 - dstBounds.x1), cairoImg, [])
    (by intro e he; simp at he)
    (by
      intro j t _ _ ht
      have inner := forLoop_invariant
        (natronToCairoPixelChecked toUChar maxValue 4 4 shapeColor
          (fun k => image.data (roi.y1 + j) (roi.x1 * image.nComps + k)) t.1)
        (fun _ state => ∀ e ∈ state.2, (maxValue ≠ 0 → e.2 = false) ∧
          (e.1 = 0 → shapeColor.2.2 ≠ 0) ∧ (e.1 = 1 → shapeColor.2.1 ≠ 0) ∧
          (e.1 = 2 → shapeColor.1 ≠ 0) ∧ e.1 < 3)
        roi.width.toNat 0 t.2 ht
        (fun i s _ _ hs => hpix _ _ i s hs)
      exact inner)
  exact key

/-- C15: in the conversion of an image of four components to a surface of four bytes per
pixel, for every pixel `(x, y)` of the region, the bytes 0, 1 and 2 of the pixel are the
conversions to a byte of `(src / maxValue) / shapeColor[c] * 255` for the blue, green and red
components `c = 2, 1, 0`, each byte being 0 whenever `shapeColor[c]` is 0 (the guard selects
the constant 0, whose conversion to a byte is 0), and the byte 3 is 255; and every division
that the conversion performs is performed for one of the bytes 0, 1 and 2 whose `shapeColor[c]`
is not 0, so that none is performed for a byte whose `shapeColor[c]` is 0, and its divisor is
not zero when `maxValue` is not. -/
theorem convertNatronImageToCairoImage_four_to_four (toUChar : ℚ → Nat) (maxValue : ℚ)
    (cairoImg : SurfaceData) (stride : Int) (image : Image) (roi dstBounds : RectI)
    (shapeColor : ℚ × ℚ × ℚ) (x y : Int)
    (hzero : toUChar 0 = 0) (hcomps : image.nComps = 4)
    (hx : 0 ≤ x ∧ x < roi.width) (hy : 0 ≤ y ∧ y < roi.height)
    (hstride : roi.width * 4 ≤ stride) :
    (convertNatronImageToCairoImageChecked toUChar maxValue cairoImg 4 stride image roi dstBounds
        shapeColor).1
        ((roi.y1 - dstBounds.y1) * stride + (roi.x1 - dstBounds.x1) + y * stride + x * 4 + 0) =
        (if shapeColor.2.2 = 0 then 0
          else toUChar (image.get (roi.x1 + x) (roi.y1 + y) 2 / maxValue / shapeColor.2.2 * 255)) ∧
      (convertNatronImageToCairoImageChecked toUChar maxValue cairoImg 4 stride image roi
        dstBounds shapeColor).1
        ((roi.y1 - dstBounds.y1) * stride + (roi.x1 - dstBounds.x1) + y * stride + x * 4 + 1) =
        (if shapeColor.2.1 = 0 then 0
          else toUChar (image.get (roi.x1 + x) (roi.y1 + y) 1 / maxValue / shapeColor.2.1 * 255)) ∧
      (convertNatronImageToCairoImageChecked toUChar maxValue cairoImg 4 stride image roi
        dstBounds shapeColor).1
        ((roi.y1 - dstBounds.y1) * stride + (roi.x1 - dstBounds.x1) + y * stride + x * 4 + 2) =
        (if shapeColor.1 = 0 then 0
          else toUChar (image.get (roi.x1 + x) (roi.y1 + y) 0 / maxValue / shapeColor.1 * 255)) ∧
      (convertNatronImageToCairoImageChecked toUChar maxValue cairoImg 4 stride image roi
        dstBounds shapeColor).1
        ((roi.y1 - dstBounds.y1) * stride + (roi.x1 - dstBounds.x1) + y * stride + x * 4 + 3) =
        255 ∧
      ∀ division ∈ (convertNatronImageToCairoImageChecked toUChar maxValue cairoImg 4 stride
          image roi dstBounds shapeColor).2,
        (maxValue ≠ 0 → division.2 = false) ∧ (division.1 = 0 → shapeColor.2.2 ≠ 0) ∧
          (division.1 = 1 → shapeColor.2.1 ≠ 0) ∧ (division.1 = 2 → shapeColor.1 ≠ 0) ∧
          division.1 < 3 := by
  have hs := (convertNatronImageToCairoImageForComponents_spec toUChar maxValue 4 4 cairoImg
    stride image roi dstBounds shapeColor (Or.inr rfl) (by omega) (by exact_mod_cast hstride)).2
    x y
  have hget : ∀ (k : Int) (c : Nat), k = x * 4 + c →
      image.data (roi.y1 + y) (roi.x1 * image.nComps + k) =
        image.get (roi.x1 + x) (roi.y1 + y) c := by
    intro k c hk
    rw [Image.get, hcomps, hk]
    congr 1
    push_cast
    ring
  have hconv : convertNatronImageToCairoImage toUChar maxValue cairoImg 4 stride image roi
      dstBounds shapeColor = convertNatronImageToCairoImageForComponents toUChar maxValue 4 4
        cairoImg stride image roi dstBounds shapeColor := by
    rw [convertNatronImageToCairoImage, hcomps]
    simp
  rw [convertNatronImageToCairoImageChecked_fst, hconv]
  have b0 := hs 0 hx.1 hx.2 hy.1 hy.2 (by decide)
  have b1 := hs 1 hx.1 hx.2 hy.1 hy.2 (by decide)
  have b2 := hs 2 hx.1 hx.2 hy.1 hy.2 (by decide)
  have b3 := hs 3 hx.1 hx.2 hy.1 hy.2 (by decide)
  simp only [natronToCairoByte, Nat.cast_ofNat, Nat.cast_zero, Nat.cast_one] at b0 b1 b2 b3
  norm_num at b0 b1 b2 b3
  refine ⟨?_, ?_, ?_, b3, convertNatronImageToCairoImageChecked_divisions toUChar maxValue
    cairoImg stride image roi dstBounds shapeColor hcomps⟩
  · rw [add_zero, b0]
    by_cases h : shapeColor.2.2 = 0
    · rw [if_pos h, if_pos h, hzero]
    · rw [if_neg h, if_neg h, hget _ 2 (by norm_num)]
  · rw [b1]
    by_cases h : shapeColor.2.1 = 0
    · rw [if_pos h, if_pos h, hzero]
    · rw [if_neg h, if_neg h, hget _ 1 (by norm_num)]
  · rw [b2]
    by_cases h : shapeColor.1 = 0
    · rw [if_pos h, if_pos h, hzero]
    · rw [if_neg h, if_neg h, hget _ 0 (by norm_num)]

/-- A concrete instance: with the shape colour
`(1, 1/2, 0)` the four bytes of the pixel `(1, 0)` of the surface, and the divisions of the
whole conversion, are stated for an image all of whose pixels are `(1/2, 1/4, 1/8, 1/2)`. -/
theorem convertNatronImageToCairoImage_four_to_four_witness :
    (convertNatronImageToCairoImageChecked exampleToUChar 1 (fun _ => 7) 4 8 examplePaintedImage
        exampleRoi exampleRoi (1, 1 / 2, 0)).1
        ((exampleRoi.y1 - exampleRoi.y1) * 8 + (exampleRoi.x1 - exampleRoi.x1) + 0 * 8 +
          1 * 4 + 0) =
        (if (1, 1 / 2, 0).2.2 = (0 : ℚ) then 0
          else exampleToUChar (examplePaintedImage.get (exampleRoi.x1 + 1) (exampleRoi.y1 + 0) 2 /
            1 / (1, 1 / 2, 0).2.2 * 255)) ∧
      (convertNatronImageToCairoImageChecked exampleToUChar 1 (fun _ => 7) 4 8
        examplePaintedImage exampleRoi exampleRoi (1, 1 / 2, 0)).1
        ((exampleRoi.y1 - exampleRoi.y1) * 8 + (exampleRoi.x1 - exampleRoi.x1) + 0 * 8 +
          1 * 4 + 1) =
        (if (1, 1 / 2, 0).2.1 = (0 : ℚ) then 0
          else exampleToUChar (examplePaintedImage.get (exampleRoi.x1 + 1) (exampleRoi.y1 + 0) 1 /
            1 / (1, 1 / 2, 0).2.1 * 255)) ∧
      (convertNatronImageToCairoImageChecked exampleToUChar 1 (fun _ => 7) 4 8
        examplePaintedImage exampleRoi exampleRoi (1, 1 / 2, 0)).1
        ((exampleRoi.y1 - exampleRoi.y1) * 8 + (exampleRoi.x1 - exampleRoi.x1) + 0 * 8 +
          1 * 4 + 2) =
        (if (1, 1 / 2, 0).1 = (0 : ℚ) then 0
          else exampleToUChar (examplePaintedImage.get (exampleRoi.x1 + 1) (exampleRoi.y1 + 0) 0 /
            1 / (1, 1 / 2, 0).1 * 255)) ∧
      (convertNatronImageToCairoImageChecked exampleToUChar 1 (fun _ => 7) 4 8
        examplePaintedImage exampleRoi exampleRoi (1, 1 / 2, 0)).1
        ((exampleRoi.y1 - exampleRoi.y1) * 8 + (exampleRoi.x1 - exampleRoi.x1) + 0 * 8 +
          1 * 4 + 3) = 255 ∧
      ∀ division ∈ (convertNatronImageToCairoImageChecked exampleToUChar 1 (fun _ => 7) 4 8
          examplePaintedImage exampleRoi exampleRoi (1, 1 / 2, 0)).2,
        ((1 : ℚ) ≠ 0 → division.2 = false) ∧ (division.1 = 0 → (1, 1 / 2, 0).2.2 ≠ (0 : ℚ)) ∧
          (division.1 = 1 → (1, 1 / 2, 0).2.1 ≠ (0 : ℚ)) ∧
          (division.1 = 2 → (1, 1 / 2, 0).1 ≠ (0 : ℚ)) ∧ division.1 < 3 :=
  convertNatronImageToCairoImage_four_to_four exampleToUChar 1 (fun _ => 7) 8
    examplePaintedImage exampleRoi exampleRoi (1, 1 / 2, 0) 1 0 (by decide!) rfl (by decide)
    (by decide) (by decide)

/-- The bytes of the pixel `(1, 0)` in that run: 0 for the blue component, whose shape colour
is 0, then 127 and 127, and 255; and the divisions of that run: for each of the four pixels of
the region, none for the byte 0, and two, neither by zero, for each of the bytes 1 and 2. -/
theorem convertNatronImageToCairoImage_example :
    (convertNatronImageToCairoImageChecked exampleToUChar 1 (fun _ => 7) 4 8 examplePaintedImage
        exampleRoi exampleRoi (1, 1 / 2, 0)).1 4 = 0 ∧
      (convertNatronImageToCairoImageChecked exampleToUChar 1 (fun _ => 7) 4 8
        examplePaintedImage exampleRoi exampleRoi (1, 1 / 2, 0)).1 5 = 127 ∧
      (convertNatronImageToCairoImageChecked exampleToUChar 1 (fun _ => 7) 4 8
        examplePaintedImage exampleRoi exampleRoi (1, 1 / 2, 0)).1 6 = 127 ∧
      (convertNatronImageToCairoImageChecked exampleToUChar 1 (fun _ => 7) 4 8
        examplePaintedImage exampleRoi exampleRoi (1, 1 / 2, 0)).1 7 = 255 ∧
      (convertNatronImageToCairoImageChecked exampleToUChar 1 (fun _ => 7) 4 8
        examplePaintedImage exampleRoi exampleRoi (1, 1 / 2, 0)).2 =
        [(1, false), (1, false), (2, false), (2, false),
          (1, false), (1, false), (2, false), (2, false),
          (1, false), (1, false), (2, false), (2, false),
          (1, false), (1, false), (2, false), (2, false)] := by
  decide!

/-- With a shape colour all of whose components are 0 the conversion of four components to
four bytes performs no division at all. -/
theorem convertNatronImageToCairoImage_black :
    (convertNatronImageToCairoImageChecked exampleToUChar 1 (fun _ => 7) 4 8 examplePaintedImage
        exampleRoi exampleRoi (0, 0, 0)).2 = [] ∧
      (convertNatronImageToCairoImageChecked exampleToUChar 1 (fun _ => 7) 4 8
        examplePaintedImage exampleRoi exampleRoi (0, 0, 0)).1 4 = 0 := by
  decide!


/-! ## The round trip of an image through a surface -/

/-- The error of the quantization of a value `m >= 0` to the byte `floor (255 m)`. -/
theorem floor_toNat_error (m : ℚ) (h0 : 0 ≤ m) :
    0 ≤ m - ((⌊m * 255⌋.toNat : Nat) : ℚ) / 255 ∧
      m - ((⌊m * 255⌋.toNat : Nat) : ℚ) / 255 < 1 / 255 := by
  have hf : (0 : Int) ≤ ⌊m * 255⌋ := Int.floor_nonneg.mpr (by positivity)
  have hcast : ((⌊m * 255⌋.toNat : Nat) : ℚ) = ((⌊m * 255⌋ : Int) : ℚ) := by
    have := Int.toNat_of_nonneg hf
    exact_mod_cast this
  rw [hcast]
  have h1 : ((⌊m * 255⌋ : Int) : ℚ) ≤ m * 255 := Int.floor_le _
  have h2 : m * 255 < ((⌊m * 255⌋ : Int) : ℚ) + 1 := Int.lt_floor_add_one _
  constructor
  · linarith
  · linarith

/-- The round trip of a pixel, in closed form: the value read back is computed from the first
byte written for the pixel. -/
theorem roundTrip_value (toUChar : ℚ → Nat) (cairoImg : SurfaceData) (stride : Int)
    (image : Image) (roi : RectI) (shapeColor : ℚ × ℚ × ℚ) (useOpacity : Bool) (x y : Int)
    (c : Nat) (hcomps : image.nComps = 1 ∨ image.nComps = 4)
    (hx : 0 ≤ x ∧ x < roi.width) (hy : 0 ≤ y ∧ y < roi.height) (hc : c < image.nComps)
    (hstride : roi.width * image.nComps ≤ stride) :
    (convertCairoImageToNatronImage_noColor id 1
        (convertNatronImageToCairoImage toUChar 1 cairoImg image.nComps stride image roi roi
          shapeColor)
        stride image.nComps image roi shapeColor 1 false useOpacity).get (roi.x1 + x)
        (roi.y1 + y) c =
      natronPixelValue id image.nComps useOpacity
        ((natronToCairoByte toUChar 1 image.nComps image.nComps shapeColor
          (fun k => image.data (roi.y1 + y) (roi.x1 * image.nComps + k)) x 0 : Nat) / 255 * 1)
        (if useOpacity then shapeColor.1 * 1 else shapeColor.1)
        (if useOpacity then shapeColor.2.1 * 1 else shapeColor.2.1)
        (if useOpacity then shapeColor.2.2 * 1 else shapeColor.2.2) 1 c := by
  have h14 : image.nComps = 1 ∨ image.nComps = 2 ∨ image.nComps = 3 ∨ image.nComps = 4 := by
    rcases hcomps with h | h
    · exact Or.inl h
    · exact Or.inr (Or.inr (Or.inr h))
  have hn0 : 0 < image.nComps := by omega
  obtain ⟨s1, _, s3⟩ := convertCairoImageToNatronImageForInverted_noColor_spec id 1
    image.nComps image.nComps useOpacity false
    (convertNatronImageToCairoImage toUChar 1 cairoImg image.nComps stride image roi roi
      shapeColor) stride image roi shapeColor 1 h14 rfl (by omega)
  have hbyte := (convertNatronImageToCairoImageForComponents_spec toUChar 1 image.nComps
    image.nComps cairoImg stride image roi roi shapeColor hcomps (by omega) hstride).2 x y 0
    hx.1 hx.2 hy.1 hy.2 hn0
  have hconv : convertNatronImageToCairoImage toUChar 1 cairoImg image.nComps stride image roi
      roi shapeColor = convertNatronImageToCairoImageForComponents toUChar 1 image.nComps
        image.nComps cairoImg stride image roi roi shapeColor := by
    rw [convertNatronImageToCairoImage, if_pos h14, if_pos hcomps]
  have hoff : (roi.y1 - roi.y1) * stride + (roi.x1 - roi.x1) + y * stride +
      x * (image.nComps : Int) + ((0 : Nat) : Int) = y * stride + x * image.nComps := by
    push_cast; ring
  rw [hoff, ← hconv] at hbyte
  rw [Image.get, convertCairoImageToNatronImage_noColor, if_pos h14, if_pos hcomps, s1,
    s3 x y c hx.1 hx.2 hy.1 hy.2 hc, hbyte]
  simp [cairoPixelOf]

/-- C13, amended: the conversion of a float image to a surface and back, with the opacity 1
and no inversion, the region being the bounds of the surface and its rows fitting in the
stride, gives back a pixel within 1/255 of the original when the conversion to a byte
truncates, and either the image has one component and the value of the pixel is between 0 and
1, or the image has four components, the blue component of the shape colour is not 0, the
components of the shape colour are at most 1 in absolute value, and the pixel is `m` times
`(r, g, b, 1)` for the shape colour `(r, g, b)` and a coverage `m` between 0 and 1. -/
theorem roundTrip_within_tolerance (toUChar : ℚ → Nat) (cairoImg : SurfaceData) (stride : Int)
    (image : Image) (roi : RectI) (shapeColor : ℚ × ℚ × ℚ) (useOpacity : Bool) (x y : Int)
    (c : Nat)
    (htrunc : ∀ q : ℚ, 0 ≤ q → q < 256 → toUChar q = ⌊q⌋.toNat)
    (hcomps : image.nComps = 1 ∨ image.nComps = 4)
    (hx : 0 ≤ x ∧ x < roi.width) (hy : 0 ≤ y ∧ y < roi.height) (hc : c < image.nComps)
    (hstride : roi.width * image.nComps ≤ stride)
    (hone : image.nComps = 1 → 0 ≤ image.get (roi.x1 + x) (roi.y1 + y) 0 ∧
      image.get (roi.x1 + x) (roi.y1 + y) 0 ≤ 1)
    (hfour : image.nComps = 4 → shapeColor.2.2 ≠ 0 ∧ |shapeColor.1| ≤ 1 ∧
      |shapeColor.2.1| ≤ 1 ∧ |shapeColor.2.2| ≤ 1 ∧
      ∃ m : ℚ, 0 ≤ m ∧ m ≤ 1 ∧
        image.get (roi.x1 + x) (roi.y1 + y) 0 = m * shapeColor.1 ∧
        image.get (roi.x1 + x) (roi.y1 + y) 1 = m * shapeColor.2.1 ∧
        image.get (roi.x1 + x) (roi.y1 + y) 2 = m * shapeColor.2.2 ∧
        image.get (roi.x1 + x) (roi.y1 + y) 3 = m) :
    |(convertCairoImageToNatronImage_noColor id 1
        (convertNatronImageToCairoImage toUChar 1 cairoImg image.nComps stride image roi roi
          shapeColor)
        stride image.nComps image roi shapeColor 1 false useOpacity).get (roi.x1 + x)
        (roi.y1 + y) c - image.get (roi.x1 + x) (roi.y1 + y) c| ≤ 1 / 255 := by
  rw [roundTrip_value toUChar cairoImg stride image roi shapeColor useOpacity x y c hcomps hx hy
    hc hstride]
  have hget : ∀ (k : Int) (j : Nat), k = x * image.nComps + j →
      image.data (roi.y1 + y) (roi.x1 * image.nComps + k) =
        image.get (roi.x1 + x) (roi.y1 + y) j := by
    intro k j hk
    rw [Image.get, hk]
    congr 1
    ring
  have hscale : ∀ m s : ℚ, 0 ≤ m → m ≤ 1 → |s| ≤ 1 →
      |((⌊m * 255⌋.toNat : Nat) : ℚ) / 255 * s - m * s| ≤ 1 / 255 := by
    intro m s h0 _ hs
    obtain ⟨e1, e2⟩ := floor_toNat_error m h0
    have e : ((⌊m * 255⌋.toNat : Nat) : ℚ) / 255 * s - m * s =
        -((m - ((⌊m * 255⌋.toNat : Nat) : ℚ) / 255) * s) := by ring
    rw [e, abs_neg, abs_mul, abs_of_nonneg e1]
    calc (m - ((⌊m * 255⌋.toNat : Nat) : ℚ) / 255) * |s|
        ≤ (1 / 255) * 1 := mul_le_mul (le_of_lt e2) hs (abs_nonneg _) (by norm_num)
      _ = 1 / 255 := by norm_num
  rcases hcomps with h1 | h4
  · obtain ⟨p0, p1⟩ := hone h1
    have hc0 : c = 0 := by omega
    subst hc0
    have hbyte : natronToCairoByte toUChar 1 image.nComps image.nComps shapeColor
        (fun k => image.data (roi.y1 + y) (roi.x1 * image.nComps + k)) x 0 =
        ⌊image.get (roi.x1 + x) (roi.y1 + y) 0 * 255⌋.toNat := by
      rw [natronToCairoByte, if_pos h1]
      rw [hget _ 0 (by push_cast; ring), div_one]
      exact htrunc _ (by positivity) (by linarith)
    rw [hbyte]
    have key := hscale (image.get (roi.x1 + x) (roi.y1 + y) 0) 1 p0 p1 (by norm_num)
    simp only [mul_one] at key
    simp only [natronPixelValue, h1, true_or, if_true, id, mul_one]
    cases useOpacity <;> simpa using key
  · obtain ⟨hb, hr1, hg1, hb1, m, m0, m1, g0, g1, g2, g3⟩ := hfour h4
    have hbyte : natronToCairoByte toUChar 1 image.nComps image.nComps shapeColor
        (fun k => image.data (roi.y1 + y) (roi.x1 * image.nComps + k)) x 0 =
        ⌊m * 255⌋.toNat := by
      have h41 : ¬ image.nComps = 1 := by omega
      rw [natronToCairoByte, if_neg h41, if_pos h4, if_pos rfl, if_neg hb]
      rw [hget _ 2 (by push_cast; ring), g2, div_one, mul_div_assoc, div_self hb, mul_one]
      exact htrunc _ (by positivity) (by linarith)
    rw [hbyte]
    have k0 := hscale m shapeColor.1 m0 m1 hr1
    have k1 := hscale m shapeColor.2.1 m0 m1 hg1
    have k2 := hscale m shapeColor.2.2 m0 m1 hb1
    have k3 := hscale m 1 m0 m1 (by norm_num)
    simp only [mul_one] at k3
    have h41 : ¬ image.nComps = 1 := by omega
    have hc4 : c < 4 := by omega
    interval_cases c
    · rw [g0]
      simp only [natronPixelValue, h41, false_or, if_true, if_false, id, mul_one]
      cases useOpacity <;> simpa using k0
    · rw [g1]
      simp only [natronPixelValue, h41, false_or, if_true, if_false, id, mul_one]
      cases useOpacity <;> simpa using k1
    · rw [g2]
      simp only [natronPixelValue, h41, false_or, if_true, if_false, id, mul_one]
      cases useOpacity <;> simpa using k2
    · rw [g3]
      simp only [natronPixelValue, h41, false_or, if_true, if_false, id, mul_one]
      cases useOpacity <;> simpa using k3

/-- The conversion `exampleToUChar` truncates the values that a byte can hold. -/
theorem exampleToUChar_truncates (q : ℚ) (h0 : 0 ≤ q) (h1 : q < 256) :
    exampleToUChar q = ⌊q⌋.toNat := by
  have hf : ⌊q⌋ < 256 := Int.floor_lt.mpr (by exact_mod_cast h1)
  rw [exampleToUChar, truncToInt, if_pos h0]
  exact Nat.mod_eq_of_lt (by omega)

/-- A concrete instance: the red component of the pixel `(1, 0)` of an
image all of whose pixels are `1/2` times `(1, 1/2, 1/4, 1)`, with the shape colour
`(1, 1/2, 1/4)`. -/
theorem roundTrip_within_tolerance_witness :
    |(convertCairoImageToNatronImage_noColor id 1
        (convertNatronImageToCairoImage exampleToUChar 1 (fun _ => 0)
          examplePaintedImage.nComps 8 examplePaintedImage exampleRoi exampleRoi
          (1, 1 / 2, 1 / 4))
        8 examplePaintedImage.nComps examplePaintedImage exampleRoi (1, 1 / 2, 1 / 4) 1 false
        true).get (exampleRoi.x1 + 1) (exampleRoi.y1 + 0) 0 -
      examplePaintedImage.get (exampleRoi.x1 + 1) (exampleRoi.y1 + 0) 0| ≤ 1 / 255 :=
  roundTrip_within_tolerance exampleToUChar (fun _ => 0) 8 examplePaintedImage exampleRoi
    (1, 1 / 2, 1 / 4) true 1 0 0 exampleToUChar_truncates (Or.inr rfl) (by decide) (by decide)
    (by decide) (by decide) (fun h => absurd h (by decide))
    (fun _ => ⟨by decide!, by decide!, by decide!, by decide!, 1 / 2, by decide!, by decide!,
      by decide!, by decide!, by decide!, by decide!⟩)

/-- C13, counterexample: a float image of four components whose pixels are the opaque red
`(1, 0, 0, 1)`, converted to a surface of four bytes per pixel with the shape colour
`(1, 0, 0)` and converted back with the opacity 1 and no inversion, has all the components of
its pixel `(0, 0)` equal to 0: the red and alpha components, which were 1, are off by 1.  The
same happens with the shape colour `(1, 1, 1)`, of which the pixel is not a multiple; and a
float image of one component whose values are `3/2` comes back with the value `126/255`. -/
theorem roundTrip_red_example :
    exampleRedImage.get 0 0 0 = 1 ∧ exampleRedImage.get 0 0 3 = 1 ∧
      (convertCairoImageToNatronImage_noColor id 1
        (convertNatronImageToCairoImage exampleToUChar 1 (fun _ => 0) 4 8 exampleRedImage
          exampleRoi exampleRoi (1, 0, 0))
        8 4 exampleRedImage exampleRoi (1, 0, 0) 1 false true).get 0 0 0 = 0 ∧
      (convertCairoImageToNatronImage_noColor id 1
        (convertNatronImageToCairoImage exampleToUChar 1 (fun _ => 0) 4 8 exampleRedImage
          exampleRoi exampleRoi (1, 0, 0))
        8 4 exampleRedImage exampleRoi (1, 0, 0) 1 false true).get 0 0 3 = 0 ∧
      (convertCairoImageToNatronImage_noColor id 1
        (convertNatronImageToCairoImage exampleToUChar 1 (fun _ => 0) 4 8 exampleRedImage
          exampleRoi exampleRoi (1, 0, 0))
        8 4 exampleRedImage exampleRoi (1, 0, 0) 1 false false).get 0 0 0 = 0 ∧
      (convertCairoImageToNatronImage_noColor id 1
        (convertNatronImageToCairoImage exampleToUChar 1 (fun _ => 0) 4 8 exampleRedImage
          exampleRoi exampleRoi (1, 1, 1))
        8 4 exampleRedImage exampleRoi (1, 1, 1) 1 false true).get 0 0 0 = 0 ∧
      exampleBrightImage.get 0 0 0 = 3 / 2 ∧
      (convertCairoImageToNatronImage_noColor id 1
        (convertNatronImageToCairoImage exampleToUChar 1 (fun _ => 0) 1 8 exampleBrightImage
          exampleRoi exampleRoi (1, 1, 1))
        8 1 exampleBrightImage exampleRoi (1, 1, 1) 1 false true).get 0 0 0 = 126 / 255 := by
  decide!


/-! ## `bezulate`: the cut made by a scan against the cut of the specification -/

/-- On the convex pentagon the scan makes the cut of the specification for the chord of length
3 at the vertex 0. -/
theorem scanAll_pentagon_is_specCut :
    ∀ setupInfinity ∈ [infiniteRect, emptyRect],
      scanAll (specEnv setupInfinity) pentagon =
        ScanOutcome.found (specCut pentagon 3 0).1 (specCut pentagon 3 0).2 := by
  decide!

/-- C19, the code at two failing inputs.  On the hexagon `(2,3), (5,3), (8,4), (8,6), (7,5),
(2,4)` the scan accepts at the vertex 3 the chord to the vertex 4, pushes the patch
`3, 4, 5, 4` and removes nothing; on the pentagon `(6,3), (3,3), (4,2), (7,3), (0,5)` it
accepts at the last vertex the chord to the vertex 0, pushes the patch `4, 0, 1, 0` and
removes every vertex.  Neither result is the cut of the specification for any chord length
and any vertex. -/
theorem scanAll_differs_from_specCut :
    4 < hexagon.length ∧ 4 < wrapPentagon.length ∧
    ∀ setupInfinity ∈ [infiniteRect, emptyRect],
      (scanAll (specEnv setupInfinity) hexagon =
          ScanOutcome.found [cornerCP 8 6, cornerCP 7 5, cornerCP 2 4, cornerCP 7 5] hexagon ∧
        ∀ n ∈ [3, 2], ∀ i ∈ List.range 6,
          scanAll (specEnv setupInfinity) hexagon ≠
            ScanOutcome.found (specCut hexagon n i).1 (specCut hexagon n i).2) ∧
      (scanAll (specEnv setupInfinity) wrapPentagon =
          ScanOutcome.found [cornerCP 0 5, cornerCP 6 3, cornerCP 3 3, cornerCP 6 3] [] ∧
        ∀ n ∈ [3, 2], ∀ i ∈ List.range 5,
          scanAll (specEnv setupInfinity) wrapPentagon ≠
            ScanOutcome.found (specCut wrapPentagon n i).1 (specCut wrapPentagon n i).2) := by
  decide!

/-- C20, the code at a failing input.  On the hexagon `(4,0), (0,8), (8,3), (8,0), (4,2),
(3,4)` the scan accepts the chord from the vertex 1 to the vertex 4 and cuts the patch
`1, 2, 3, 4`, although the chord has three intersection points with the closed polygon: its
two ends and the point `(16/5, 16/5)` where it crosses the edge from the last vertex to the
first, which the loop over the edges leaves out. -/
theorem scanAll_accepts_chord_across_closing_edge :
    4 < crossedHexagon.length ∧
    ∀ setupInfinity ∈ [infiniteRect, emptyRect],
      scanAll (specEnv setupInfinity) crossedHexagon =
          ScanOutcome.found [cornerCP 0 8, cornerCP 8 3, cornerCP 8 0, cornerCP 4 2]
            [cornerCP 4 0, cornerCP 0 8, cornerCP 4 2, cornerCP 3 4] ∧
        chordIntersections (specEnv setupInfinity) ⟨0, 8⟩ ⟨4, 2⟩
          (polygonAndBBox (specEnv setupInfinity) crossedHexagon).1 = [⟨0, 8⟩, ⟨4, 2⟩] ∧
        specChordIntersections (specEnv setupInfinity) ⟨0, 8⟩ ⟨4, 2⟩
          (polygonAndBBox (specEnv setupInfinity) crossedHexagon).1 =
          [⟨0, 8⟩, ⟨4, 2⟩, ⟨16 / 5, 16 / 5⟩] := by
  decide!


/-! ## `renderDot_cairo`: the pressure level and the pattern cache -/

/-- The value truncated in `pressureInt` is at least `1/2`, so the truncation is a floor. -/
theorem pressureInt_eq_floor (levels : Nat) (hL : 0 < levels) (pressure : ℚ) :
    pressureInt levels pressure =
      ⌊max 0 (min pressure 1) * ((levels : ℚ) - 1) + 1 / 2⌋ := by
  have h1 : (1 : ℚ) ≤ levels := by exact_mod_cast hL
  have h0 : (0 : ℚ) ≤ max 0 (min pressure 1) := le_max_left _ _
  have h : (0 : ℚ) ≤ max 0 (min pressure 1) * ((levels : ℚ) - 1) + 1 / 2 := by
    have := mul_nonneg h0 (sub_nonneg.mpr h1)
    linarith
  rw [pressureInt, truncToInt, if_pos h]

/-- C25: for every pressure and every positive number of levels `L`, the quantized level
`int (clamp (pressure, 0, 1) * (L - 1) + 0.5)` lies in `[0, L - 1]`; it is 0 for a pressure at
most 0, `L - 1` for a pressure at least 1, and it is non-decreasing in the pressure. -/
theorem pressureInt_in_range (levels : Nat) (hL : 0 < levels) :
    (∀ pressure : ℚ, 0 ≤ pressureInt levels pressure ∧ pressureInt levels pressure < levels) ∧
      (∀ pressure : ℚ, pressure ≤ 0 → pressureInt levels pressure = 0) ∧
      (∀ pressure : ℚ, 1 ≤ pressure → pressureInt levels pressure = (levels : Int) - 1) ∧
      (∀ p q : ℚ, p ≤ q → pressureInt levels p ≤ pressureInt levels q) := by
  have h1 : (1 : ℚ) ≤ levels := by exact_mod_cast hL
  have hL0 : (0 : ℚ) ≤ (levels : ℚ) - 1 := sub_nonneg.mpr h1
  refine ⟨?_, ?_, ?_, ?_⟩
  · intro pressure
    rw [pressureInt_eq_floor levels hL]
    have h0 : (0 : ℚ) ≤ max 0 (min pressure 1) := le_max_left _ _
    have hc1 : max 0 (min pressure 1) ≤ (1 : ℚ) := max_le (by norm_num) (min_le_right _ _)
    have hm : max 0 (min pressure 1) * ((levels : ℚ) - 1) ≤ 1 * ((levels : ℚ) - 1) :=
      mul_le_mul_of_nonneg_right hc1 hL0
    constructor
    · apply Int.floor_nonneg.mpr
      have := mul_nonneg h0 hL0
      linarith
    · apply Int.floor_lt.mpr
      push_cast
      linarith
  · intro pressure hp
    rw [pressureInt_eq_floor levels hL]
    have hc : max 0 (min pressure 1) = (0 : ℚ) :=
      max_eq_left (le_trans (min_le_left _ _) hp)
    rw [hc, Int.floor_eq_iff]
    norm_num
  · intro pressure hp
    rw [pressureInt_eq_floor levels hL]
    have hc : max 0 (min pressure 1) = (1 : ℚ) := by
      rw [min_eq_right hp]
      exact max_eq_right (by norm_num)
    rw [hc, Int.floor_eq_iff]
    push_cast
    constructor <;> linarith
  · intro p q hpq
    rw [pressureInt_eq_floor levels hL, pressureInt_eq_floor levels hL]
    apply Int.floor_mono
    have hc : max 0 (min p 1) ≤ max (0 : ℚ) (min q 1) :=
      max_le_max (le_refl _) (min_le_min hpq (le_refl _))
    have := mul_le_mul_of_nonneg_right hc hL0
    linarith

/-- An instance with 10 pressure levels. -/
theorem pressureInt_in_range_witness :
    0 < 10 ∧
    (∀ pressure : ℚ, 0 ≤ pressureInt 10 pressure ∧ pressureInt 10 pressure < (10 : Nat)) ∧
      (∀ pressure : ℚ, pressure ≤ 0 → pressureInt 10 pressure = 0) ∧
      (∀ pressure : ℚ, 1 ≤ pressure → pressureInt 10 pressure = ((10 : Nat) : Int) - 1) ∧
      (∀ p q : ℚ, p ≤ q → pressureInt 10 p ≤ pressureInt 10 q) :=
  ⟨by decide, pressureInt_in_range 10 (by decide)⟩


/-- Every slot of the vector made of null pointers is null. -/
theorem emptyDotPatterns_getD (levels i : Nat) :
    (emptyDotPatterns levels).getD i none = none := by
  rw [emptyDotPatterns, List.getD_eq_getElem?_getD]
  by_cases h : i < levels
  · simp [List.getElem?_replicate, h]
  · simp [List.getElem?_replicate, h]

/-- C24, as stated, fails: with the cache of 10 null slots that `renderMaskInternal_cairo`
makes, a dab at the pressure `1/2` builds a pattern and leaves the 10 slots null, and a second
dab at the same pressure, given the cache left by the first, builds a pattern again. -/
theorem renderDot_cairo_builds_twice :
    (renderDot_cairo 10 (some (emptyDotPatterns 10)) ⟨3, 4⟩ 1 2 (1 / 2) true [(0, 1), (1, 0)]
        1).created = true ∧
      (renderDot_cairo 10 (some (emptyDotPatterns 10)) ⟨3, 4⟩ 1 2 (1 / 2) true [(0, 1), (1, 0)]
        1).dotPatterns = some (emptyDotPatterns 10) ∧
      pressureInt 10 (1 / 2) = 5 ∧
      (renderDot_cairo 10
        (renderDot_cairo 10 (some (emptyDotPatterns 10)) ⟨3, 4⟩ 1 2 (1 / 2) true
          [(0, 1), (1, 0)] 1).dotPatterns
        ⟨5, 4⟩ 1 2 (1 / 2) true [(0, 1), (1, 0)] 1).created = true := by
  decide!

/-- C24, amended: `renderDot_cairo` leaves the vector of cached patterns as it was.  A dab
with opacity stops uses the pattern of the slot of its pressure level when that slot is not
null, and builds a new pattern from its radii and its stops otherwise; on the vector of null
slots it builds a new pattern, whatever the pressure. -/
theorem renderDot_cairo_cache (levels : Nat) (dotPatterns : Option (List (Option RadialPattern)))
    (center : Point) (internalDotRadius externalDotRadius pressure : ℚ) (doBuildUp : Bool)
    (opacityStops : List (ℚ × ℚ)) (opacity : ℚ) (hstops : opacityStops ≠ []) :
    (renderDot_cairo levels dotPatterns center internalDotRadius externalDotRadius pressure
        doBuildUp opacityStops opacity).dotPatterns = dotPatterns ∧
      (∀ pattern : RadialPattern,
        dotPatterns.bind (fun patterns => patterns.getD (pressureInt levels pressure).toNat none)
            = some pattern →
          (renderDot_cairo levels dotPatterns center internalDotRadius externalDotRadius
            pressure doBuildUp opacityStops opacity).source = DotSource.pattern pattern ∧
          (renderDot_cairo levels dotPatterns center internalDotRadius externalDotRadius
            pressure doBuildUp opacityStops opacity).created = false) ∧
      (dotPatterns.bind (fun patterns => patterns.getD (pressureInt levels pressure).toNat none)
            = none →
          (renderDot_cairo levels dotPatterns center internalDotRadius externalDotRadius
            pressure doBuildUp opacityStops opacity).source =
            DotSource.pattern
              ⟨internalDotRadius, externalDotRadius, colorStops doBuildUp opacityStops⟩ ∧
          (renderDot_cairo levels dotPatterns center internalDotRadius externalDotRadius
            pressure doBuildUp opacityStops opacity).created = true) ∧
      (renderDot_cairo levels (some (emptyDotPatterns levels)) center internalDotRadius
        externalDotRadius pressure doBuildUp opacityStops opacity).created = true ∧
      (renderDot_cairo levels (some (emptyDotPatterns levels)) center internalDotRadius
        externalDotRadius pressure doBuildUp opacityStops opacity).dotPatterns =
        some (emptyDotPatterns levels) := by
  have hne : (!opacityStops.isEmpty) = true := by
    cases opacityStops with
    | nil => exact absurd rfl hstops
    | cons a l => rfl
  have key : ∀ dp : Option (List (Option RadialPattern)),
      (renderDot_cairo levels dp center internalDotRadius externalDotRadius pressure
        doBuildUp opacityStops opacity).dotPatterns = dp ∧
      (∀ pattern : RadialPattern,
        dp.bind (fun patterns => patterns.getD (pressureInt levels pressure).toNat none)
            = some pattern →
          (renderDot_cairo levels dp center internalDotRadius externalDotRadius
            pressure doBuildUp opacityStops opacity).source = DotSource.pattern pattern ∧
          (renderDot_cairo levels dp center internalDotRadius externalDotRadius
            pressure doBuildUp opacityStops opacity).created = false) ∧
      (dp.bind (fun patterns => patterns.getD (pressureInt levels pressure).toNat none)
            = none →
          (renderDot_cairo levels dp center internalDotRadius externalDotRadius
            pressure doBuildUp opacityStops opacity).source =
            DotSource.pattern
              ⟨internalDotRadius, externalDotRadius, colorStops doBuildUp opacityStops⟩ ∧
          (renderDot_cairo levels dp center internalDotRadius externalDotRadius
            pressure doBuildUp opacityStops opacity).created = true) := by
    intro dp
    cases hslot : dp.bind
      (fun patterns => patterns.getD (pressureInt levels pressure).toNat none) with
    | none =>
      refine ⟨?_, ?_, ?_⟩
      · simp only [renderDot_cairo, hne, if_true, hslot]
      · intro pattern h; exact absurd h (by simp)
      · intro _; simp only [renderDot_cairo, hne, if_true, hslot, and_self]
    | some p =>
      refine ⟨?_, ?_, ?_⟩
      · simp only [renderDot_cairo, hne, if_true, hslot]
      · intro pattern h
        have hp : p = pattern := Option.some.inj h
        subst hp
        simp only [renderDot_cairo, hne, if_true, hslot, and_self]
      · intro h; exact absurd h (by simp)
  obtain ⟨k1, k2, k3⟩ := key dotPatterns
  obtain ⟨e1, _, e3⟩ := key (some (emptyDotPatterns levels))
  refine ⟨k1, k2, k3, (e3 ?_).2, e1⟩
  simp only [Option.bind, emptyDotPatterns_getD]

/-- A concrete instance: a dab with two stops at the pressure `1/2` on the vector of 10 null
slots. -/
theorem renderDot_cairo_cache_witness :
    ([(0, 1), (1, 0)] : List (ℚ × ℚ)) ≠ [] ∧
      (renderDot_cairo 10 (some (emptyDotPatterns 10)) ⟨3, 4⟩ 1 2 (1 / 2) true [(0, 1), (1, 0)]
        1).dotPatterns = some (emptyDotPatterns 10) :=
  ⟨by decide, (renderDot_cairo_cache 10 (some (emptyDotPatterns 10)) ⟨3, 4⟩ 1 2 (1 / 2) true
    [(0, 1), (1, 0)] 1 (by decide)).1⟩


/-- The callback of a stroke never changes the vector of cached patterns: whatever the dab,
the vector in the user data is the same after the call. -/
theorem renderStrokeRenderDot_cairo_keeps_cache (pow : ℚ → ℚ → ℚ) (levels : Nat)
    (myData : RenderStrokeCairoData) (center : Point) (pressure : ℚ) :
    (renderStrokeRenderDot_cairo pow levels myData center pressure).dotPatterns =
      myData.dotPatterns := by
  have h : ∀ (dp : Option (List (Option RadialPattern))) (i e : ℚ) (b : Bool)
      (stops : List (ℚ × ℚ)) (o : ℚ),
      (renderDot_cairo levels dp center i e pressure b stops o).dotPatterns = dp := by
    intro dp i e b stops o
    unfold renderDot_cairo
    split
    · dsimp only
      cases dp.bind (fun patterns => patterns.getD (pressureInt levels pressure).toNat none)
        <;> rfl
    · split <;> rfl
  exact h _ _ _ _ _ _

/-! ## `qpointf_compare_less` as an ordering -/

/-- C26, as stated, fails: `(0, 0)` is equivalent to `(6/10000000, 0)`, which is equivalent to
`(12/10000000, 0)`, but `(0, 0)` is less than `(12/10000000, 0)`; and `(12/10000000, 0)` is
less than `(6/10000000, 1)`, which is less than `(0, 2)`, but `(12/10000000, 0)` is not less
than `(0, 2)`. -/
theorem qpointf_compare_less_not_transitive :
    (qpointf_compare_less ⟨0, 0⟩ ⟨6 / 10000000, 0⟩ = false ∧
        qpointf_compare_less ⟨6 / 10000000, 0⟩ ⟨0, 0⟩ = false) ∧
      (qpointf_compare_less ⟨6 / 10000000, 0⟩ ⟨12 / 10000000, 0⟩ = false ∧
        qpointf_compare_less ⟨12 / 10000000, 0⟩ ⟨6 / 10000000, 0⟩ = false) ∧
      qpointf_compare_less ⟨0, 0⟩ ⟨12 / 10000000, 0⟩ = true ∧
      qpointf_compare_less ⟨12 / 10000000, 0⟩ ⟨6 / 10000000, 1⟩ = true ∧
      qpointf_compare_less ⟨6 / 10000000, 1⟩ ⟨0, 2⟩ = true ∧
      qpointf_compare_less ⟨12 / 10000000, 0⟩ ⟨0, 2⟩ = false := by
  decide!

/-- C26, amended: `qpointf_compare_less` is irreflexive and asymmetric, and two points are
equivalent (neither is less than the other) exactly when both their coordinates differ by
less than `1e-6`. -/
theorem qpointf_compare_less_properties :
    (∀ a : Point, qpointf_compare_less a a = false) ∧
      (∀ a b : Point, qpointf_compare_less a b = true → qpointf_compare_less b a = false) ∧
      (∀ a b : Point,
        (qpointf_compare_less a b = false ∧ qpointf_compare_less b a = false) ↔
          (|a.x - b.x| < 1 / 1000000 ∧ |a.y - b.y| < 1 / 1000000)) := by
  have hsym : ∀ u v : ℚ, |u - v| = |v - u| := fun u v => abs_sub_comm u v
  have hlt : ∀ u v : ℚ, ¬ |u - v| < 1 / 1000000 → u < v ∨ v < u := by
    intro u v h
    rcases lt_trichotomy u v with h1 | h1 | h1
    · exact Or.inl h1
    · exact absurd (by rw [h1, sub_self, abs_zero]; norm_num) h
    · exact Or.inr h1
  refine ⟨?_, ?_, ?_⟩
  · intro a
    simp [qpointf_compare_less]
  · intro a b h
    unfold qpointf_compare_less at h ⊢
    rw [hsym b.x a.x, hsym b.y a.y]
    by_cases hx : |a.x - b.x| < 1 / 1000000
    · rw [if_pos hx] at h ⊢
      by_cases hy : |a.y - b.y| < 1 / 1000000
      · rw [if_pos hy] at h; exact absurd h (by decide)
      · rw [if_neg hy] at h ⊢
        by_cases hl : a.y < b.y
        · rw [if_neg (not_lt.mpr (le_of_lt hl))]
        · rw [if_neg hl] at h; exact absurd h (by decide)
    · rw [if_neg hx] at h ⊢
      by_cases hl : a.x < b.x
      · rw [if_neg (not_lt.mpr (le_of_lt hl))]
      · rw [if_neg hl] at h; exact absurd h (by decide)
  · intro a b
    unfold qpointf_compare_less
    rw [hsym b.x a.x, hsym b.y a.y]
    by_cases hx : |a.x - b.x| < 1 / 1000000
    · rw [if_pos hx, if_pos hx]
      by_cases hy : |a.y - b.y| < 1 / 1000000
      · rw [if_pos hy, if_pos hy]
        exact ⟨fun _ => ⟨hx, hy⟩, fun _ => ⟨rfl, rfl⟩⟩
      · rw [if_neg hy, if_neg hy]
        constructor
        · intro h
          rcases hlt a.y b.y hy with hl | hl
          · rw [if_pos hl] at h; exact absurd h.1 (by decide)
          · rw [if_pos hl] at h; exact absurd h.2 (by decide)
        · intro h; exact absurd h.2 hy
    · rw [if_neg hx, if_neg hx]
      constructor
      · intro h
        rcases hlt a.x b.x hx with hl | hl
        · rw [if_pos hl] at h; exact absurd h.1 (by decide)
        · rw [if_pos hl] at h; exact absurd h.2 (by decide)
      · intro h; exact absurd h.1 hx


/-! ## `getRenderDotParams`: the order of the radii -/

/-- C29, as stated, fails: with a brush of size 10 and hardness `1/2`, and a pressure of `-1`
that affects the size and the hardness, the hardness after scaling is `-1/2`, the internal
radius is `5/2` and the external radius is `1/2`. -/
theorem getRenderDotParams_radii_example :
    (0 : ℚ) ≤ 10 ∧ (1 / 2 : ℚ) * (-1) ≤ 1 ∧
      ∀ pow : ℚ → ℚ → ℚ,
        (getRenderDotParams pow 1 10 (1 / 2) (1 / 10) (-1) false true true
          none).internalDotRadius = 5 / 2 ∧
        (getRenderDotParams pow 1 10 (1 / 2) (1 / 10) (-1) false true true
          none).externalDotRadius = 1 / 2 := by
  refine ⟨by norm_num, by norm_num, fun pow => ⟨?_, ?_⟩⟩
  · simp only [getRenderDotParams, if_true]
    norm_num
  · simp only [getRenderDotParams, if_true]
    norm_num

/-- C29, amended: for every brush size that is at least 0 after the pressure scaling (a size
at least 0, and a pressure at least 0 when the pressure affects the size) and every hardness
that is at most 1 after the pressure scaling, `getRenderDotParams` returns radii with
`1/2 <= internalRadius <= externalRadius`. -/
theorem getRenderDotParams_radii_ordered (pow : ℚ → ℚ → ℚ)
    (alpha brushSizePixel brushHardness brushSpacing pressure : ℚ)
    (pressureAffectsOpacity pressureAffectsSize pressureAffectsHardness : Bool)
    (opacityStops : Option (List (ℚ × ℚ)))
    (hsize : 0 ≤ (if pressureAffectsSize then brushSizePixel * pressure else brushSizePixel))
    (hhard : (if pressureAffectsHardness then brushHardness * pressure else brushHardness) ≤ 1) :
    1 / 2 ≤ (getRenderDotParams pow alpha brushSizePixel brushHardness brushSpacing pressure
        pressureAffectsOpacity pressureAffectsSize pressureAffectsHardness
        opacityStops).internalDotRadius ∧
      (getRenderDotParams pow alpha brushSizePixel brushHardness brushSpacing pressure
        pressureAffectsOpacity pressureAffectsSize pressureAffectsHardness
        opacityStops).internalDotRadius ≤
      (getRenderDotParams pow alpha brushSizePixel brushHardness brushSpacing pressure
        pressureAffectsOpacity pressureAffectsSize pressureAffectsHardness
        opacityStops).externalDotRadius := by
  have e1 : (getRenderDotParams pow alpha brushSizePixel brushHardness brushSpacing pressure
        pressureAffectsOpacity pressureAffectsSize pressureAffectsHardness
        opacityStops).internalDotRadius =
      max ((if pressureAffectsSize then brushSizePixel * pressure else brushSizePixel) *
        (if pressureAffectsHardness then brushHardness * pressure else brushHardness)) 1 / 2 :=
    rfl
  have e2 : (getRenderDotParams pow alpha brushSizePixel brushHardness brushSpacing pressure
        pressureAffectsOpacity pressureAffectsSize pressureAffectsHardness
        opacityStops).externalDotRadius =
      max (if pressureAffectsSize then brushSizePixel * pressure else brushSizePixel) 1 / 2 :=
    rfl
  rw [e1, e2]
  have hprod : (if pressureAffectsSize then brushSizePixel * pressure else brushSizePixel) *
      (if pressureAffectsHardness then brushHardness * pressure else brushHardness) ≤
      (if pressureAffectsSize then brushSizePixel * pressure else brushSizePixel) := by
    have := mul_le_mul_of_nonneg_left hhard hsize
    rwa [mul_one] at this
  constructor
  · have : (1 : ℚ) ≤ max ((if pressureAffectsSize then brushSizePixel * pressure
        else brushSizePixel) *
        (if pressureAffectsHardness then brushHardness * pressure else brushHardness)) 1 :=
      le_max_right _ _
    linarith
  · have : max ((if pressureAffectsSize then brushSizePixel * pressure else brushSizePixel) *
        (if pressureAffectsHardness then brushHardness * pressure else brushHardness)) 1 ≤
        max (if pressureAffectsSize then brushSizePixel * pressure else brushSizePixel) 1 :=
      max_le_max hprod (le_refl _)
    linarith

/-- A concrete instance: a brush of size 10 and hardness `3/5` at the pressure `1/2`, which
affects the size. -/
theorem getRenderDotParams_radii_ordered_witness :
    (0 : ℚ) ≤ (if true then (10 : ℚ) * (1 / 2) else 10) ∧
      (if false then (3 / 5 : ℚ) * (1 / 2) else 3 / 5) ≤ 1 ∧
      1 / 2 ≤ (getRenderDotParams (fun d _ => d) 1 10 (3 / 5) (1 / 10) (1 / 2) false true false
        none).internalDotRadius ∧
      (getRenderDotParams (fun d _ => d) 1 10 (3 / 5) (1 / 10) (1 / 2) false true false
        none).internalDotRadius ≤
      (getRenderDotParams (fun d _ => d) 1 10 (3 / 5) (1 / 10) (1 / 2) false true false
        none).externalDotRadius :=
  ⟨by norm_num, by norm_num,
    getRenderDotParams_radii_ordered (fun d _ => d) 1 10 (3 / 5) (1 / 10) (1 / 2) false true
      false none (by norm_num) (by norm_num)⟩


/-! ## The round trip of a surface through an image -/

/-- C30: for a surface of one byte per pixel and a float image of one component (`maxValue`
1), with no opacity folded in and no inversion, the conversion of the surface to the image
followed by the conversion of the image to a surface (same region, same stride, the rows of
the region fitting in the stride, the conversion to a byte truncating) gives back every byte
of the pixels of the region, and leaves the other bytes of the buffer it writes to as they
were. -/
theorem surface_roundTrip_bytes (toUChar : ℚ → Nat) (cdata buffer : SurfaceData)
    (stride : Int) (image : Image) (roi : RectI) (shapeColor : ℚ × ℚ × ℚ) (opacity : ℚ)
    (htrunc : ∀ q : ℚ, 0 ≤ q → q < 256 → toUChar q = ⌊q⌋.toNat)
    (hbyte : ∀ p, cdata p ≤ 255)
    (hcomps : image.nComps = 1) (hw : 0 ≤ roi.width) (hstride : roi.width ≤ stride) :
    (∀ x y : Int, 0 ≤ x → x < roi.width → 0 ≤ y → y < roi.height →
        convertNatronImageToCairoImage toUChar 1 buffer 1 stride
          (convertCairoImageToNatronImage_noColor id 1 cdata stride 1 image roi shapeColor
            opacity false false)
          roi roi shapeColor (y * stride + x) = cdata (y * stride + x)) ∧
      (∀ p, (∀ y : Int, 0 ≤ y → y < roi.height →
          p < y * stride ∨ y * stride + roi.width ≤ p) →
        convertNatronImageToCairoImage toUChar 1 buffer 1 stride
          (convertCairoImageToNatronImage_noColor id 1 cdata stride 1 image roi shapeColor
            opacity false false)
          roi roi shapeColor p = buffer p) := by
  have h14 : image.nComps = 1 ∨ image.nComps = 2 ∨ image.nComps = 3 ∨ image.nComps = 4 :=
    Or.inl hcomps
  have hback : convertCairoImageToNatronImage_noColor id 1 cdata stride 1 image roi shapeColor
      opacity false false =
      convertCairoImageToNatronImageForInverted_noColor id 1 1 1 false false cdata stride image
        roi shapeColor opacity := by
    rw [convertCairoImageToNatronImage_noColor, if_pos h14, if_pos (Or.inl rfl), hcomps]
  obtain ⟨s1, _, s3⟩ := convertCairoImageToNatronImageForInverted_noColor_spec id 1 1 1 false
    false cdata stride image roi shapeColor opacity (Or.inl rfl) hcomps hw
  have hn : (convertCairoImageToNatronImage_noColor id 1 cdata stride 1 image roi shapeColor
      opacity false false).nComps = 1 := by rw [hback, s1, hcomps]
  have hthere : convertNatronImageToCairoImage toUChar 1 buffer 1 stride
      (convertCairoImageToNatronImage_noColor id 1 cdata stride 1 image roi shapeColor
        opacity false false) roi roi shapeColor =
      convertNatronImageToCairoImageForComponents toUChar 1 1 1 buffer stride
        (convertCairoImageToNatronImage_noColor id 1 cdata stride 1 image roi shapeColor
          opacity false false) roi roi shapeColor := by
    rw [convertNatronImageToCairoImage, hn]
    simp
  obtain ⟨f1, f2⟩ := convertNatronImageToCairoImageForComponents_spec toUChar 1 1 1 buffer
    stride (convertCairoImageToNatronImage_noColor id 1 cdata stride 1 image roi shapeColor
      opacity false false) roi roi shapeColor (Or.inl rfl) hw (by simpa using hstride)
  rw [hthere]
  constructor
  · intro x y hx0 hx1 hy0 hy1
    have e := f2 x y 0 hx0 hx1 hy0 hy1 (by decide)
    have hoff : (roi.y1 - roi.y1) * stride + (roi.x1 - roi.x1) + y * stride +
        x * ((1 : Nat) : Int) + ((0 : Nat) : Int) = y * stride + x := by
      push_cast; ring
    rw [hoff] at e
    rw [e, natronToCairoByte, if_pos rfl, hn]
    have hel : roi.x1 * ((1 : Nat) : Int) + x * ((1 : Nat) : Int) =
        (roi.x1 + x) * ((1 : Nat) : Int) + ((0 : Nat) : Int) := by
      push_cast; ring
    rw [hel, hback, s3 x y 0 hx0 hx1 hy0 hy1 (by decide)]
    have hv : natronPixelValue id 1 false
        (cairoPixelOf 1 false (cdata (y * stride + x * ((1 : Nat) : Int))))
        (if false = true then shapeColor.1 * opacity else shapeColor.1)
        (if false = true then shapeColor.2.1 * opacity else shapeColor.2.1)
        (if false = true then shapeColor.2.2 * opacity else shapeColor.2.2) opacity 0 / 1 * 255 =
        (cdata (y * stride + x) : ℚ) := by
      simp [natronPixelValue, cairoPixelOf]
    rw [hv, htrunc _ (Nat.cast_nonneg _)
      (by have := hbyte (y * stride + x)
          have h2 : ((cdata (y * stride + x) : Nat) : ℚ) ≤ 255 := by exact_mod_cast this
          linarith)]
    simp
  · intro p hp
    apply f1 p
    intro y hy0 hy1
    rcases hp y hy0 hy1 with h | h
    · left
      have : (roi.y1 - roi.y1) * stride + (roi.x1 - roi.x1) + y * stride = y * stride := by ring
      rw [this]; exact h
    · right
      have : (roi.y1 - roi.y1) * stride + (roi.x1 - roi.x1) + y * stride +
          roi.width * ((1 : Nat) : Int) = y * stride + roi.width := by push_cast; ring
      rw [this]; exact h

/-- The values of `exampleSurface` are bytes. -/
theorem exampleSurface_byte (p : Int) : exampleSurface p ≤ 255 := by
  unfold exampleSurface
  omega

/-- A concrete instance: the byte of the pixel `(1, 1)` of a surface of stride 4, through a
float image of one component. -/
theorem surface_roundTrip_bytes_witness :
    convertNatronImageToCairoImage exampleToUChar 1 exampleSurface 1 4
        (convertCairoImageToNatronImage_noColor id 1 exampleSurface 4 1 exampleImage exampleRoi
          (1, 1, 1) 1 false false)
        exampleRoi exampleRoi (1, 1, 1) (1 * 4 + 1) = exampleSurface (1 * 4 + 1) :=
  (surface_roundTrip_bytes exampleToUChar exampleSurface exampleSurface 4 exampleImage
    exampleRoi (1, 1, 1) 1 exampleToUChar_truncates exampleSurface_byte rfl (by decide)
    (by decide)).1 1 1 (by decide) (by decide) (by decide) (by decide)


/-! ## The motion-blur loop -/

/-- When `t + k step` is the first time of the sequence `t, t + step, ...` that is beyond
`endTime`, the loop renders the `k` sub-frames before it and returns, given at least `k`
iterations. -/
theorem renderBezierLoop_returns (meshOk : ℚ → Bool) (endTime step : ℚ)
    (hmesh : ∀ t, meshOk t = true) :
    ∀ (k fuel : Nat) (t : ℚ) (frames : List ℚ), k ≤ fuel →
      endTime < t + k * step → (∀ j : Nat, j < k → t + j * step ≤ endTime) →
      renderBezierLoop meshOk endTime step fuel t frames =
        MotionBlurResult.returned
          (frames ++ (List.range k).map (fun (j : Nat) => t + j * step)) := by
  intro k
  induction k with
  | zero =>
    intro fuel t frames _ hend _
    have hnot : ¬ t ≤ endTime := by
      simp only [Nat.cast_zero, zero_mul, add_zero] at hend
      exact not_le.mpr hend
    cases fuel with
    | zero => simp [renderBezierLoop, hnot]
    | succ f => simp [renderBezierLoop, hnot]
  | succ k ih =>
    intro fuel t frames hfuel hend hle
    cases fuel with
    | zero => omega
    | succ f =>
      have h0 : t ≤ endTime := by
        have := hle 0 (Nat.succ_pos k)
        simpa using this
      rw [renderBezierLoop, if_pos h0, hmesh t]
      simp only [Bool.not_true, Bool.false_eq_true, if_false]
      rw [ih f (t + step) (frames ++ [t]) (by omega)
        (by push_cast at hend; linarith)
        (fun j hj => by
          have := hle (j + 1) (by omega)
          push_cast at this
          linarith)]
      congr 1
      rw [List.range_succ_eq_map, List.map_cons, List.map_map, List.append_assoc]
      congr 1
      simp only [List.singleton_append, Nat.cast_zero, zero_mul, add_zero, List.cons.injEq,
        true_and]
      apply List.map_congr_left
      intro j _
      simp only [Function.comp, Nat.cast_succ]
      ring

/-- C28, as stated, fails: without motion blur (`startTime = endTime`) and with a frame step
of 0, or a negative one, the loop is still running after any number of iterations. -/
theorem renderBezier_cairo_zero_step_never_returns :
    (0 : ℚ) ≤ 0 ∧
      ∀ fuel : Nat,
        renderBezier_cairo (fun _ => true) 0 0 0 fuel = MotionBlurResult.outOfFuel ∧
        renderBezier_cairo (fun _ => true) 0 0 (-1) fuel = MotionBlurResult.outOfFuel := by
  refine ⟨le_refl _, ?_⟩
  have h : ∀ (step : ℚ), step ≤ 0 → ∀ (fuel : Nat) (t : ℚ) (frames : List ℚ), t ≤ 0 →
      renderBezierLoop (fun _ => true) 0 step fuel t frames = MotionBlurResult.outOfFuel := by
    intro step hstep fuel
    induction fuel with
    | zero => intro t frames ht; simp [renderBezierLoop, ht]
    | succ f ih =>
      intro t frames ht
      rw [renderBezierLoop, if_pos ht]
      simp only [Bool.not_true, Bool.false_eq_true, if_false]
      exact ih _ _ (by linarith)
  intro fuel
  exact ⟨h 0 (le_refl _) fuel 0 [] (le_refl _), h (-1) (by norm_num) fuel 0 [] (le_refl _)⟩

/-- C28, amended: when the frame step is positive and no mesh pattern fails, the motion-blur
loop returns after `N = floor ((endTime - startTime) / step) + 1` iterations (none when this
number is not positive), having rendered the `N` sub-frames of times `startTime + k step`
for `k < N`; this is `floor ((endTime - startTime) / step) + 1` sub-frames when `startTime <=
endTime`.  When `endTime < startTime` it returns at once, whatever the step. -/
theorem renderBezier_cairo_frames (meshOk : ℚ → Bool) (startTime endTime step : ℚ)
    (fuel : Nat) (hmesh : ∀ t, meshOk t = true) (hstep : 0 < step)
    (hfuel : (⌊(endTime - startTime) / step⌋ + 1).toNat ≤ fuel) :
    renderBezier_cairo meshOk startTime endTime step fuel =
        MotionBlurResult.returned
          ((List.range (⌊(endTime - startTime) / step⌋ + 1).toNat).map
            (fun (k : Nat) => startTime + k * step)) ∧
      (startTime ≤ endTime →
        (((List.range (⌊(endTime - startTime) / step⌋ + 1).toNat).map
            (fun (k : Nat) => startTime + k * step)).length : Int) =
          ⌊(endTime - startTime) / step⌋ + 1) ∧
      (endTime < startTime → ∀ (anyStep : ℚ) (anyFuel : Nat),
        renderBezier_cairo meshOk startTime endTime anyStep anyFuel =
          MotionBlurResult.returned []) := by
  have hfl : ((⌊(endTime - startTime) / step⌋ : Int) : ℚ) ≤ (endTime - startTime) / step :=
    Int.floor_le _
  have hfl2 : (endTime - startTime) / step < ((⌊(endTime - startTime) / step⌋ : Int) : ℚ) + 1 :=
    Int.lt_floor_add_one _
  refine ⟨?_, ?_, ?_⟩
  · have key := renderBezierLoop_returns meshOk endTime step hmesh
      (⌊(endTime - startTime) / step⌋ + 1).toNat fuel startTime [] hfuel ?_ ?_
    · simpa [renderBezier_cairo] using key
    · have hN : ((⌊(endTime - startTime) / step⌋ : Int) : ℚ) + 1 ≤
          (((⌊(endTime - startTime) / step⌋ + 1).toNat : Nat) : ℚ) := by
        have : ⌊(endTime - startTime) / step⌋ + 1 ≤
            (((⌊(endTime - startTime) / step⌋ + 1).toNat : Nat) : Int) := Int.self_le_toNat _
        exact_mod_cast this
      have h1 : (endTime - startTime) / step <
          (((⌊(endTime - startTime) / step⌋ + 1).toNat : Nat) : ℚ) := lt_of_lt_of_le hfl2 hN
      have h2 := (div_lt_iff₀ hstep).mp h1
      linarith
    · intro j hj
      have hj2 : (j : Int) < ⌊(endTime - startTime) / step⌋ + 1 := by omega
      have hj3 : (j : Int) ≤ ⌊(endTime - startTime) / step⌋ := by omega
      have hj4 : (j : ℚ) ≤ ((⌊(endTime - startTime) / step⌋ : Int) : ℚ) := by exact_mod_cast hj3
      have h1 : (j : ℚ) ≤ (endTime - startTime) / step := le_trans hj4 hfl
      have h2 := (le_div_iff₀ hstep).mp h1
      linarith
  · intro hse
    have h0 : (0 : Int) ≤ ⌊(endTime - startTime) / step⌋ :=
      Int.floor_nonneg.mpr (div_nonneg (by linarith) (le_of_lt hstep))
    rw [List.length_map, List.length_range, Int.toNat_of_nonneg (by omega)]
  · intro hes anyStep anyFuel
    have hnot : ¬ startTime ≤ endTime := not_le.mpr hes
    cases anyFuel with
    | zero => simp [renderBezier_cairo, renderBezierLoop, hnot]
    | succ f => simp [renderBezier_cairo, renderBezierLoop, hnot]

/-- A concrete instance: from the time 1 to the time 2 by steps of `1/4`, five sub-frames. -/
theorem renderBezier_cairo_frames_witness :
    (0 : ℚ) < 1 / 4 ∧ (⌊((2 : ℚ) - 1) / (1 / 4)⌋ + 1).toNat ≤ 5 ∧
      renderBezier_cairo (fun _ => true) 1 2 (1 / 4) 5 =
        MotionBlurResult.returned
          ((List.range (⌊((2 : ℚ) - 1) / (1 / 4)⌋ + 1).toNat).map
            (fun (k : Nat) => (1 : ℚ) + k * (1 / 4))) :=
  ⟨by norm_num, by decide!,
    (renderBezier_cairo_frames (fun _ => true) 1 2 (1 / 4) 5 (fun _ => rfl) (by norm_num)
      (by decide!)).1⟩

/-- The five sub-frames of that run. -/
theorem renderBezier_cairo_example :
    renderBezier_cairo (fun _ => true) 1 2 (1 / 4) 5 =
      MotionBlurResult.returned [1, 5 / 4, 3 / 2, 7 / 4, 2] := by
  decide!


/-! ## `bezulate`: the subdivision and the shape of the curve -/

/-- When the handles of the two ends of a segment lie on their positions (a straight
segment), the two segments that the subdivision puts in its place, with the midpoint of the
de Casteljau construction between them, are the two halves of the segment. -/
theorem subdivision_of_straight_segment (a b : BezierCP) (ha : a.right = a.pos)
    (hb : b.left = b.pos) (t : ℚ) :
    segmentPoint a
        ⟨(specBezierFullPoint a.pos a.right b.left b.pos (1 / 2)).dest,
          (specBezierFullPoint a.pos a.right b.left b.pos (1 / 2)).p0p1_p1p2,
          (specBezierFullPoint a.pos a.right b.left b.pos (1 / 2)).p1p2_p2p3⟩ t =
        segmentPoint a b (t / 2) ∧
      segmentPoint
        ⟨(specBezierFullPoint a.pos a.right b.left b.pos (1 / 2)).dest,
          (specBezierFullPoint a.pos a.right b.left b.pos (1 / 2)).p0p1_p1p2,
          (specBezierFullPoint a.pos a.right b.left b.pos (1 / 2)).p1p2_p2p3⟩ b t =
        segmentPoint a b ((1 + t) / 2) := by
  simp only [segmentPoint, bezierPoint, specBezierFullPoint, lerpPoint, ha, hb, Point.mk.injEq]
  refine ⟨⟨?_, ?_⟩, ⟨?_, ?_⟩⟩ <;> ring

/-- C21, the code at a failing input.  On the curve `scallop` no scan finds an ear and the
curve is subdivided: it gets 10 control points, the first three being the first point of the
curve, unchanged, the de Casteljau midpoint `(2, 9/4)` of the first arch with the handles
`(5/4, 9/4)` and `(11/4, 9/4)`, and the second point of the curve, unchanged.  The segment
from the first point to the midpoint is not the first half of the arch: its point of
parameter `1/2` is `(35/32, 9/4)`, where the arch has its point of parameter `1/4` at
`(29/32, 27/16)`, and the arch does not pass through `(35/32, 9/4)` at all. -/
theorem subdivide_scallop_changes_shape :
    4 < scallop.length ∧
    ∀ setupInfinity ∈ [infiniteRect, emptyRect],
      scanAll (specEnv setupInfinity) scallop = ScanOutcome.notFound ∧
      (subdivide (specEnv setupInfinity) scallop).length = 10 ∧
      (subdivide (specEnv setupInfinity) scallop).take 3 =
        [⟨⟨0, 0⟩, ⟨0, -8⟩, ⟨1, 3⟩⟩, ⟨⟨2, 9 / 4⟩, ⟨5 / 4, 9 / 4⟩, ⟨11 / 4, 9 / 4⟩⟩,
          ⟨⟨4, 0⟩, ⟨3, 3⟩, ⟨5, 3⟩⟩] ∧
      segmentPoint ⟨⟨0, 0⟩, ⟨0, -8⟩, ⟨1, 3⟩⟩ ⟨⟨2, 9 / 4⟩, ⟨5 / 4, 9 / 4⟩, ⟨11 / 4, 9 / 4⟩⟩
        (1 / 2) = ⟨35 / 32, 9 / 4⟩ ∧
      segmentPoint ⟨⟨0, 0⟩, ⟨0, -8⟩, ⟨1, 3⟩⟩ ⟨⟨4, 0⟩, ⟨3, 3⟩, ⟨5, 3⟩⟩ (1 / 4) =
        ⟨29 / 32, 27 / 16⟩ ∧
      ∀ s : ℚ, segmentPoint ⟨⟨0, 0⟩, ⟨0, -8⟩, ⟨1, 3⟩⟩ ⟨⟨4, 0⟩, ⟨3, 3⟩, ⟨5, 3⟩⟩ s ≠
        ⟨35 / 32, 9 / 4⟩ := by
  refine ⟨by decide, ?_⟩
  have hs : ∀ s : ℚ, segmentPoint ⟨⟨0, 0⟩, ⟨0, -8⟩, ⟨1, 3⟩⟩ ⟨⟨4, 0⟩, ⟨3, 3⟩, ⟨5, 3⟩⟩ s ≠
      ⟨35 / 32, 9 / 4⟩ := by
    intro s h
    simp only [segmentPoint, bezierPoint, Point.mk.injEq] at h
    obtain ⟨hx, hy⟩ := h
    have h2 : (2 * s - 1) ^ 2 = 0 := by linear_combination (-4 / 9) * hy
    have h3 : 2 * s - 1 = 0 := pow_eq_zero_iff (by norm_num) |>.mp h2
    have h4 : s = 1 / 2 := by linarith
    rw [h4] at hx
    norm_num at hx
  have hd : ∀ setupInfinity ∈ [infiniteRect, emptyRect],
      scanAll (specEnv setupInfinity) scallop = ScanOutcome.notFound ∧
      (subdivide (specEnv setupInfinity) scallop).length = 10 ∧
      (subdivide (specEnv setupInfinity) scallop).take 3 =
        [⟨⟨0, 0⟩, ⟨0, -8⟩, ⟨1, 3⟩⟩, ⟨⟨2, 9 / 4⟩, ⟨5 / 4, 9 / 4⟩, ⟨11 / 4, 9 / 4⟩⟩,
          ⟨⟨4, 0⟩, ⟨3, 3⟩, ⟨5, 3⟩⟩] ∧
      segmentPoint ⟨⟨0, 0⟩, ⟨0, -8⟩, ⟨1, 3⟩⟩ ⟨⟨2, 9 / 4⟩, ⟨5 / 4, 9 / 4⟩, ⟨11 / 4, 9 / 4⟩⟩
        (1 / 2) = ⟨35 / 32, 9 / 4⟩ ∧
      segmentPoint ⟨⟨0, 0⟩, ⟨0, -8⟩, ⟨1, 3⟩⟩ ⟨⟨4, 0⟩, ⟨3, 3⟩, ⟨5, 3⟩⟩ (1 / 4) =
        ⟨29 / 32, 27 / 16⟩ := by
    decide!
  intro r hr
  obtain ⟨a, b, c, d, e⟩ := hd r hr
  exact ⟨a, b, c, d, e, hs⟩


/-! ## `renderFeather_old_cairo`: the loop over the points of the feather polygon -/

/-- On a feather polygon of one point, every iteration of the loop is a `continue`: `cur` is
at the end, is set back to the only point, which is the point of `prev`, and the loop goes
on. -/
theorem featherLoop_single_point (sqrt : ℚ → ℚ) (p : Point) (bezierPolygon : List Point)
    (clockWise : Bool) (absFeatherDist fallOff : ℚ) (origin : Point) :
    ∀ (fuel : Nat) (s : FeatherState), s.cur = 1 → (s.prev = 0 ∨ s.prev = 1) →
      featherLoop sqrt [p] bezierPolygon clockWise absFeatherDist fallOff origin fuel s =
        FeatherResult.outOfFuel := by
  intro fuel
  induction fuel with
  | zero => intro s _ _; rfl
  | succ fuel ih =>
    intro s hc hp
    have hprev : wrapIt [p].length s.prev = 0 := by
      rcases hp with h | h <;> simp [wrapIt, h]
    have hcur : wrapIt [p].length s.cur = 0 := by simp [wrapIt, hc]
    rw [featherLoop]
    simp only [hprev, hcur, List.getD_cons_zero, and_self, if_true]
    exact ih _ rfl (Or.inl rfl)

/-- On the feather polygon `(0,0), (4,0), (0,0)`, whose last point equals the first, the
iterators of the loop go round a cycle of six states, and the iteration that finds `cur` at
the end always finds the first point equal to the point of `prev`: it is a `continue`. -/
theorem featherLoop_closed_pair (sqrt : ℚ → ℚ) (bezierPolygon : List Point)
    (clockWise : Bool) (absFeatherDist fallOff : ℚ) (origin : Point) :
    ∀ (fuel : Nat) (s : FeatherState),
      (s.cur, s.prev, s.next) ∈
        [(1, 3, 2), (1, 0, 2), (2, 1, 3), (3, 2, 1), (1, 2, 1), (2, 3, 2), (3, 0, 2)] →
      featherLoop sqrt [⟨0, 0⟩, ⟨4, 0⟩, ⟨0, 0⟩] bezierPolygon clockWise absFeatherDist fallOff
        origin fuel s = FeatherResult.outOfFuel := by
  intro fuel
  induction fuel with
  | zero => intro s _; rfl
  | succ fuel ih =>
    intro s hs
    simp only [List.mem_cons, Prod.mk.injEq, List.mem_singleton, List.not_mem_nil,
      or_false] at hs
    rw [featherLoop]
    rcases hs with ⟨hc, hp, hn⟩ | ⟨hc, hp, hn⟩ | ⟨hc, hp, hn⟩ | ⟨hc, hp, hn⟩ | ⟨hc, hp, hn⟩ |
      ⟨hc, hp, hn⟩ | ⟨hc, hp, hn⟩ <;>
    · simp only [hc, hp, hn, wrapIt, incrIt, List.length_cons, List.length_nil]
      norm_num
      apply ih
      simp [incrIt, wrapIt]

/-- C27, the code at two failing inputs: on a feather polygon of one point, and on the feather
polygon `(0,0), (4,0), (0,0)` whose last point equals the first, the loop of
`renderFeather_old_cairo` is still running after any number of iterations, whatever the
bezier polygon, the orientation, the feather distance and the fall-off. -/
theorem renderFeather_old_cairo_never_returns :
    ([(⟨0, 0⟩ : Point)] ≠ []) ∧
      (∀ (sqrt : ℚ → ℚ) (p : Point) (bezierPolygon : List Point) (clockWise : Bool)
        (featherDist fallOff : ℚ) (fuel : Nat),
        renderFeather_old_cairo sqrt [p] bezierPolygon clockWise featherDist fallOff fuel =
          FeatherResult.outOfFuel) ∧
      (∀ (sqrt : ℚ → ℚ) (bezierPolygon : List Point) (clockWise : Bool)
        (featherDist fallOff : ℚ) (fuel : Nat),
        renderFeather_old_cairo sqrt [⟨0, 0⟩, ⟨4, 0⟩, ⟨0, 0⟩] bezierPolygon clockWise
          featherDist fallOff fuel = FeatherResult.outOfFuel) := by
  refine ⟨by simp, ?_, ?_⟩
  · intro sqrt p bezierPolygon clockWise featherDist fallOff fuel
    rw [renderFeather_old_cairo]
    exact featherLoop_single_point sqrt p bezierPolygon clockWise _ fallOff _ fuel _ rfl
      (Or.inr rfl)
  · intro sqrt bezierPolygon clockWise featherDist fallOff fuel
    rw [renderFeather_old_cairo]
    apply featherLoop_closed_pair
    simp [incrIt, wrapIt]


/-- When no point of the feather polygon equals the point before it (the first point being
compared with the last), no iteration of the loop is skipped: from the iteration in which
`cur` is the point `t`, the loop returns after `n - t + 1` iterations, `n` being the number of
points, having added one patch in each. -/
theorem featherLoop_returns_of_distinct (sqrt : ℚ → ℚ) (featherPolygon bezierPolygon : List Point)
    (clockWise : Bool) (absFeatherDist fallOff : ℚ) (origin : Point)
    (hdist : ∀ i : Nat, i < featherPolygon.length →
      featherPolygon.getD ((i + 1) % featherPolygon.length) default ≠
        featherPolygon.getD i default) :
    ∀ (steps fuel : Nat) (s : FeatherState), steps < fuel → 1 ≤ s.cur →
      s.cur + steps = featherPolygon.length →
      wrapIt featherPolygon.length s.prev + 1 = s.cur →
      ∃ final : FeatherState,
        featherLoop sqrt featherPolygon bezierPolygon clockWise absFeatherDist fallOff origin
          fuel s = FeatherResult.returned final ∧
        final.patches.length = s.patches.length + steps + 1 := by
  intro steps
  induction steps with
  | zero =>
    intro fuel s hfuel hc1 hcn hprev
    obtain ⟨f, rfl⟩ : ∃ f, fuel = f + 1 := ⟨fuel - 1, by omega⟩
    have hcur : s.cur = featherPolygon.length := by omega
    have hw : wrapIt featherPolygon.length featherPolygon.length = 0 := by simp [wrapIt]
    have hne := hdist (wrapIt featherPolygon.length s.prev) (by omega)
    have hmod : (wrapIt featherPolygon.length s.prev + 1) % featherPolygon.length = 0 := by
      rw [hprev, hcur]; exact Nat.mod_self _
    rw [hmod] at hne
    have hskip : ¬ ((featherPolygon.getD 0 default).x =
        (featherPolygon.getD (wrapIt featherPolygon.length s.prev) default).x ∧
        (featherPolygon.getD 0 default).y =
        (featherPolygon.getD (wrapIt featherPolygon.length s.prev) default).y) := by
      intro h
      apply hne
      cases h1 : featherPolygon.getD 0 default
      cases h2 : featherPolygon.getD (wrapIt featherPolygon.length s.prev) default
      rw [h1, h2] at h
      simp only at h
      rw [h.1, h.2]
    rw [featherLoop]
    simp only [hcur, hw, hskip, if_false, decide_True, if_true]
    exact ⟨_, rfl, by simp⟩
  | succ steps ih =>
    intro fuel s hfuel hc1 hcn hprev
    obtain ⟨f, rfl⟩ : ∃ f, fuel = f + 1 := ⟨fuel - 1, by omega⟩
    have hcur : s.cur ≠ featherPolygon.length := by omega
    have hw : wrapIt featherPolygon.length s.cur = s.cur := by simp [wrapIt, hcur]
    have hne := hdist (wrapIt featherPolygon.length s.prev) (by omega)
    have hmod : (wrapIt featherPolygon.length s.prev + 1) % featherPolygon.length = s.cur := by
      rw [hprev]; exact Nat.mod_eq_of_lt (by omega)
    rw [hmod] at hne
    have hskip : ¬ ((featherPolygon.getD s.cur default).x =
        (featherPolygon.getD (wrapIt featherPolygon.length s.prev) default).x ∧
        (featherPolygon.getD s.cur default).y =
        (featherPolygon.getD (wrapIt featherPolygon.length s.prev) default).y) := by
      intro h
      apply hne
      cases h1 : featherPolygon.getD s.cur default
      cases h2 : featherPolygon.getD (wrapIt featherPolygon.length s.prev) default
      rw [h1, h2] at h
      simp only at h
      rw [h.1, h.2]
    have hdec : decide (s.cur = featherPolygon.length) = false := by simp [hcur]
    rw [featherLoop]
    simp only [hw, hskip, if_false, hdec, Bool.false_eq_true]
    have hstep : ∀ t : FeatherState, t.cur = s.cur + 1 →
        wrapIt featherPolygon.length t.prev + 1 = t.cur →
        t.patches.length = s.patches.length + 1 →
        ∃ final : FeatherState,
          featherLoop sqrt featherPolygon bezierPolygon clockWise absFeatherDist fallOff origin
            f t = FeatherResult.returned final ∧
          final.patches.length = s.patches.length + (steps + 1) + 1 := by
      intro t hc hp hl
      obtain ⟨final, h1, h2⟩ := ih f t (by omega) (by omega) (by omega) hp
      exact ⟨final, h1, by rw [h2, hl]; omega⟩
    have hp : wrapIt featherPolygon.length s.prev ≠ featherPolygon.length := by omega
    have hi : incrIt featherPolygon.length (wrapIt featherPolygon.length s.prev) = s.cur := by
      rw [incrIt, if_pos hp]; exact hprev
    apply hstep
    · rfl
    · show wrapIt featherPolygon.length
        (incrIt featherPolygon.length (wrapIt featherPolygon.length s.prev)) + 1 = s.cur + 1
      rw [hi, hw]
    · simp

/-- When the feather polygon has at least two points and none of them equals the point before
it (the first being compared with the last), `renderFeather_old_cairo` returns after as many
iterations of its loop as the polygon has points, having added as many patches. -/
theorem renderFeather_old_cairo_returns_of_distinct (sqrt : ℚ → ℚ)
    (featherPolygon bezierPolygon : List Point) (clockWise : Bool) (featherDist fallOff : ℚ)
    (fuel : Nat) (hn : 2 ≤ featherPolygon.length)
    (hdist : ∀ i : Nat, i < featherPolygon.length →
      featherPolygon.getD ((i + 1) % featherPolygon.length) default ≠
        featherPolygon.getD i default)
    (hfuel : featherPolygon.length ≤ fuel) :
    ∃ final : FeatherState,
      renderFeather_old_cairo sqrt featherPolygon bezierPolygon clockWise featherDist fallOff
        fuel = FeatherResult.returned final ∧
      final.patches.length = featherPolygon.length := by
  have h0 : (0 : Nat) ≠ featherPolygon.length := by omega
  have h1 : featherPolygon.length - 1 ≠ featherPolygon.length := by omega
  obtain ⟨final, e1, e2⟩ := featherLoop_returns_of_distinct sqrt featherPolygon bezierPolygon
    clockWise |featherDist| fallOff
    (firstFeatherPoint sqrt clockWise (featherPolygon.getD 0 default)
      (featherPolygon.getD (wrapIt featherPolygon.length 1) default)
      (featherPolygon.getD (featherPolygon.length - 1) default) |featherDist|).1
    hdist (featherPolygon.length - 1) fuel
    { cur := incrIt featherPolygon.length 0,
      prev := incrIt featherPolygon.length (featherPolygon.length - 1),
      next := incrIt featherPolygon.length (wrapIt featherPolygon.length 1),
      bezIT := incrIt bezierPolygon.length 0,
      prevBez := incrIt bezierPolygon.length (bezierPolygon.length - 1),
      p1 := (firstFeatherPoint sqrt clockWise (featherPolygon.getD 0 default)
        (featherPolygon.getD (wrapIt featherPolygon.length 1) default)
        (featherPolygon.getD (featherPolygon.length - 1) default) |featherDist|).1,
      featherContour := [(firstFeatherPoint sqrt clockWise (featherPolygon.getD 0 default)
        (featherPolygon.getD (wrapIt featherPolygon.length 1) default)
        (featherPolygon.getD (featherPolygon.length - 1) default) |featherDist|).1],
      patches := [],
      dividedByZero := (firstFeatherPoint sqrt clockWise (featherPolygon.getD 0 default)
        (featherPolygon.getD (wrapIt featherPolygon.length 1) default)
        (featherPolygon.getD (featherPolygon.length - 1) default) |featherDist|).2 }
    (by omega)
    (by simp [incrIt, h0])
    (by simp only [incrIt, if_pos h0]; omega)
    (by simp [incrIt, wrapIt, h0, h1]; omega)
  refine ⟨final, e1, ?_⟩
  rw [e2]
  simp only [List.length_nil]
  omega

/-- The square of corners `(0,0), (4,0), (4,4), (0,4)`: four iterations, four patches. -/
theorem renderFeather_old_cairo_square :
    (renderFeather_old_cairo (fun q => q) [⟨0, 0⟩, ⟨4, 0⟩, ⟨4, 4⟩, ⟨0, 4⟩]
        [⟨0, 0⟩, ⟨4, 0⟩, ⟨4, 4⟩, ⟨0, 4⟩] true 1 1 4).final.map
      (fun final => (final.patches.length, final.dividedByZero)) = some (4, false) := by
  decide!

/-! ## `renderFeather_old_cairo`: the normal of length zero -/

/-- C22, as stated, fails: on the feather polygon `(0,0), (4,0)`, with a feather distance of
1, the neighbours of the first point coincide and its normal has the length zero; the guard
substitutes `(0, 1)`, not zero, and the first point of the contour is `(0, 1)`.  At the second
point the neighbours coincide too, the loop has no guard and divides by zero. -/
theorem renderFeather_old_cairo_two_points :
    ([(⟨0, 0⟩ : Point), ⟨4, 0⟩] ≠ []) ∧
      ∀ sqrt : ℚ → ℚ, sqrt 0 = 0 →
        (firstFeatherPoint sqrt true ⟨0, 0⟩ ⟨4, 0⟩ ⟨4, 0⟩ |1|).1 = ⟨0, 1⟩ ∧
        (renderFeather_old_cairo sqrt [⟨0, 0⟩, ⟨4, 0⟩] [⟨0, 0⟩, ⟨4, 0⟩] true 1 1 2).final.bind
          (fun final => final.featherContour.head?) = some ⟨0, 1⟩ ∧
        (renderFeather_old_cairo sqrt [⟨0, 0⟩, ⟨4, 0⟩] [⟨0, 0⟩, ⟨4, 0⟩] true 1 1 2).final.map
          (fun final => final.patches.length) = some 2 ∧
        (renderFeather_old_cairo sqrt [⟨0, 0⟩, ⟨4, 0⟩] [⟨0, 0⟩, ⟨4, 0⟩] true 1 1 2).final.map
          (fun final => final.dividedByZero) = some true := by
  refine ⟨by simp, ?_⟩
  intro sqrt hsqrt
  have hrun : renderFeather_old_cairo sqrt [⟨0, 0⟩, ⟨4, 0⟩] [⟨0, 0⟩, ⟨4, 0⟩] true 1 1 2 =
      FeatherResult.returned
        { cur := 0, prev := 1, next := 1, bezIT := 0, prevBez := 1,
          p1 := offsetPoint true ⟨4, 0⟩ (-(checkedDiv (0 - 0) (sqrt 0)).1)
            (checkedDiv (0 - 0) (sqrt 0)).1 |1|,
          featherContour := [(firstFeatherPoint sqrt true ⟨0, 0⟩ ⟨4, 0⟩ ⟨4, 0⟩ |1|).1,
            offsetPoint true ⟨4, 0⟩ (-(checkedDiv (0 - 0) (sqrt 0)).1)
              (checkedDiv (0 - 0) (sqrt 0)).1 |1|,
            (firstFeatherPoint sqrt true ⟨0, 0⟩ ⟨4, 0⟩ ⟨4, 0⟩ |1|).1],
          patches := [⟨⟨0, 0⟩, (firstFeatherPoint sqrt true ⟨0, 0⟩ ⟨4, 0⟩ ⟨4, 0⟩ |1|).1,
              offsetPoint true ⟨4, 0⟩ (-(checkedDiv (0 - 0) (sqrt 0)).1)
                (checkedDiv (0 - 0) (sqrt 0)).1 |1|, ⟨4, 0⟩,
              featherControlPoints 1 ⟨0, 0⟩
                (firstFeatherPoint sqrt true ⟨0, 0⟩ ⟨4, 0⟩ ⟨4, 0⟩ |1|).1
                (offsetPoint true ⟨4, 0⟩ (-(checkedDiv (0 - 0) (sqrt 0)).1)
                  (checkedDiv (0 - 0) (sqrt 0)).1 |1|) ⟨4, 0⟩⟩,
            ⟨⟨4, 0⟩, offsetPoint true ⟨4, 0⟩ (-(checkedDiv (0 - 0) (sqrt 0)).1)
                (checkedDiv (0 - 0) (sqrt 0)).1 |1|,
              (firstFeatherPoint sqrt true ⟨0, 0⟩ ⟨4, 0⟩ ⟨4, 0⟩ |1|).1, ⟨0, 0⟩,
              featherControlPoints 1 ⟨4, 0⟩
                (offsetPoint true ⟨4, 0⟩ (-(checkedDiv (0 - 0) (sqrt 0)).1)
                  (checkedDiv (0 - 0) (sqrt 0)).1 |1|)
                (firstFeatherPoint sqrt true ⟨0, 0⟩ ⟨4, 0⟩ ⟨4, 0⟩ |1|).1 ⟨0, 0⟩⟩],
          dividedByZero := (firstFeatherPoint sqrt true ⟨0, 0⟩ ⟨4, 0⟩ ⟨4, 0⟩ |1|).2 ||
            (checkedDiv (0 - 0) (sqrt 0)).2 || (checkedDiv (0 - 0) (sqrt 0)).2 } := by
    simp only [renderFeather_old_cairo, featherLoop, wrapIt, incrIt, List.length_cons,
      List.length_nil]
    norm_num
  have hfirst : (firstFeatherPoint sqrt true ⟨0, 0⟩ ⟨4, 0⟩ ⟨4, 0⟩ |1|).1 = ⟨0, 1⟩ := by
    simp [firstFeatherPoint, offsetPoint, hsqrt]
  refine ⟨hfirst, ?_, ?_, ?_⟩
  · rw [hrun]
    exact congrArg some hfirst
  · rw [hrun]
    simp [FeatherResult.final]
  · rw [hrun]
    simp [FeatherResult.final, checkedDiv, hsqrt]

/-- C22, amended: at the first point of the feather polygon a normal of length zero is
guarded by an explicit test: no division by zero is performed, and when the length is zero
the direction `(0, 1)` is substituted, so that the first point of the contour is the first
point of the polygon moved by the feather distance along the second axis. -/
theorem firstFeatherPoint_guarded (sqrt : ℚ → ℚ) (clockWise : Bool) (first next prev : Point)
    (absFeatherDist : ℚ) :
    (firstFeatherPoint sqrt clockWise first next prev absFeatherDist).2 = false ∧
      (sqrt ((next.x - prev.x) * (next.x - prev.x) + (next.y - prev.y) * (next.y - prev.y)) = 0 →
        (firstFeatherPoint sqrt clockWise first next prev absFeatherDist).1 =
          if clockWise then ⟨first.x, first.y + absFeatherDist⟩
          else ⟨first.x, first.y - absFeatherDist⟩) := by
  constructor
  · by_cases h : sqrt ((next.x - prev.x) * (next.x - prev.x) +
        (next.y - prev.y) * (next.y - prev.y)) = 0
    · simp [firstFeatherPoint, h]
    · simp [firstFeatherPoint, checkedDiv, h]
  · intro h
    cases clockWise <;> simp [firstFeatherPoint, offsetPoint, h]


/-! ## `renderSmearDot`: the blend of every pixel -/

/-- An assignment through a pointer keeps the bounds. -/
theorem Image.set_bounds (image : Image) (y ptr : Int) (v : ℚ) :
    (image.set y ptr v).bounds = image.bounds := rfl

/-- Whether a pointer points to an element of a row depends on the bounds and on the number
of components only. -/
theorem Image.inRow_congr (a b : Image) (hb : a.bounds = b.bounds) (hn : a.nComps = b.nComps)
    (ptr : Int) : a.inRow ptr = b.inRow ptr := by
  rw [Image.inRow, Image.inRow, hb, hn]

/-- The loop over the components of a pixel (lines 1041-1043), in closed form, when the
`nComps` elements from `d` on are elements of the row: they are blended with the values
`src k`, nothing else changes, and no write outside of the row is noted. -/
theorem smearChannels_spec (src : Int → ℚ) (m : ℚ) (y d : Int) (nComps : Nat)
    (t0 : Image × Bool) (result : Image × Bool)
    (hin : ∀ k : Int, 0 ≤ k → k < nComps → t0.1.inRow (d + k) = true)
    (hres : result = forLoop (fun k (t : Image × Bool) =>
        if t.1.inRow (d + k) then
          (t.1.set y (d + k) (src k * m + t.1.data y (d + k) * (1 - m)), t.2)
        else
          (t.1, true))
      nComps 0 t0) :
    result.2 = t0.2 ∧ result.1.nComps = t0.1.nComps ∧ result.1.bounds = t0.1.bounds ∧
    (∀ y0 e0, (y0 ≠ y ∨ e0 < d ∨ d + nComps ≤ e0) →
      result.1.data y0 e0 = t0.1.data y0 e0) ∧
    (∀ k : Int, 0 ≤ k → k < nComps →
      result.1.data y (d + k) = src k * m + t0.1.data y (d + k) * (1 - m)) := by
  have key := forLoop_invariant
    (fun k (t : Image × Bool) =>
      if t.1.inRow (d + k) then
        (t.1.set y (d + k) (src k * m + t.1.data y (d + k) * (1 - m)), t.2)
      else
        (t.1, true))
    (fun j (t : Image × Bool) => 0 ≤ j ∧ t.2 = t0.2 ∧ t.1.nComps = t0.1.nComps ∧
      t.1.bounds = t0.1.bounds ∧
      (∀ y0 e0, (y0 ≠ y ∨ e0 < d ∨ d + j ≤ e0) → t.1.data y0 e0 = t0.1.data y0 e0) ∧
      (∀ k : Int, 0 ≤ k → k < j →
        t.1.data y (d + k) = src k * m + t0.1.data y (d + k) * (1 - m)))
    nComps 0 t0
    ⟨le_refl _, rfl, rfl, rfl, fun _ _ _ => rfl, fun k h0 h1 => by omega⟩
    (by
      intro j t hj0 hj1 ⟨_, hf, hn, hb, hframe, hval⟩
      have hrow : t.1.inRow (d + j) = true := by
        rw [Image.inRow_congr t.1 t0.1 hb hn]
        exact hin j hj0 (by simpa using hj1)
      beta_reduce
      rw [if_pos hrow]
      refine ⟨by omega, hf, by rw [Image.set_nComps, hn], by rw [Image.set_bounds, hb], ?_, ?_⟩
      · intro y0 e0 h
        rw [Image.set_data]
        rcases h with h | h | h
        · rw [if_neg (fun hh => h hh.1)]
          exact hframe y0 e0 (Or.inl h)
        · rw [if_neg (fun hh => by omega)]
          exact hframe y0 e0 (Or.inr (Or.inl h))
        · rw [if_neg (fun hh => by omega)]
          exact hframe y0 e0 (Or.inr (Or.inr (by omega)))
      · intro k hk0 hk1
        rw [Image.set_data]
        by_cases hkj : k = j
        · subst hkj
          rw [if_pos ⟨rfl, rfl⟩, hframe y (d + k) (Or.inr (Or.inr (le_refl _)))]
        · rw [if_neg (fun hh => hkj (by omega))]
          exact hval k hk0 (by omega))
  rw [← hres] at key
  simp only [zero_add] at key
  obtain ⟨_, h0, h1, h2, h3, h4⟩ := key
  exact ⟨h0, h1, h2, h3, h4⟩

/-- The loop over the pixels of a row of the box (lines 1031-1045), in closed form, when the
pixels written are pixels of the row: the two pointers have advanced by `count` pixels, every
component of the `count` pixels from `d0` on has the value of `smearValue`, nothing else
changes, and no write outside of the row is noted. -/
theorem smearRow_spec (tmpBuf : Image) (maskData : SurfaceData) (yPrev maskRow x1 y : Int)
    (nComps : Nat) (count : Nat) (xPrev0 d0 : Int) (t0 : Image × Bool)
    (result : Int × Int × Image × Bool)
    (hin : ∀ x k : Int, x1 ≤ x → x < x1 + count → 0 ≤ k → k < nComps →
      tmpBuf.pixelAt (xPrev0 + (x - x1)) yPrev ≠ none →
      t0.1.inRow (d0 + (x - x1) * nComps + k) = true)
    (hres : result = forLoop
      (fun x (s : Int × Int × Image × Bool) =>
        match tmpBuf.pixelAt s.1 yPrev with
        | some srcPixels =>
          (s.1 + 1, s.2.1 + nComps,
            forLoop (fun k (t : Image × Bool) =>
              if t.1.inRow (s.2.1 + k) then
                (t.1.set y (s.2.1 + k)
                  (tmpBuf.data yPrev (srcPixels + k) *
                      ((maskData (maskRow + (x - x1)) : ℚ) / 255) +
                    t.1.data y (s.2.1 + k) * (1 - (maskData (maskRow + (x - x1)) : ℚ) / 255)),
                  t.2)
              else
                (t.1, true))
              nComps 0 s.2.2)
        | none => (s.1 + 1, s.2.1 + nComps, s.2.2))
      count x1 (xPrev0, d0, t0)) :
    result.1 = xPrev0 + count ∧ result.2.1 = d0 + count * nComps ∧
      result.2.2.2 = t0.2 ∧
      result.2.2.1.nComps = t0.1.nComps ∧ result.2.2.1.bounds = t0.1.bounds ∧
      (∀ y0 e0, (y0 ≠ y ∨ e0 < d0 ∨ d0 + count * nComps ≤ e0) →
        result.2.2.1.data y0 e0 = t0.1.data y0 e0) ∧
      (∀ x k : Int, x1 ≤ x → x < x1 + count → 0 ≤ k → k < nComps →
        result.2.2.1.data y (d0 + (x - x1) * nComps + k) =
          smearValue tmpBuf (maskData (maskRow + (x - x1))) (xPrev0 + (x - x1)) yPrev k
            (t0.1.data y (d0 + (x - x1) * nComps + k))) := by
  have hc0 : (0 : Int) ≤ nComps := Int.natCast_nonneg _
  have key := forLoop_invariant
    (fun x (s : Int × Int × Image × Bool) =>
      match tmpBuf.pixelAt s.1 yPrev with
      | some srcPixels =>
        (s.1 + 1, s.2.1 + nComps,
          forLoop (fun k (t : Image × Bool) =>
            if t.1.inRow (s.2.1 + k) then
              (t.1.set y (s.2.1 + k)
                (tmpBuf.data yPrev (srcPixels + k) *
                    ((maskData (maskRow + (x - x1)) : ℚ) / 255) +
                  t.1.data y (s.2.1 + k) * (1 - (maskData (maskRow + (x - x1)) : ℚ) / 255)),
                t.2)
            else
              (t.1, true))
            nComps 0 s.2.2)
      | none => (s.1 + 1, s.2.1 + nComps, s.2.2))
    (fun j (s : Int × Int × Image × Bool) => x1 ≤ j ∧ s.1 = xPrev0 + (j - x1) ∧
      s.2.1 = d0 + (j - x1) * nComps ∧ s.2.2.2 = t0.2 ∧
      s.2.2.1.nComps = t0.1.nComps ∧ s.2.2.1.bounds = t0.1.bounds ∧
      (∀ y0 e0, (y0 ≠ y ∨ e0 < d0 ∨ d0 + (j - x1) * nComps ≤ e0) →
        s.2.2.1.data y0 e0 = t0.1.data y0 e0) ∧
      (∀ x k : Int, x1 ≤ x → x < j → 0 ≤ k → k < nComps →
        s.2.2.1.data y (d0 + (x - x1) * nComps + k) =
          smearValue tmpBuf (maskData (maskRow + (x - x1))) (xPrev0 + (x - x1)) yPrev k
            (t0.1.data y (d0 + (x - x1) * nComps + k))))
    count x1 (xPrev0, d0, t0)
    ⟨le_refl _, by simp, by simp, rfl, rfl, rfl, fun _ _ _ => rfl, fun x k h0 h1 => by omega⟩
    (by
      intro j s hj0 hj1 ⟨_, hx, hd, hf, hn, hb, hframe, hval⟩
      have hjd : (0 : Int) ≤ (j - x1) * nComps := mul_nonneg (by omega) hc0
      have hold : ∀ x k : Int, x1 ≤ x → x < j → 0 ≤ k → k < nComps →
          d0 + (x - x1) * nComps + k < s.2.1 := by
        intro x k hx0 hx1 hk0 hk1
        rw [hd]
        have h1 : (x - x1 + 1) * (nComps : Int) ≤ (j - x1) * nComps :=
          mul_le_mul_of_nonneg_right (by omega) hc0
        linarith
      cases hsrc : tmpBuf.pixelAt s.1 yPrev with
      | none =>
        simp only [hsrc]
        refine ⟨by omega, by rw [hx]; ring, by rw [hd]; ring, hf, hn, hb, ?_, ?_⟩
        · intro y0 e0 h
          apply hframe y0 e0
          rcases h with h | h | h
          · exact Or.inl h
          · exact Or.inr (Or.inl h)
          · right; right
            have : (j + 1 - x1) * (nComps : Int) = (j - x1) * nComps + nComps := by ring
            rw [this] at h
            linarith
        · intro x k hx0 hx1 hk0 hk1
          by_cases hxj : x = j
          · subst hxj
            rw [hframe y _ (Or.inr (Or.inr (by linarith))), smearValue, ← hx, hsrc]
          · exact hval x k hx0 (by omega) hk0 hk1
      | some sp =>
        simp only [hsrc]
        have hrow : ∀ k : Int, 0 ≤ k → k < nComps → s.2.2.1.inRow (s.2.1 + k) = true := by
          intro k hk0 hk1
          rw [Image.inRow_congr s.2.2.1 t0.1 hb hn, hd]
          exact hin j k hj0 hj1 hk0 hk1 (by rw [← hx, hsrc]; simp)
        obtain ⟨c0, c1, c2, c3, c4⟩ := smearChannels_spec (fun k => tmpBuf.data yPrev (sp + k))
          ((maskData (maskRow + (j - x1)) : ℚ) / 255) y s.2.1 nComps s.2.2 _ hrow rfl
        refine ⟨by omega, by rw [hx]; ring, by rw [hd]; ring, by rw [c0, hf], by rw [c1, hn],
          by rw [c2, hb], ?_, ?_⟩
        · intro y0 e0 h
          have : (j + 1 - x1) * (nComps : Int) = (j - x1) * nComps + nComps := by ring
          rw [this] at h
          rw [c3 y0 e0, hframe y0 e0]
          · rcases h with h | h | h
            · exact Or.inl h
            · exact Or.inr (Or.inl h)
            · right; right; linarith
          · rcases h with h | h | h
            · exact Or.inl h
            · right; left; rw [hd]; linarith
            · right; right; rw [hd]; linarith
        · intro x k hx0 hx1 hk0 hk1
          by_cases hxj : x = j
          · subst hxj
            rw [← hd, c4 k hk0 hk1, hframe y _ (Or.inr (Or.inr (by rw [hd]; linarith))),
              smearValue, ← hx, hsrc]
          · rw [c3 y _ (Or.inr (Or.inl (hold x k hx0 (by omega) hk0 hk1)))]
            exact hval x k hx0 (by omega) hk0 hk1)
  rw [← hres] at key
  obtain ⟨_, h1, h2, hf, h3, h4, h5, h6⟩ := key
  refine ⟨by rw [h1]; ring, by rw [h2]; ring, hf, h3, h4, ?_, h6⟩
  intro y0 e0 h
  apply h5 y0 e0
  have : (x1 + (count : Int) - x1) * (nComps : Int) = count * nComps := by ring
  rw [this]
  exact h

/-- The pointer returned by `pixelAt` depends on the bounds and on the number of components
only. -/
theorem Image.pixelAt_congr (a b : Image) (hb : a.bounds = b.bounds) (hn : a.nComps = b.nComps)
    (x y : Int) : a.pixelAt x y = b.pixelAt x y := by
  rw [Image.pixelAt, Image.pixelAt, hb, hn]

/-- The function `renderSmearDot` in closed form, when no pixel of the box that is written
lies right of the image.  `pb` is the box around the previous centre and `x1, y1, x2, y2` the
box around the new centre.  The function returns an image; the number of components is kept,
the rows outside of the box are kept, and so are the elements of a row that are outside of the
box.  On a row `y` of the box, the component `k` of the pixel `x` of the box is kept when the
first pixel `(x1, y)` of the row is outside of the image, and has the value of `smearValue`
otherwise. -/
theorem renderSmearDot_spec (env : SmearEnv) (maskData : SurfaceData)
    (maskStride maskWidth maskHeight : Int) (prev next : Point) (brushSizePixels : ℚ)
    (nComps : Nat) (outputImage : Image) (pb : RectI) (x1 y1 x2 y2 : Int)
    (hpb : pb = env.toPixelEnclosing (prev.x - brushSizePixels / 2)
      (prev.y - brushSizePixels / 2) (prev.x + brushSizePixels / 2)
      (prev.y + brushSizePixels / 2))
    (hx1 : x1 = truncToInt (next.x - (Int.tdiv maskWidth 2 : Int)))
    (hy1 : y1 = truncToInt (next.y - (Int.tdiv maskHeight 2 : Int)))
    (hx2 : x2 = truncToInt (next.x + (Int.tdiv maskWidth 2 : Int)))
    (hy2 : y2 = truncToInt (next.y + (Int.tdiv maskHeight 2 : Int)))
    (hn : nComps = outputImage.nComps)
    (hin : ∀ x0 y0 : Int, x1 ≤ x0 → x0 < x2 → y1 ≤ y0 → y0 < y2 →
      outputImage.pixelAt x1 y0 ≠ none →
      (snapshotImage outputImage pb).pixelAt (pb.x1 + (x0 - x1)) (pb.y1 + (y0 - y1)) ≠ none →
      x0 < outputImage.bounds.x2) :
    ∃ result : Image,
      renderSmearDot env maskData maskStride maskWidth maskHeight prev next brushSizePixels
        nComps outputImage = some result ∧
      result.nComps = outputImage.nComps ∧
      (∀ y0 e0, (y0 < y1 ∨ y2 ≤ y0 ∨ e0 < x1 * nComps ∨ x2 * nComps ≤ e0) →
        result.data y0 e0 = outputImage.data y0 e0) ∧
      (∀ x y k : Int, x1 ≤ x → x < x2 → y1 ≤ y → y < y2 → 0 ≤ k → k < nComps →
        result.data y (x * nComps + k) =
          if outputImage.pixelAt x1 y = none then outputImage.data y (x * nComps + k)
          else smearValue (snapshotImage outputImage pb)
            (maskData ((y - y1) * maskStride + (x - x1))) (pb.x1 + (x - x1)) (pb.y1 + (y - y1))
            k (outputImage.data y (x * nComps + k))) := by
  have hc0 : (0 : Int) ≤ nComps := Int.natCast_nonneg _
  have key := forLoop_invariant
    (fun y (rows : Int × Int × Image × Bool) =>
      match rows.2.2.1.pixelAt x1 y with
      | none => (rows.1 + 1, rows.2.1 + maskStride, rows.2.2)
      | some dstPixels =>
        (rows.1 + 1, rows.2.1 + maskStride,
          (forLoop
            (fun x (s : Int × Int × Image × Bool) =>
              match (snapshotImage outputImage pb).pixelAt s.1 rows.1 with
              | some srcPixels =>
                (s.1 + 1, s.2.1 + nComps,
                  forLoop (fun k (t : Image × Bool) =>
                    if t.1.inRow (s.2.1 + k) then
                      (t.1.set y (s.2.1 + k)
                        ((snapshotImage outputImage pb).data rows.1 (srcPixels + k) *
                            ((maskData (rows.2.1 + (x - x1)) : ℚ) / 255) +
                          t.1.data y (s.2.1 + k) *
                            (1 - (maskData (rows.2.1 + (x - x1)) : ℚ) / 255)), t.2)
                    else
                      (t.1, true))
                    nComps 0 s.2.2)
              | none => (s.1 + 1, s.2.1 + nComps, s.2.2))
            (x2 - x1).toNat x1 (pb.x1, dstPixels, rows.2.2)).2.2))
    (fun j (rows : Int × Int × Image × Bool) => y1 ≤ j ∧ rows.1 = pb.y1 + (j - y1) ∧
      rows.2.1 = (j - y1) * maskStride ∧ rows.2.2.2 = false ∧
      rows.2.2.1.nComps = outputImage.nComps ∧ rows.2.2.1.bounds = outputImage.bounds ∧
      (∀ y0 e0, (y0 < y1 ∨ j ≤ y0 ∨ e0 < x1 * nComps ∨ x2 * nComps ≤ e0) →
        rows.2.2.1.data y0 e0 = outputImage.data y0 e0) ∧
      (∀ x y k : Int, x1 ≤ x → x < x2 → y1 ≤ y → y < j → 0 ≤ k → k < nComps →
        rows.2.2.1.data y (x * nComps + k) =
          if outputImage.pixelAt x1 y = none then outputImage.data y (x * nComps + k)
          else smearValue (snapshotImage outputImage pb)
            (maskData ((y - y1) * maskStride + (x - x1))) (pb.x1 + (x - x1)) (pb.y1 + (y - y1))
            k (outputImage.data y (x * nComps + k))))
    (y2 - y1).toNat y1 (pb.y1, 0, outputImage, false)
    ⟨le_refl _, by simp, by simp, rfl, rfl, rfl, fun _ _ _ => rfl,
      fun x y k _ _ h0 h1 => by omega⟩
    (by
      intro j rows hj0 hj1 ⟨_, hyp, hmask, hflag, hnc, hb, hframe, hval⟩
      have hpix : rows.2.2.1.pixelAt x1 j = outputImage.pixelAt x1 j :=
        Image.pixelAt_congr _ _ hb hnc x1 j
      cases hdst : outputImage.pixelAt x1 j with
      | none =>
        simp only [hpix, hdst]
        refine ⟨by omega, by rw [hyp]; ring, by rw [hmask]; ring, hflag, hnc, hb, ?_, ?_⟩
        · intro y0 e0 h
          apply hframe y0 e0
          rcases h with h | h | h | h
          · exact Or.inl h
          · exact Or.inr (Or.inl (by omega))
          · exact Or.inr (Or.inr (Or.inl h))
          · exact Or.inr (Or.inr (Or.inr h))
        · intro x y k hx0 hx1 hy0 hy1 hk0 hk1
          by_cases hyj : y = j
          · subst hyj
            rw [if_pos hdst]
            exact hframe y _ (Or.inr (Or.inl (le_refl _)))
          · exact hval x y k hx0 hx1 hy0 (by omega) hk0 hk1
      | some dstPixels =>
        simp only [hpix, hdst]
        have hstart : outputImage.bounds.x1 ≤ x1 := by
          have h := hdst
          rw [Image.pixelAt] at h
          split at h
          · rename_i hh; exact hh.1
          · exact absurd h (by simp)
        have hd : dstPixels = x1 * nComps := by
          have h := hdst
          rw [Image.pixelAt] at h
          split at h
          · rw [hn]; exact (Option.some.inj h).symm
          · exact absurd h (by simp)
        have hrow : ∀ x k : Int, x1 ≤ x → x < x1 + (x2 - x1).toNat → 0 ≤ k → k < nComps →
            (snapshotImage outputImage pb).pixelAt (pb.x1 + (x - x1)) rows.1 ≠ none →
            rows.2.2.1.inRow (dstPixels + (x - x1) * nComps + k) = true := by
          intro x k hx0 hx1 hk0 hk1 hsnap
          have hxx : x < x2 := by omega
          have hright := hin x j hx0 hxx hj0 (by omega) (by rw [hdst]; simp)
            (by rw [← hyp]; exact hsnap)
          rw [Image.inRow_congr rows.2.2.1 outputImage hb hnc, Image.inRow, hd, ← hn]
          have e : x1 * (nComps : Int) + (x - x1) * nComps + k = x * nComps + k := by ring
          rw [e]
          have h1 : outputImage.bounds.x1 * (nComps : Int) ≤ x * nComps :=
            mul_le_mul_of_nonneg_right (by omega) hc0
          have h2 : (x + 1) * (nComps : Int) ≤ outputImage.bounds.x2 * nComps :=
            mul_le_mul_of_nonneg_right (by omega) hc0
          exact decide_eq_true ⟨by linarith, by linarith⟩
        obtain ⟨_, _, rf, r3, r4, r5, r6⟩ := smearRow_spec (snapshotImage outputImage pb)
          maskData rows.1 rows.2.1 x1 j nComps (x2 - x1).toNat pb.x1 dstPixels rows.2.2 _ hrow
          rfl
        refine ⟨by omega, by rw [hyp]; ring, by rw [hmask]; ring, by rw [rf, hflag],
          by rw [r3, hnc], by rw [r4, hb], ?_, ?_⟩
        · intro y0 e0 h
          rw [r5 y0 e0, hframe y0 e0]
          · rcases h with h | h | h | h
            · exact Or.inl h
            · exact Or.inr (Or.inl (by omega))
            · exact Or.inr (Or.inr (Or.inl h))
            · exact Or.inr (Or.inr (Or.inr h))
          · rcases h with h | h | h | h
            · exact Or.inl (by omega)
            · exact Or.inl (by omega)
            · right; left; rw [hd]; exact h
            · by_cases hw : x1 ≤ x2
              · right; right; rw [hd, Int.toNat_of_nonneg (by omega)]
                have : x1 * (nComps : Int) + (x2 - x1) * nComps = x2 * nComps := by ring
                rw [this]; exact h
              · have h0 : (x2 - x1).toNat = 0 := Int.toNat_eq_zero.mpr (by omega)
                rcases lt_or_le e0 (x1 * (nComps : Int)) with hlt | hle
                · right; left; rw [hd]; exact hlt
                · right; right; rw [hd, h0]
                  push_cast
                  linarith
        · intro x y k hx0 hx1 hy0 hy1 hk0 hk1
          by_cases hyj : y = j
          · subst hyj
            have hw : ((x2 - x1).toNat : Int) = x2 - x1 := Int.toNat_of_nonneg (by omega)
            have e : x * (nComps : Int) + k = dstPixels + (x - x1) * nComps + k := by
              rw [hd]; ring
            have hne : ¬ outputImage.pixelAt x1 y = none := by rw [hdst]; simp
            rw [if_neg hne, e, r6 x k hx0 (by rw [hw]; omega) hk0 hk1,
              hframe y _ (Or.inr (Or.inl (le_refl _))), hyp, hmask]
          · rw [r5 y _ (Or.inl hyj)]
            exact hval x y k hx0 hx1 hy0 (by omega) hk0 hk1)
  obtain ⟨_, _, _, hflag, h3, _, h5, h6⟩ := key
  refine ⟨_, ?_, h3, ?_, ?_⟩
  · subst hpb hx1 hy1 hx2 hy2
    unfold renderSmearDot
    dsimp only
    rw [hflag]
    rfl
  · intro y0 e0 h
    apply h5 y0 e0
    rcases h with h | h | h | h
    · exact Or.inl h
    · rcases lt_or_le y0 y1 with hlt | hle
      · exact Or.inl hlt
      · exact Or.inr (Or.inl (by omega))
    · exact Or.inr (Or.inr (Or.inl h))
    · exact Or.inr (Or.inr (Or.inr h))
  · intro x y k hx0 hx1 hy0 hy1 hk0 hk1
    exact h6 x y k hx0 hx1 hy0 (by omega) hk0 hk1

/-- C23, as stated, fails: with a previous centre `(2, 2)` and a new centre `(4, 2)` on the
right edge of an image of bounds `[0, 4) x [0, 4)`, the box around the new centre is
`[3, 5) x [1, 3)`.  Its row 1 starts inside of the image (the pointer of line 1025 is not
null), and the pixel `(4, 1)` of the box has the snapshot pixel `(2, 1)`; but `(4, 1)` is not
a pixel of the image: the pointer `dstPixels` has left the row when the blend is assigned
through it, and no image results. -/
theorem renderSmearDot_writes_past_row :
    exampleImage.bounds = ⟨0, 0, 4, 4⟩ ∧
      exampleSmearEnv.toPixelEnclosing (2 - 2 / 2) (2 - 2 / 2) (2 + 2 / 2) (2 + 2 / 2) =
        ⟨1, 1, 3, 3⟩ ∧
      truncToInt ((4 : ℚ) - (Int.tdiv 3 2 : Int)) = 3 ∧
      truncToInt ((2 : ℚ) - (Int.tdiv 3 2 : Int)) = 1 ∧
      truncToInt ((4 : ℚ) + (Int.tdiv 3 2 : Int)) = 5 ∧
      truncToInt ((2 : ℚ) + (Int.tdiv 3 2 : Int)) = 3 ∧
      exampleImage.pixelAt 3 1 = some 3 ∧
      (snapshotImage exampleImage ⟨1, 1, 3, 3⟩).pixelAt (1 + (4 - 3)) (1 + (1 - 1)) = some 2 ∧
      exampleImage.pixelAt 4 1 = none ∧
      exampleImage.inRow (3 + 1) = false ∧
      (renderSmearDot exampleSmearEnv exampleSurface 4 3 3 ⟨2, 2⟩ ⟨4, 2⟩ 2 1
        exampleImage).isNone = true := by
  decide!

/-- C23, amended: when no pixel of the box around the new centre that has a snapshot pixel,
on a row whose first pixel `(x1, y)` is in the image, lies right of the image, `renderSmearDot`
returns an image, and for every pixel `(x, y)` of the image in the box, on a row of the box
that starts inside of the image, every component is blended as
`dst = src * mask + dst * (1 - mask)` when the corresponding pixel of the snapshot exists,
`mask` being the mask byte divided by 255 and `src` the value of the snapshot, taken around
the previous centre before any write; hence a mask byte of 0 leaves the pixel unchanged and a
mask byte of 255 copies the snapshot pixel.  A pixel with no snapshot pixel is left
unchanged. -/
theorem renderSmearDot_blend (env : SmearEnv) (maskData : SurfaceData)
    (maskStride maskWidth maskHeight : Int) (prev next : Point) (brushSizePixels : ℚ)
    (outputImage : Image) (pb : RectI) (x1 y1 x2 y2 x y : Int) (k : Nat)
    (hpb : pb = env.toPixelEnclosing (prev.x - brushSizePixels / 2)
      (prev.y - brushSizePixels / 2) (prev.x + brushSizePixels / 2)
      (prev.y + brushSizePixels / 2))
    (hx1 : x1 = truncToInt (next.x - (Int.tdiv maskWidth 2 : Int)))
    (hy1 : y1 = truncToInt (next.y - (Int.tdiv maskHeight 2 : Int)))
    (hx2 : x2 = truncToInt (next.x + (Int.tdiv maskWidth 2 : Int)))
    (hy2 : y2 = truncToInt (next.y + (Int.tdiv maskHeight 2 : Int)))
    (hx : x1 ≤ x ∧ x < x2) (hy : y1 ≤ y ∧ y < y2) (hk : k < outputImage.nComps)
    (hrow : outputImage.bounds.x1 ≤ x1 ∧ x < outputImage.bounds.x2 ∧
      outputImage.bounds.y1 ≤ y ∧ y < outputImage.bounds.y2)
    (hin : ∀ x0 y0 : Int, x1 ≤ x0 → x0 < x2 → y1 ≤ y0 → y0 < y2 →
      outputImage.pixelAt x1 y0 ≠ none →
      (snapshotImage outputImage pb).pixelAt (pb.x1 + (x0 - x1)) (pb.y1 + (y0 - y1)) ≠ none →
      x0 < outputImage.bounds.x2) :
    ∃ result : Image,
      renderSmearDot env maskData maskStride maskWidth maskHeight prev next brushSizePixels
        outputImage.nComps outputImage = some result ∧
      ((snapshotImage outputImage pb).pixelAt (pb.x1 + (x - x1)) (pb.y1 + (y - y1)) ≠ none →
        result.get x y k =
          (snapshotImage outputImage pb).get (pb.x1 + (x - x1)) (pb.y1 + (y - y1)) k *
              ((maskData ((y - y1) * maskStride + (x - x1)) : ℚ) / 255) +
            outputImage.get x y k *
              (1 - (maskData ((y - y1) * maskStride + (x - x1)) : ℚ) / 255) ∧
        (maskData ((y - y1) * maskStride + (x - x1)) = 0 →
          result.get x y k = outputImage.get x y k) ∧
        (maskData ((y - y1) * maskStride + (x - x1)) = 255 →
          result.get x y k =
            (snapshotImage outputImage pb).get (pb.x1 + (x - x1)) (pb.y1 + (y - y1)) k)) ∧
      ((snapshotImage outputImage pb).pixelAt (pb.x1 + (x - x1)) (pb.y1 + (y - y1)) = none →
        result.get x y k = outputImage.get x y k) := by
  obtain ⟨result, hsome, s1, _, s3⟩ := renderSmearDot_spec env maskData maskStride maskWidth
    maskHeight prev next brushSizePixels outputImage.nComps outputImage pb x1 y1 x2 y2 hpb hx1
    hy1 hx2 hy2 rfl hin
  have hval := s3 x y k hx.1 hx.2 hy.1 hy.2 (Int.natCast_nonneg _) (by exact_mod_cast hk)
  have hstart : ¬ outputImage.pixelAt x1 y = none := by
    rw [Image.pixelAt, if_pos ⟨hrow.1, by omega, hrow.2.2.1, hrow.2.2.2⟩]; simp
  rw [if_neg hstart] at hval
  have hget : result.get x y k =
      smearValue (snapshotImage outputImage pb)
        (maskData ((y - y1) * maskStride + (x - x1))) (pb.x1 + (x - x1)) (pb.y1 + (y - y1)) k
        (outputImage.data y (x * outputImage.nComps + k)) := by
    rw [Image.get, s1]; exact hval
  refine ⟨result, hsome, ?_, ?_⟩
  · intro h
    have hb : result.get x y k =
        (snapshotImage outputImage pb).get (pb.x1 + (x - x1)) (pb.y1 + (y - y1)) k *
            ((maskData ((y - y1) * maskStride + (x - x1)) : ℚ) / 255) +
          outputImage.get x y k *
            (1 - (maskData ((y - y1) * maskStride + (x - x1)) : ℚ) / 255) := by
      rw [hget, smearValue]
      cases hs : (snapshotImage outputImage pb).pixelAt (pb.x1 + (x - x1)) (pb.y1 + (y - y1)) with
      | none => exact absurd hs h
      | some sp =>
        have hsp : sp = (pb.x1 + (x - x1)) * outputImage.nComps := by
          rw [Image.pixelAt] at hs
          split at hs
          · exact (Option.some.inj hs).symm
          · exact absurd hs (by simp)
        subst hsp
        rfl
    refine ⟨hb, ?_, ?_⟩
    · intro h0
      rw [hb, h0]; simp
    · intro h255
      rw [hb, h255]; norm_num
  · intro h
    rw [hget, smearValue, h]
    rfl

/-- A concrete instance: the pixel `(2, 1)` of the box `[1, 3) x [1, 3)`, with the mask byte
51 and the snapshot pixel `(1, 0)`. -/
theorem renderSmearDot_blend_witness :
    ∃ result : Image,
      renderSmearDot exampleSmearEnv exampleSurface 4 3 3 ⟨1, 1⟩ ⟨2, 2⟩ 2 exampleImage.nComps
        exampleImage = some result ∧
      result.get 2 1 0 =
        (snapshotImage exampleImage ⟨0, 0, 2, 2⟩).get (0 + (2 - 1)) (0 + (1 - 1)) 0 *
            ((exampleSurface ((1 - 1) * 4 + (2 - 1)) : ℚ) / 255) +
          exampleImage.get 2 1 0 * (1 - (exampleSurface ((1 - 1) * 4 + (2 - 1)) : ℚ) / 255) :=
  (renderSmearDot_blend exampleSmearEnv exampleSurface 4 3 3 ⟨1, 1⟩ ⟨2, 2⟩ 2 exampleImage
    ⟨0, 0, 2, 2⟩ 1 1 3 3 2 1 0 (by decide!) (by decide!) (by decide!) (by decide!) (by decide!)
    (by decide) (by decide) (by decide) (by decide)
    (fun x0 _ _ h _ _ _ _ => lt_trans h (by decide))).imp
    (fun _ h => ⟨h.1, (h.2.1 (by decide)).1⟩)

/-- The value of that pixel after the call: `1/8 * 1/5 + 3/8 * 4/5`. -/
theorem renderSmearDot_example :
    (renderSmearDot exampleSmearEnv exampleSurface 4 3 3 ⟨1, 1⟩ ⟨2, 2⟩ 2 1 exampleImage).map
      (fun result => result.get 2 1 0) = some (13 / 40) := by
  decide!

end Natron
